import Mathlib

/-!
# rtsr: the height-field mesh of `Mesh.cpp`

A shallow embedding of `Mesh<double>` (src/src/Mesh.cpp, src/src/Mesh.hpp).

* The scalar type `T = double` is idealised by exact rationals `ℚ`.
* Eigen matrices with three columns are lists of rows `(x, y, z)`; the height is
  the middle coordinate (column 1).
* `MESH_RESOLUTION` and `MESH_SCALING_FACTOR` are macros of `Mesh.hpp`; the
  operations take them as the parameters `R` and `s`.
* `EqHelpers.hpp` (the classes `JtJMatrixGrid` and `JtzVector`) is not part of the
  sources at hand; the definitions that stand for it are marked
  `Modelled from the spec:`.
* `igl::embree::line_mesh_intersection` is an external collaborator and is a
  parameter (`RayCaster`) of `set_target_point_cloud`.
-/

namespace Rtsr

/-- A row of an `N x 3` matrix: `(x, y, z)`; column 1 (`y`) is the height. -/
abbrev Vec3 := ℚ × ℚ × ℚ

/-- A row of the face matrix `F`: three vertex indices. -/
abbrev Face := Nat × Nat × Nat

/-- The macro `MESH_RESOLUTION`, `30` (Mesh.hpp:12): vertices along one dimension. -/
def MESH_RESOLUTION : Nat := 30

/-- The macro `MESH_SCALING_FACTOR`, `1.4` (Mesh.hpp:15). -/
def MESH_SCALING_FACTOR : ℚ := 14 / 10

/-! ## Column reductions of Eigen (`colwise().minCoeff()` and friends) -/

/-- One column of `P.colwise().minCoeff()`; Eigen leaves the reduction of an empty
matrix undefined, the embedding returns `0` there. -/
def colMin (c : Vec3 → ℚ) : List Vec3 → ℚ
  | [] => 0
  | p :: ps => ps.foldl (fun m q => min m (c q)) (c p)

/-- One column of `P.colwise().maxCoeff()`. -/
def colMax (c : Vec3 → ℚ) : List Vec3 → ℚ
  | [] => 0
  | p :: ps => ps.foldl (fun m q => max m (c q)) (c p)

/-- One column of `P.colwise().mean()`: the sum of the column over the row count. -/
def colMean (c : Vec3 → ℚ) (P : List Vec3) : ℚ :=
  (P.map c).sum / (P.length : ℚ)

/-- Column 0 of a row. -/
def cx (p : Vec3) : ℚ := p.1

/-- Column 1 of a row (the height). -/
def cy (p : Vec3) : ℚ := p.2.1

/-- Column 2 of a row. -/
def cz (p : Vec3) : ℚ := p.2.2

/-- The bounding-box extent `bb_d = (bb_max - bb_min).cwiseAbs()` along one column
(Mesh.cpp:97-99). -/
def bbExtent (c : Vec3 → ℚ) (P : List Vec3) : ℚ := |colMax c P - colMin c P|

/-- The midpoint of the bounding box along one column. -/
def bbCentre (c : Vec3 → ℚ) (P : List Vec3) : ℚ := (colMin c P + colMax c P) / 2

/-! ## The face table (Mesh.cpp:127-136) -/

/-- The row written at `x_step*2 + y_step*(R-1)*2` (Mesh.cpp:133). -/
def faceLower (R x_step y_step : Nat) : Face :=
  (x_step + y_step * R, x_step + 1 + y_step * R, x_step + (y_step + 1) * R)

/-- The row written at `x_step*2 + y_step*(R-1)*2 + 1` (Mesh.cpp:134). -/
def faceUpper (R x_step y_step : Nat) : Face :=
  (x_step + 1 + (y_step + 1) * R, x_step + (y_step + 1) * R, x_step + 1 + y_step * R)

/-- The body of the face loops for one cell: two row writes. -/
def faceStep (R y_step : Nat) (F : List Face) (x_step : Nat) : List Face :=
  (F.set (x_step * 2 + y_step * (R - 1) * 2) (faceLower R x_step y_step)).set
    (x_step * 2 + y_step * (R - 1) * 2 + 1) (faceUpper R x_step y_step)

/-- The two nested face loops of `align_to_point_cloud`, run on the resized `F`. -/
def faceLoop (R : Nat) (F : List Face) : List Face :=
  (List.range (R - 1)).foldl
    (fun F y_step => (List.range (R - 1)).foldl (faceStep R y_step) F) F

/-- The three vertex indices of a face row as a list. -/
def Face.verts (f : Face) : List Nat := [f.1, f.2.1, f.2.2]

/-! ## JtJMatrixGrid and JtzVector (EqHelpers.hpp, modelled) -/

/-- Modelled from the spec: the fixed triangle to vertex mapping of `JtJMatrixGrid`
and `JtzVector` (EqHelpers.hpp is missing). It is the indexing of the face table
(Mesh.cpp:132: "JtJ matrix implementation depends on this indexing"): triangle
`2*(x + y*(R-1))` is the lower triangle of cell `(x, y)`, the next one the upper. -/
def triangle_vertices (R t : Nat) : Face :=
  if t % 2 = 0 then faceLower R ((t / 2) % (R - 1)) ((t / 2) / (R - 1))
  else faceUpper R ((t / 2) % (R - 1)) ((t / 2) / (R - 1))

/-- Modelled from the spec: the barycentric weight vector of a point, paired with
the vertices of its triangle: `(v0, b0), (v1, b1), (v2, b2)` with
`b0 = 1 - b1 - b2` derived (spec 4.3). -/
def weighted_vertices (R t : Nat) (b1 b2 : ℚ) : List (Nat × ℚ) :=
  [((triangle_vertices R t).1, 1 - b1 - b2),
   ((triangle_vertices R t).2.1, b1),
   ((triangle_vertices R t).2.2, b2)]

/-- Modelled from the spec: entry `(r, c)` of the outer product of the weight vector
with itself, placed in the block of rows and columns `{v0, v1, v2}` (spec 4.3). -/
def block_entry (ws : List (Nat × ℚ)) (r c : Nat) : ℚ :=
  (ws.map (fun a => (ws.map (fun b =>
    if r = a.1 ∧ c = b.1 then a.2 * b.2 else 0)).sum)).sum

/-- Modelled from the spec: entry `r` of the weight vector times the target,
placed at the rows `{v0, v1, v2}` (spec 4.3). -/
def rhs_entry (ws : List (Nat × ℚ)) (z : ℚ) (r : Nat) : ℚ :=
  (ws.map (fun a => if r = a.1 then a.2 * z else 0)).sum

/-- Modelled from the spec: the NormalEquationsGrid (class `JtJMatrixGrid` of the
missing EqHelpers.hpp): the grid resolution and, for every vertex, its diagonal
coefficient `coeff i i` and its off-diagonal coefficients `coeff i j`. -/
structure JtJMatrixGrid where
  /-- The grid resolution given to `resize`. -/
  res : Nat
  /-- The accumulated coefficient of row vertex `i` and column vertex `j`. -/
  coeff : Nat → Nat → ℚ

/-- Modelled from the spec: the RHS accumulator (class `JtzVector` of the missing
EqHelpers.hpp): one scalar per vertex. -/
structure JtzVector where
  /-- The grid resolution given to `resize`. -/
  res : Nat
  /-- The accumulated right-hand side of vertex `i`. -/
  vec : Nat → ℚ

/-- Modelled from the spec: `JtJ.resize(R)` discards what was accumulated (spec 4.1:
"explicit discard, not merge") and leaves an all-zero grid of resolution `R`. -/
def JtJMatrixGrid.resize (_g : JtJMatrixGrid) (R : Nat) : JtJMatrixGrid :=
  { res := R, coeff := fun _ _ => 0 }

/-- Modelled from the spec: `Jtz.resize(R)` leaves an all-zero vector. -/
def JtzVector.resize (_g : JtzVector) (R : Nat) : JtzVector :=
  { res := R, vec := fun _ => 0 }

/-- Modelled from the spec: `JtJ.update_triangle(t, b1, b2)` adds (never overwrites)
the outer product of the weight vector into the grid (spec 4.3). -/
def JtJMatrixGrid.update_triangle (g : JtJMatrixGrid) (t : Nat) (b1 b2 : ℚ) :
    JtJMatrixGrid :=
  { res := g.res
    coeff := fun r c => g.coeff r c + block_entry (weighted_vertices g.res t b1 b2) r c }

/-- Modelled from the spec: `Jtz.update_triangle(t, b1, b2, z)` adds `weight_i * z`
at row `v_i` (spec 4.3). -/
def JtzVector.update_triangle (g : JtzVector) (t : Nat) (b1 b2 z : ℚ) : JtzVector :=
  { res := g.res
    vec := fun r => g.vec r + rhs_entry (weighted_vertices g.res t b1 b2) z r }

/-- Modelled from the spec: `Jtz.get_vec()`, the accumulated vector. -/
def JtzVector.get_vec (g : JtzVector) : Nat → ℚ := g.vec

/-- Modelled from the spec: vertices `i` and `u` share a triangle of the fixed
triangulation of resolution `R` (spec 4.3). -/
def shares_triangle (R i u : Nat) : Bool :=
  (List.range ((R - 1) * (R - 1) * 2)).any
    (fun t => decide (i ∈ (triangle_vertices R t).verts) &&
      decide (u ∈ (triangle_vertices R t).verts))

/-- Modelled from the spec: the reachable neighbours of vertex `i`: "exactly those
sharing a triangle with `i` under the fixed triangulation", in index order. -/
def neighbours (R i : Nat) : List Nat :=
  (List.range (R * R)).filter (fun u => decide (u ≠ i) && shares_triangle R i u)

/-- Modelled from the spec: `JtJ.get_matrix_values_for_vertex(i, vals, ids, a)`:
the six `(coefficient, neighbour id)` slots of vertex `i`, the slots beyond the
stencil carrying the sentinel id `-1`, and the diagonal coefficient `a`. -/
def JtJMatrixGrid.get_matrix_values_for_vertex (g : JtJMatrixGrid) (i : Nat) :
    List ℚ × List Int × ℚ :=
  let nb := (neighbours g.res i).take 6
  (nb.map (g.coeff i) ++ List.replicate (6 - nb.length) 0,
   nb.map Int.ofNat ++ List.replicate (6 - nb.length) (-1),
   g.coeff i i)

/-- The vertices other than `v`, among the first `n`, that share a row of the face
table `F` with `v`. -/
def faceNeighbours (F : List Face) (n v : Nat) : List Nat :=
  (List.range n).filter
    (fun u => decide (u ≠ v) &&
      F.any (fun f => decide (v ∈ f.verts) && decide (u ∈ f.verts)))

/-- Grid adjacency under the fixed split: `(a, b)` is one of the six grid points
east, west, north, south, south-east and north-west of `(x, y)`. -/
def gridAdjacent (x y a b : Nat) : Prop :=
  (a = x + 1 ∧ b = y) ∨ (a + 1 = x ∧ b = y) ∨ (a = x ∧ b = y + 1) ∨ (a = x ∧ b + 1 = y) ∨
    (a = x + 1 ∧ b + 1 = y) ∨ (a + 1 = x ∧ b = y + 1)

/-! ## The mesh -/

/-- The state of a `Mesh<double>` (the members used by Mesh.cpp). -/
structure Mesh where
  /-- Mesh location and orientation, a 4 x 4 matrix. -/
  transform : Matrix (Fin 4) (Fin 4) ℚ
  /-- Vertices, one row `(x, y, z)` each. -/
  V : List Vec3
  /-- Face vertex indices. -/
  F : List Face
  /-- The normal-equations grid. -/
  JtJ : JtJMatrixGrid
  /-- The right-hand side. -/
  Jtz : JtzVector
  /-- The height vector of the solver. -/
  h : List ℚ

/-- The constructor `Mesh<T>::Mesh()` (Mesh.cpp:78-82): an empty body; every dynamic member is
default-constructed with no rows. -/
def Mesh.new : Mesh :=
  { transform := 0, V := [], F := [],
    JtJ := { res := 0, coeff := fun _ _ => 0 },
    Jtz := { res := 0, vec := fun _ => 0 }, h := [] }

/-- The transform `Eigen::Scaling(TvecC3(sx, sy, sz))` as an affine 4 x 4 matrix. -/
def scalingMatrix (sx sy sz : ℚ) : Matrix (Fin 4) (Fin 4) ℚ :=
  !![sx, 0, 0, 0; 0, sy, 0, 0; 0, 0, sz, 0; 0, 0, 0, 1]

/-- The transform `Eigen::Translation<T, 3>(t)` as an affine 4 x 4 matrix. -/
def translationMatrix (t : Vec3) : Matrix (Fin 4) (Fin 4) ℚ :=
  !![1, 0, 0, t.1; 0, 1, 0, t.2.1; 0, 0, 1, t.2.2; 0, 0, 0, 1]

/-- The row written to `V.row(x_step + z_step*R)` (Mesh.cpp:122-123):
`(v * scaling^T * transform^T).head<3>()` with
`v = (x_step - (R-1)/2, 1, z_step - (R-1)/2, 1)`. -/
def vertexRow (R : Nat) (scaling transform : Matrix (Fin 4) (Fin 4) ℚ)
    (x_step z_step : Nat) : Vec3 :=
  let v : Fin 4 → ℚ :=
    ![(x_step : ℚ) - ((R : ℚ) - 1) / 2, 1, (z_step : ℚ) - ((R : ℚ) - 1) / 2, 1]
  let r := Matrix.vecMul (Matrix.vecMul v scaling.transpose) transform.transpose
  (r 0, r 1, r 2)

/-- The two nested vertex loops of `align_to_point_cloud` (Mesh.cpp:117-125). -/
def vertexLoop (R : Nat) (scaling transform : Matrix (Fin 4) (Fin 4) ℚ)
    (V : List Vec3) : List Vec3 :=
  (List.range R).foldl
    (fun V z_step => (List.range R).foldl
      (fun V x_step =>
        V.set (x_step + z_step * R) (vertexRow R scaling transform x_step z_step)) V) V

/-- The method `Mesh<T>::align_to_point_cloud(P)` (Mesh.cpp:90-147), for resolution `R` and
scaling factor `s`. `resize` leaves the rows of `V` and `F` unspecified until the
loops write them; the embedding starts them at zero. -/
def align_to_point_cloud (R : Nat) (s : ℚ) (m : Mesh) (P : List Vec3) : Mesh :=
  let bb_min : Vec3 := (colMin cx P, colMin cy P, colMin cz P)
  let bb_max : Vec3 := (colMax cx P, colMax cy P, colMax cz P)
  let bb_d : Vec3 := (|bb_max.1 - bb_min.1|, |bb_max.2.1 - bb_min.2.1|,
    |bb_max.2.2 - bb_min.2.2|)
  let scaling := scalingMatrix (s * bb_d.1 / ((R : ℚ) - 1)) 0
    (s * bb_d.2.2 / ((R : ℚ) - 1))
  let pc_mean : Vec3 := (colMean cx P, colMean cy P, colMean cz P)
  let P_centr : Vec3 := (bb_min.1 + (1 / 2) * (bb_max.1 - bb_min.1), pc_mean.2.1,
    bb_min.2.2 + (1 / 2) * (bb_max.2.2 - bb_min.2.2))
  let transform := translationMatrix (P_centr.1 - 0, P_centr.2.1 - 0, P_centr.2.2 - 0)
  let n := (R - 1) * (R - 1) * 2
  { transform := transform
    V := vertexLoop R scaling transform (List.replicate (R * R) (0, 0, 0))
    F := faceLoop R (List.replicate n (0, 0, 0))
    JtJ := (List.range n).foldl
      (fun g i => g.update_triangle i (34 / 100) (33 / 100)) (m.JtJ.resize R)
    Jtz := (List.range n).foldl
      (fun g i => g.update_triangle i (34 / 100) (33 / 100) pc_mean.2.1) (m.Jtz.resize R)
    h := List.replicate (R * R) 0 }

/-- The accessor `Mesh<T>::vertices()`. -/
def Mesh.vertices (m : Mesh) : List Vec3 := m.V

/-- The accessor `Mesh<T>::faces()`. -/
def Mesh.faces (m : Mesh) : List Face := m.F

/-- The conversion `static_cast<int>` of a scalar: truncation toward zero. -/
def static_cast_int (q : ℚ) : Int := if 0 ≤ q then ⌊q⌋ else ⌈q⌉

/-- The external ray caster `igl::embree::line_mesh_intersection(P, N, V, F)`: one
row `(triangle id or -1, b1, b2)` per point. -/
abbrev RayCaster := List Vec3 → List Vec3 → List Vec3 → List Face → List Vec3

/-- The two accumulator calls of `set_target_point_cloud` for one hit
(Mesh.cpp:177-179): triangle `t`, weights `b1`, `b2` and target height `z`. -/
def accumulateHit (st : JtJMatrixGrid × JtzVector) (c : Nat × ℚ × ℚ × ℚ) :
    JtJMatrixGrid × JtzVector :=
  (st.1.update_triangle c.1 c.2.1 c.2.2.1,
   st.2.update_triangle c.1 c.2.1 c.2.2.1 c.2.2.2)

/-- The contribution `(triangle id, b1, b2, target height)` of row `i` of the
ray-cast result `bc`; the target is `P.row(i)(1)`. -/
def contribution (P bc : List Vec3) (i : Nat) : Nat × ℚ × ℚ × ℚ :=
  ((static_cast_int (bc.getD i (0, 0, 0)).1).toNat, (bc.getD i (0, 0, 0)).2.1,
   (bc.getD i (0, 0, 0)).2.2, (P.getD i (0, 0, 0)).2.1)

/-- The body of the loop of `set_target_point_cloud` for row `i` of the ray-cast
result `bc` (Mesh.cpp:170-180); the grid and the vector are the loop state. -/
def fitStep (P bc : List Vec3) (st : JtJMatrixGrid × JtzVector) (i : Nat) :
    JtJMatrixGrid × JtzVector :=
  if static_cast_int (bc.getD i (0, 0, 0)).1 = -1 then st
  else accumulateHit st (contribution P bc i)

/-- The loop `for (int i = 0; i < bc.rows(); ++i)` of `set_target_point_cloud`. -/
def fitLoop (P bc : List Vec3) (st : JtJMatrixGrid × JtzVector) :
    JtJMatrixGrid × JtzVector :=
  (List.range bc.length).foldl (fitStep P bc) st

/-- The method `Mesh<T>::set_target_point_cloud(P)` (Mesh.cpp:161-181). -/
def set_target_point_cloud (lmi : RayCaster) (m : Mesh) (P : List Vec3) : Mesh :=
  let normals := List.replicate P.length ((1 / 10000 : ℚ), (1 : ℚ), (0 : ℚ))
  let bc := lmi P normals m.V m.F
  let st := fitLoop P bc (m.JtJ, m.Jtz)
  { m with JtJ := st.1, Jtz := st.2 }

/-- Accumulate a list of contributions with `update_triangle`, in list order. -/
def accumulate (cs : List (Nat × ℚ × ℚ × ℚ)) (st : JtJMatrixGrid × JtzVector) :
    JtJMatrixGrid × JtzVector :=
  cs.foldl accumulateHit st

/-- The inner loop of `gauss_seidel` (Mesh.cpp:210-216): the accumulator `acc`
after the six slots, skipping the slots whose id is `-1`. -/
def gsAcc (vals : List ℚ) (ids : List Int) (h : List ℚ) : ℚ :=
  (List.range 6).foldl
    (fun acc j =>
      if ids.getD j (-1) = -1 then acc
      else acc + vals.getD j 0 * h.getD (ids.getD j (-1)).toNat 0) 0

/-- The body of the vertex loop of `gauss_seidel` (Mesh.cpp:199-221): the new
value of `h(i)` computed from the current `h`. -/
def gsValue (JtJ : JtJMatrixGrid) (Jtz : JtzVector) (h : List ℚ) (i : Nat) : ℚ :=
  let xn := Jtz.get_vec i
  let r := JtJ.get_matrix_values_for_vertex i
  (xn - gsAcc r.1 r.2.1 h) / r.2.2

/-- One pass of the vertex loop body: `h(i) = xn/a`, in place. -/
def gsStep (JtJ : JtJMatrixGrid) (Jtz : JtzVector) (h : List ℚ) (i : Nat) : List ℚ :=
  h.set i (gsValue JtJ Jtz h i)

/-- One sweep: the loop `for (i = 0; i < h.rows(); i++)`. -/
def gsSweep (JtJ : JtJMatrixGrid) (Jtz : JtzVector) (h : List ℚ) : List ℚ :=
  (List.range h.length).foldl (gsStep JtJ Jtz) h

/-- The method `Mesh<T>::gauss_seidel(h, iterations)` (Mesh.cpp:191-223). -/
def gauss_seidel (m : Mesh) (h : List ℚ) (iterations : Int) : List ℚ :=
  (List.range iterations.toNat).foldl (fun h _ => gsSweep m.JtJ m.Jtz h) h

/-- The assignment `V.col(1) = h`: Eigen requires as many rows in `h` as in `V`;
rows of `V` beyond `h` are left as they are. -/
def setCol1 : List Vec3 → List ℚ → List Vec3
  | [], _ => []
  | r :: rs, [] => r :: rs
  | r :: rs, a :: as => (r.1, a, r.2.2) :: setCol1 rs as

/-- The method `Mesh<T>::iterate()` (Mesh.cpp:183-189). -/
def iterate (m : Mesh) : Mesh :=
  let h := gauss_seidel m m.h 1
  { m with h := h, V := setCol1 m.V h }

/-- A call of the public interface after `align`. -/
inductive MeshOp where
  | fit (P : List Vec3)
  | relax

/-- Run a sequence of `fit` / `relax` calls. -/
def runOps (lmi : RayCaster) (m : Mesh) : List MeshOp → Mesh
  | [] => m
  | MeshOp.fit P :: ops => runOps lmi (set_target_point_cloud lmi m P) ops
  | MeshOp.relax :: ops => runOps lmi (iterate m) ops

/-- The vertex loop of `gauss_seidel` after its first `k` passes. -/
def gsPrefix (JtJ : JtJMatrixGrid) (Jtz : JtzVector) (h : List ℚ) (k : Nat) : List ℚ :=
  (List.range k).foldl (gsStep JtJ Jtz) h

/-- The sequence `u` of scalars converges to `c`. -/
def convergesTo (u : Nat → ℚ) (c : ℚ) : Prop :=
  ∀ ε : ℚ, 0 < ε → ∃ N : Nat, ∀ k : Nat, N ≤ k → |u k - c| < ε

/-- The spec's `relax(iterations)` on the code: Mesh.cpp has no entry point that takes
an iteration count; a caller relaxes `iterations` times by calling `iterate()` that
often. -/
def relax (m : Mesh) (iterations : Nat) : Mesh := iterate^[iterations] m

/-- What the caller of `set_target_point_cloud` gets back: the method returns `void`
and Mesh.cpp has no `throw`, no assertion and no status code on this path, so the
call hands back a state; `none` stands for a call that fails. -/
def fit_call (lmi : RayCaster) (m : Mesh) (P : List Vec3) : Option Mesh :=
  some (set_target_point_cloud lmi m P)

/-! ## DataSet.cpp: compaction of the point cloud -/

/-- One entry of `in.cast<bool>().rowwise().any()`: the row has a coordinate that
is not zero. -/
def row_any (r : Vec3) : Bool :=
  decide (r.1 ≠ 0) || decide (r.2.1 ≠ 0) || decide (r.2.2 ≠ 0)

/-- The body of the copy loop of `remove_empty_rows` (DataSet.cpp:20-24); the state
is the output matrix and the write position `j`. -/
def compactStep (inp : List Vec3) (non_zeros : List Bool) (st : List Vec3 × Nat) (i : Nat) :
    List Vec3 × Nat :=
  if non_zeros.getD i false then (st.1.set st.2 (inp.getD i (0, 0, 0)), st.2 + 1) else st

/-- The function `remove_empty_rows(in, out)` (DataSet.cpp:11-25) on an `N x 3`
matrix; the result is `out`. `resize` leaves the rows of `out` unspecified until the
loop writes them; the embedding starts them at zero. -/
def remove_empty_rows (inp : List Vec3) : List Vec3 :=
  let non_zeros := inp.map row_any
  let out := List.replicate (non_zeros.count true) ((0, 0, 0) : Vec3)
  ((List.range inp.length).foldl (compactStep inp non_zeros) (out, 0)).1

/-- The weight that the weight vector `ws` gives to vertex `i` (zero when `i` is not a
vertex of the triangle). -/
def vertex_weight (ws : List (Nat × ℚ)) (i : Nat) : ℚ :=
  (ws.map (fun a => if i = a.1 then a.2 else 0)).sum

/-- The accumulated system is balanced at height `c`: at every vertex the right-hand
side is `c` times the sum of the diagonal coefficient and the coefficients of the
neighbours. -/
def balancedAt (R : Nat) (c : ℚ) (st : JtJMatrixGrid × JtzVector) : Prop :=
  st.1.res = R ∧ st.2.res = R ∧
    ∀ i, st.2.vec i = c * (st.1.coeff i i + ((neighbours R i).map (st.1.coeff i)).sum)

/-- The contract of the ray caster (spec 6): one row per point, each carrying the
id of a triangle of the mesh of resolution `R` or the no-hit id `-1`. -/
def wellFormedCaster (R : Nat) (lmi : RayCaster) : Prop :=
  ∀ P N V F, (lmi P N V F).length = P.length ∧
    ∀ row ∈ lmi P N V F, static_cast_int row.1 = -1 ∨
      (0 ≤ static_cast_int row.1 ∧
        static_cast_int row.1 < (((R - 1) * (R - 1) * 2 : Nat) : ℤ))

/-- Every point cloud fitted in the sequence of calls has all its points at height
`c`. -/
def fittedAtHeight (c : ℚ) : List MeshOp → Prop
  | [] => True
  | MeshOp.fit P :: ops => (∀ p ∈ P, cy p = c) ∧ fittedAtHeight c ops
  | MeshOp.relax :: ops => fittedAtHeight c ops

/-! ## Auxiliary quantities for the analysis of the prior system

These are not part of the program: they describe a vector that every prior equation
annihilates and the linear form on height vectors that a sweep preserves. -/

/-- The integer sequence `b 0 = 0`, `b 1 = 1`, `b (k+2) = -(34 * b (k+1) + 1089 * b k)`,
carried as the pair `(b k, b (k+1))`. -/
def kernelPair : Nat → ℤ × ℤ
  | 0 => (0, 1)
  | k + 1 => ((kernelPair k).2, -(34 * (kernelPair k).2 + 1089 * (kernelPair k).1))

/-- The entry `b k` of the integer sequence. -/
def kernelInt (k : Nat) : ℤ := (kernelPair k).1

/-- The sequence `a k = b k / 33 ^ k`; it solves `33 a(k+2) + 34 a(k+1) + 33 a(k) = 0`,
the relation between the prior weights `0.33, 0.34, 0.33` of one triangle. -/
def kernelSeq (k : Nat) : ℚ := (kernelInt k : ℚ) / 33 ^ k

/-- A vector on the grid that every prior equation annihilates: vertex `(x, y)` carries
`a (x + 2 y)`. -/
def kernelWeight (R i : Nat) : ℚ := kernelSeq (i % R + 2 * (i / R))

/-- The share of triangle `t` in the linear form that a Gauss-Seidel sweep of the prior
system preserves: with the corners `p < q < r` of the triangle in index order, it is
`w r ^ 2 * n r * h r - w p * w q * n p * h q`. -/
def triangleForm (R : Nat) (h : Nat → ℚ) (t : Nat) : ℚ :=
  if t % 2 = 0 then
    33 / 100 * (33 / 100) * kernelWeight R (triangle_vertices R t).2.2 *
        h (triangle_vertices R t).2.2 -
      33 / 100 * (34 / 100) * kernelWeight R (triangle_vertices R t).1 *
        h (triangle_vertices R t).2.1
  else
    33 / 100 * (33 / 100) * kernelWeight R (triangle_vertices R t).1 *
        h (triangle_vertices R t).1 -
      33 / 100 * (34 / 100) * kernelWeight R (triangle_vertices R t).2.2 *
        h (triangle_vertices R t).2.1

/-- The linear form on height vectors that a sweep of the prior system preserves. -/
def sweepForm (R : Nat) (h : Nat → ℚ) : ℚ :=
  ((List.range ((R - 1) * (R - 1) * 2)).map (triangleForm R h)).sum

/-- The residual of equation `i` of one in-place sweep: `hn` holds the heights after
the sweep, `ho` the heights before it; the equation reads the new heights at the
vertices below `i` and the old heights above. -/
def sweepResidual (R : Nat) (st : JtJMatrixGrid × JtzVector) (hn ho : Nat → ℚ) (i : Nat) : ℚ :=
  st.1.coeff i i * hn i +
    ((neighbours R i).map (fun u => st.1.coeff i u * (if u < i then hn u else ho u))).sum -
    st.2.vec i

/-! ## Concrete inputs -/

/-- A point cloud of two points, of mean height `2`. -/
def exampleCloud : List Vec3 := [(0, 1, 0), (2, 3, 4)]

/-- The mesh of resolution `2` aligned to `exampleCloud`. -/
def exampleMesh : Mesh := align_to_point_cloud 2 1 Mesh.new exampleCloud

/-- A ray caster for which every point misses the mesh. -/
def missCaster : RayCaster := fun P _ _ _ => P.map (fun _ => ((-1 : ℚ), (0 : ℚ), (0 : ℚ)))

/-- A point cloud whose mean height `1` differs from the height `3/2` of the centre
of its bounding box. -/
def skewCloud : List Vec3 := [(0, 0, 0), (4, 0, 2), (2, 3, 6)]

/-- A point cloud of two points, of mean height `0`. -/
def levelCloud : List Vec3 := [(0, -1, 0), (2, 1, 4)]

/-- A ray caster for which every point hits triangle `0` with weights `1/4`, `1/2`. -/
def hitCaster : RayCaster := fun P _ _ _ => P.map (fun _ => ((0 : ℚ), (1 / 4 : ℚ), (1 / 2 : ℚ)))

/-- The example mesh after one `fit` in which every point hits and one `relax`. -/
def usedMesh : Mesh :=
  runOps hitCaster exampleMesh [MeshOp.fit exampleCloud, MeshOp.relax]

/-- A point cloud with every point at height `2`. -/
def flatCloud : List Vec3 := [(0, 2, 0), (1, 2, 1)]

/-! ## Theorems -/

/-! ## Gauss-Seidel: one sweep -/

theorem gsPrefix_succ (JtJ : JtJMatrixGrid) (Jtz : JtzVector) (h : List ℚ) (k : Nat) :
    gsPrefix JtJ Jtz h (k + 1) = gsStep JtJ Jtz (gsPrefix JtJ Jtz h k) k := by
  simp [gsPrefix, List.range_succ, List.foldl_append]

theorem gsPrefix_length (JtJ : JtJMatrixGrid) (Jtz : JtzVector) (h : List ℚ) (k : Nat) :
    (gsPrefix JtJ Jtz h k).length = h.length := by
  induction k with
  | zero => simp [gsPrefix]
  | succ k ih => rw [gsPrefix_succ, gsStep, List.length_set, ih]

theorem gsSweep_eq_gsPrefix (JtJ : JtJMatrixGrid) (Jtz : JtzVector) (h : List ℚ) :
    gsSweep JtJ Jtz h = gsPrefix JtJ Jtz h h.length := rfl

theorem gsSweep_length (JtJ : JtJMatrixGrid) (Jtz : JtzVector) (h : List ℚ) :
    (gsSweep JtJ Jtz h).length = h.length := by
  rw [gsSweep_eq_gsPrefix, gsPrefix_length]

/-- Entries at or above the pass counter still hold the value from before the sweep. -/
theorem gsPrefix_get_ge (JtJ : JtJMatrixGrid) (Jtz : JtzVector) (h : List ℚ) (k j : Nat)
    (hkj : k ≤ j) : (gsPrefix JtJ Jtz h k)[j]? = h[j]? := by
  induction k with
  | zero => simp [gsPrefix]
  | succ k ih =>
    rw [gsPrefix_succ, gsStep, List.getElem?_set_ne (by omega), ih (by omega)]

/-- An entry below the pass counter is never written again. -/
theorem gsPrefix_get_lt (JtJ : JtJMatrixGrid) (Jtz : JtzVector) (h : List ℚ) (j k : Nat)
    (hjk : j < k) : (gsPrefix JtJ Jtz h k)[j]? = (gsPrefix JtJ Jtz h (j + 1))[j]? := by
  induction k with
  | zero => omega
  | succ k ih =>
    by_cases hk : j = k
    · subst hk; rfl
    · rw [gsPrefix_succ, gsStep, List.getElem?_set_ne (by omega), ih (by omega)]

/-- What pass `i` reads: values of this sweep below `i`, old values from `i` on. -/
theorem gsPrefix_getD (JtJ : JtJMatrixGrid) (Jtz : JtzVector) (h : List ℚ) (i j : Nat)
    (hi : i ≤ h.length) :
    (gsPrefix JtJ Jtz h i).getD j 0 =
      if j < i then (gsSweep JtJ Jtz h).getD j 0 else h.getD j 0 := by
  simp only [List.getD_eq_getElem?_getD]
  split_ifs with hj
  · rw [gsSweep_eq_gsPrefix, gsPrefix_get_lt JtJ Jtz h j i hj,
      gsPrefix_get_lt JtJ Jtz h j h.length (by omega)]
  · rw [gsPrefix_get_ge JtJ Jtz h i j (by omega)]

theorem gsSweep_getD (JtJ : JtJMatrixGrid) (Jtz : JtzVector) (h : List ℚ) (i : Nat)
    (hi : i < h.length) :
    (gsSweep JtJ Jtz h).getD i 0 = gsValue JtJ Jtz (gsPrefix JtJ Jtz h i) i := by
  simp only [List.getD_eq_getElem?_getD]
  rw [gsSweep_eq_gsPrefix, gsPrefix_get_lt JtJ Jtz h i h.length hi, gsPrefix_succ, gsStep,
    List.getElem?_set_self (by rw [gsPrefix_length]; exact hi)]
  rfl

theorem foldl_skip_sum (p : Nat → Prop) [DecidablePred p] (f : Nat → ℚ) (l : List Nat)
    (a : ℚ) :
    l.foldl (fun acc j => if p j then acc else acc + f j) a =
      a + (l.map (fun j => if p j then 0 else f j)).sum := by
  induction l generalizing a with
  | nil => simp
  | cons x xs ih =>
    rw [List.foldl_cons, ih]
    by_cases hx : p x <;> simp [hx, add_assoc]

/-- The accumulator of the slot loop is the sum over the slots without sentinel. -/
theorem gsAcc_eq_sum (vals : List ℚ) (ids : List Int) (h : List ℚ) :
    gsAcc vals ids h =
      ∑ j in (Finset.range 6).filter (fun j => ids.getD j (-1) ≠ -1),
        vals.getD j 0 * h.getD (ids.getD j (-1)).toNat 0 := by
  unfold gsAcc
  rw [foldl_skip_sum, Finset.sum_filter]
  simp [Finset.sum_range_succ, List.range_succ]
  ring

theorem setCol1_length (V : List Vec3) (h : List ℚ) : (setCol1 V h).length = V.length := by
  induction V generalizing h with
  | nil => simp [setCol1]
  | cons r rs ih => cases h <;> simp [setCol1, ih]

theorem setCol1_map_cy (V : List Vec3) (h : List ℚ) (hl : V.length = h.length) :
    (setCol1 V h).map cy = h := by
  induction V generalizing h with
  | nil => cases h <;> simp_all [setCol1]
  | cons r rs ih =>
    cases h with
    | nil => simp at hl
    | cons a as =>
      simp only [List.length_cons, Nat.add_right_cancel_iff] at hl
      simp [setCol1, cy, ih as hl]

/-- A slot id of the grid is a vertex index or the sentinel `-1`. -/
theorem ids_sentinel_or_nonneg (g : JtJMatrixGrid) (i j : Nat) :
    (g.get_matrix_values_for_vertex i).2.1.getD j (-1) = -1 ∨
      0 ≤ (g.get_matrix_values_for_vertex i).2.1.getD j (-1) := by
  rw [List.getD_eq_getElem?_getD]
  cases hq : (g.get_matrix_values_for_vertex i).2.1[j]? with
  | none => left; rfl
  | some q =>
    have hm := List.mem_iff_getElem?.mpr ⟨j, hq⟩
    simp only [JtJMatrixGrid.get_matrix_values_for_vertex, List.mem_append, List.mem_map,
      List.mem_replicate] at hm
    rcases hm with ⟨u, -, hu⟩ | ⟨-, hq1⟩
    · right; rw [Option.getD_some, ← hu]; exact Int.ofNat_nonneg u
    · left; rw [Option.getD_some, hq1]

theorem gauss_seidel_one (m : Mesh) (h : List ℚ) :
    gauss_seidel m h 1 = gsSweep m.JtJ m.Jtz h := by
  rfl

/-- One call of `iterate` on a mesh whose `V` and `h` have as many rows: the new
heights are one in-place Gauss-Seidel sweep of the old ones, and the height column of
`V` is the new `h`. -/
theorem iterate_sweep_formula (m : Mesh) (hV : m.V.length = m.h.length)
    (i : Nat) (hi : i < m.h.length) :
    (iterate m).h = gauss_seidel m m.h 1 ∧
    (iterate m).h.length = m.h.length ∧
    (iterate m).h.getD i 0 =
      (m.Jtz.get_vec i -
        ∑ j in (Finset.range 6).filter
            (fun j => (m.JtJ.get_matrix_values_for_vertex i).2.1.getD j (-1) ≠ -1),
          (m.JtJ.get_matrix_values_for_vertex i).1.getD j 0 *
            (if (m.JtJ.get_matrix_values_for_vertex i).2.1.getD j (-1) < (i : ℤ)
              then (iterate m).h.getD
                ((m.JtJ.get_matrix_values_for_vertex i).2.1.getD j (-1)).toNat 0
              else m.h.getD
                ((m.JtJ.get_matrix_values_for_vertex i).2.1.getD j (-1)).toNat 0)) /
        (m.JtJ.get_matrix_values_for_vertex i).2.2 ∧
    (iterate m).vertices.map cy = (iterate m).h := by
  have hit : (iterate m).h = gsSweep m.JtJ m.Jtz m.h := gauss_seidel_one m m.h
  refine ⟨rfl, ?_, ?_, ?_⟩
  · rw [hit, gsSweep_length]
  · rw [hit, gsSweep_getD m.JtJ m.Jtz m.h i hi, gsValue, gsAcc_eq_sum]
    congr 2
    apply Finset.sum_congr rfl
    intro j hj
    rw [Finset.mem_filter] at hj
    rw [gsPrefix_getD m.JtJ m.Jtz m.h i _ (le_of_lt hi)]
    congr 1
    have hnn : 0 ≤ (m.JtJ.get_matrix_values_for_vertex i).2.1.getD j (-1) := by
      rcases ids_sentinel_or_nonneg m.JtJ i j with h1 | h1
      · exact absurd h1 hj.2
      · exact h1
    have hiff : ((m.JtJ.get_matrix_values_for_vertex i).2.1.getD j (-1)).toNat < i ↔
        (m.JtJ.get_matrix_values_for_vertex i).2.1.getD j (-1) < (i : ℤ) := by
      omega
    by_cases hc : (m.JtJ.get_matrix_values_for_vertex i).2.1.getD j (-1) < (i : ℤ)
    · rw [if_pos hc, if_pos (hiff.mpr hc)]
    · rw [if_neg hc, if_neg (fun h => hc (hiff.mp h))]
  · show (setCol1 m.V (gauss_seidel m m.h 1)).map cy = gauss_seidel m m.h 1
    apply setCol1_map_cy
    rw [gauss_seidel_one, gsSweep_length, hV]

/-! ## Row counts -/

theorem foldl_length_eq {α β : Type} (f : List α → β → List α)
    (hf : ∀ a x, (f a x).length = a.length) (l : List β) (a : List α) :
    (l.foldl f a).length = a.length := by
  induction l generalizing a with
  | nil => rfl
  | cons x xs ih => rw [List.foldl_cons, ih, hf]

theorem vertexLoop_length (R : Nat) (S T : Matrix (Fin 4) (Fin 4) ℚ) (V : List Vec3) :
    (vertexLoop R S T V).length = V.length := by
  unfold vertexLoop
  apply foldl_length_eq
  intro a z
  apply foldl_length_eq
  intro b x
  rw [List.length_set]

theorem faceLoop_length (R : Nat) (F : List Face) : (faceLoop R F).length = F.length := by
  unfold faceLoop
  apply foldl_length_eq
  intro a y
  apply foldl_length_eq
  intro b x
  rw [faceStep, List.length_set, List.length_set]

theorem align_V_length (R : Nat) (s : ℚ) (m : Mesh) (P : List Vec3) :
    (align_to_point_cloud R s m P).V.length = R * R := by
  simp [align_to_point_cloud, vertexLoop_length]

theorem align_F_length (R : Nat) (s : ℚ) (m : Mesh) (P : List Vec3) :
    (align_to_point_cloud R s m P).F.length = (R - 1) * (R - 1) * 2 := by
  simp [align_to_point_cloud, faceLoop_length]

theorem align_h_length (R : Nat) (s : ℚ) (m : Mesh) (P : List Vec3) :
    (align_to_point_cloud R s m P).h.length = R * R := by
  simp [align_to_point_cloud]

theorem set_target_V (lmi : RayCaster) (m : Mesh) (P : List Vec3) :
    (set_target_point_cloud lmi m P).V = m.V := rfl

theorem set_target_F (lmi : RayCaster) (m : Mesh) (P : List Vec3) :
    (set_target_point_cloud lmi m P).F = m.F := rfl

theorem set_target_h (lmi : RayCaster) (m : Mesh) (P : List Vec3) :
    (set_target_point_cloud lmi m P).h = m.h := rfl

theorem iterate_F (m : Mesh) : (iterate m).F = m.F := rfl

theorem iterate_V_length (m : Mesh) : (iterate m).V.length = m.V.length := by
  show (setCol1 m.V (gauss_seidel m m.h 1)).length = m.V.length
  rw [setCol1_length]

theorem runOps_V_length (lmi : RayCaster) (ops : List MeshOp) (m : Mesh) :
    (runOps lmi m ops).V.length = m.V.length := by
  induction ops generalizing m with
  | nil => rfl
  | cons op ops ih =>
    cases op with
    | fit P => rw [runOps, ih, set_target_V]
    | relax => rw [runOps, ih, iterate_V_length]

theorem runOps_F (lmi : RayCaster) (ops : List MeshOp) (m : Mesh) :
    (runOps lmi m ops).F = m.F := by
  induction ops generalizing m with
  | nil => rfl
  | cons op ops ih =>
    cases op with
    | fit P => rw [runOps, ih, set_target_F]
    | relax => rw [runOps, ih, iterate_F]

/-- C2: for every resolution `R >= 2` and every non-empty point cloud, after
`align_to_point_cloud` the vertex array has exactly `R*R` rows and the face array
exactly `2*(R-1)*(R-1)` rows, and both row counts are the same after any sequence of
`set_target_point_cloud` and `iterate` calls. -/
theorem row_counts_fixed (R : Nat) (_hR : 2 ≤ R) (s : ℚ) (m : Mesh) (P : List Vec3)
    (_hP : P ≠ []) (lmi : RayCaster) (ops : List MeshOp) :
    (align_to_point_cloud R s m P).vertices.length = R * R ∧
    (align_to_point_cloud R s m P).faces.length = 2 * (R - 1) * (R - 1) ∧
    (runOps lmi (align_to_point_cloud R s m P) ops).vertices.length = R * R ∧
    (runOps lmi (align_to_point_cloud R s m P) ops).faces.length = 2 * (R - 1) * (R - 1) := by
  have hF : (align_to_point_cloud R s m P).F.length = 2 * (R - 1) * (R - 1) := by
    rw [align_F_length]; ring
  refine ⟨align_V_length R s m P, hF, ?_, ?_⟩
  · show (runOps lmi (align_to_point_cloud R s m P) ops).V.length = R * R
    rw [runOps_V_length, align_V_length]
  · show (runOps lmi (align_to_point_cloud R s m P) ops).F.length = 2 * (R - 1) * (R - 1)
    rw [runOps_F, hF]

theorem row_counts_fixed_witness :
    2 ≤ MESH_RESOLUTION ∧ exampleCloud ≠ [] ∧
    (runOps missCaster
      (align_to_point_cloud MESH_RESOLUTION MESH_SCALING_FACTOR Mesh.new exampleCloud)
      [MeshOp.fit exampleCloud, MeshOp.relax, MeshOp.fit exampleCloud]).vertices.length
        = MESH_RESOLUTION * MESH_RESOLUTION ∧
    (runOps missCaster
      (align_to_point_cloud MESH_RESOLUTION MESH_SCALING_FACTOR Mesh.new exampleCloud)
      [MeshOp.fit exampleCloud, MeshOp.relax, MeshOp.fit exampleCloud]).faces.length
        = 2 * (MESH_RESOLUTION - 1) * (MESH_RESOLUTION - 1) :=
  have h1 : 2 ≤ MESH_RESOLUTION := by decide
  have h2 : exampleCloud ≠ [] := by simp [exampleCloud]
  ⟨h1, h2,
    (row_counts_fixed MESH_RESOLUTION h1 MESH_SCALING_FACTOR Mesh.new exampleCloud h2
      missCaster [MeshOp.fit exampleCloud, MeshOp.relax, MeshOp.fit exampleCloud]).2.2⟩

/-! ## Accumulation -/

theorem static_cast_int_intCast (z : ℤ) : static_cast_int (z : ℚ) = z := by
  unfold static_cast_int
  split_ifs <;> simp

theorem foldl_filter_skip {α β : Type} (p : β → Bool) (f : α → β → α) (l : List β) (a : α) :
    l.foldl (fun acc x => if p x then f acc x else acc) a = (l.filter p).foldl f a := by
  induction l generalizing a with
  | nil => rfl
  | cons x xs ih =>
    by_cases hx : p x = true
    · simp [List.filter_cons, hx, ih]
    · simp [List.filter_cons, hx, ih]

/-- The rows of the ray-cast result that carry a triangle id other than `-1`. -/
theorem fitLoop_eq_accumulate (P bc : List Vec3) (st : JtJMatrixGrid × JtzVector) :
    fitLoop P bc st =
      accumulate
        (((List.range bc.length).filter
          (fun i => decide (static_cast_int (bc.getD i (0, 0, 0)).1 ≠ -1))).map
            (contribution P bc)) st := by
  unfold fitLoop accumulate
  rw [List.foldl_map, ← foldl_filter_skip]
  apply List.foldl_ext
  intro a i _
  unfold fitStep
  by_cases h : static_cast_int (bc.getD i (0, 0, 0)).1 = -1 <;> simp [h]

theorem fitLoop_all_miss (P bc : List Vec3) (st : JtJMatrixGrid × JtzVector)
    (hmiss : ∀ i, i < bc.length → static_cast_int (bc.getD i (0, 0, 0)).1 = -1) :
    fitLoop P bc st = st := by
  rw [fitLoop_eq_accumulate]
  have hnil : (List.range bc.length).filter
      (fun i => decide (static_cast_int (bc.getD i (0, 0, 0)).1 ≠ -1)) = [] := by
    rw [List.filter_eq_nil_iff]
    intro i hi
    have h1 := hmiss i (List.mem_range.mp hi)
    simpa using h1
  rw [hnil]
  rfl

/-- C4: in `set_target_point_cloud` a row of the ray-cast result whose triangle id
is `-1` contributes nothing: whatever the ray caster returns, the resulting `JtJ` and
`Jtz` are those obtained by accumulating, in order, only the rows whose id is not
`-1`; when every row misses, and when the point cloud is empty (the ray caster
returning one row per point), `JtJ` and `Jtz` are exactly as they were. -/
theorem no_hit_contributes_nothing (lmi : RayCaster) (m : Mesh) (P : List Vec3) :
    ((set_target_point_cloud lmi m P).JtJ, (set_target_point_cloud lmi m P).Jtz) =
      accumulate
        (((List.range (lmi P (List.replicate P.length (1 / 10000, 1, 0)) m.V m.F).length).filter
          (fun i => decide (static_cast_int
            ((lmi P (List.replicate P.length (1 / 10000, 1, 0)) m.V m.F).getD i (0, 0, 0)).1
              ≠ -1))).map
          (contribution P (lmi P (List.replicate P.length (1 / 10000, 1, 0)) m.V m.F)))
        (m.JtJ, m.Jtz) ∧
    ((∀ i, i < (lmi P (List.replicate P.length (1 / 10000, 1, 0)) m.V m.F).length →
        static_cast_int
          ((lmi P (List.replicate P.length (1 / 10000, 1, 0)) m.V m.F).getD i (0, 0, 0)).1
            = -1) →
      (set_target_point_cloud lmi m P).JtJ = m.JtJ ∧
      (set_target_point_cloud lmi m P).Jtz = m.Jtz) ∧
    (P = [] → (lmi P (List.replicate P.length (1 / 10000, 1, 0)) m.V m.F).length = P.length →
      (set_target_point_cloud lmi m P).JtJ = m.JtJ ∧
      (set_target_point_cloud lmi m P).Jtz = m.Jtz) := by
  have key : ((set_target_point_cloud lmi m P).JtJ, (set_target_point_cloud lmi m P).Jtz) =
      fitLoop P (lmi P (List.replicate P.length (1 / 10000, 1, 0)) m.V m.F) (m.JtJ, m.Jtz) :=
    rfl
  refine ⟨?_, ?_, ?_⟩
  · rw [key, fitLoop_eq_accumulate]
  · intro hmiss
    rw [fitLoop_all_miss P _ _ hmiss] at key
    exact ⟨congrArg Prod.fst key, congrArg Prod.snd key⟩
  · intro hP hlen
    have hzero : (lmi P (List.replicate P.length (1 / 10000, 1, 0)) m.V m.F).length = 0 := by
      rw [hlen, hP]; rfl
    rw [fitLoop_all_miss P _ _ (by intro i hi; rw [hzero] at hi; omega)] at key
    exact ⟨congrArg Prod.fst key, congrArg Prod.snd key⟩

theorem no_hit_contributes_nothing_witness :
    (set_target_point_cloud missCaster exampleMesh exampleCloud).JtJ = exampleMesh.JtJ ∧
    (set_target_point_cloud missCaster exampleMesh exampleCloud).Jtz = exampleMesh.Jtz ∧
    (set_target_point_cloud missCaster exampleMesh []).JtJ = exampleMesh.JtJ ∧
    (set_target_point_cloud missCaster exampleMesh []).Jtz = exampleMesh.Jtz :=
  have h1 : ∀ i, i < (missCaster exampleCloud
      (List.replicate exampleCloud.length (1 / 10000, 1, 0)) exampleMesh.V exampleMesh.F).length →
      static_cast_int ((missCaster exampleCloud
        (List.replicate exampleCloud.length (1 / 10000, 1, 0)) exampleMesh.V
          exampleMesh.F).getD i (0, 0, 0)).1 = -1 := by
    intro i hi
    have hi2 : i < 2 := by simpa [missCaster, exampleCloud] using hi
    have hc : static_cast_int (-1 : ℚ) = -1 := by
      simpa using static_cast_int_intCast (-1)
    interval_cases i <;> simpa [missCaster, exampleCloud] using hc
  have h2 : (missCaster [] (List.replicate ([] : List Vec3).length (1 / 10000, 1, 0))
      exampleMesh.V exampleMesh.F).length = ([] : List Vec3).length := rfl
  ⟨((no_hit_contributes_nothing missCaster exampleMesh exampleCloud).2.1 h1).1,
   ((no_hit_contributes_nothing missCaster exampleMesh exampleCloud).2.1 h1).2,
   ((no_hit_contributes_nothing missCaster exampleMesh []).2.2 rfl h2).1,
   ((no_hit_contributes_nothing missCaster exampleMesh []).2.2 rfl h2).2⟩

/-- Two updates of the accumulators commute. -/
theorem accumulateHit_comm (st : JtJMatrixGrid × JtzVector) (c d : Nat × ℚ × ℚ × ℚ) :
    accumulateHit (accumulateHit st c) d = accumulateHit (accumulateHit st d) c := by
  simp only [accumulateHit, JtJMatrixGrid.update_triangle, JtzVector.update_triangle,
    Prod.mk.injEq, JtJMatrixGrid.mk.injEq, JtzVector.mk.injEq, true_and]
  constructor
  · funext r k; ring
  · funext r; ring

/-- C5: accumulation is order-independent: accumulating a list of contributions
`(triangle id, b1, b2, target height)` with `update_triangle` gives the same `JtJ` grid
and the same `Jtz` vector for every permutation of the list. -/
theorem accumulate_perm (cs ds : List (Nat × ℚ × ℚ × ℚ)) (hperm : cs.Perm ds)
    (st : JtJMatrixGrid × JtzVector) :
    (accumulate cs st).1 = (accumulate ds st).1 ∧
    (accumulate cs st).2 = (accumulate ds st).2 := by
  have h : accumulate cs st = accumulate ds st :=
    List.Perm.foldl_eq' hperm (fun x _ y _ z => accumulateHit_comm z x y) st
  rw [h]
  exact ⟨rfl, rfl⟩

theorem accumulate_perm_witness :
    [((0 : Nat), (1 / 4 : ℚ), (1 / 2 : ℚ), (3 : ℚ)), (1, 1 / 3, 1 / 3, 5)].Perm
      [(1, 1 / 3, 1 / 3, 5), (0, 1 / 4, 1 / 2, 3)] ∧
    (accumulate [((0 : Nat), (1 / 4 : ℚ), (1 / 2 : ℚ), (3 : ℚ)), (1, 1 / 3, 1 / 3, 5)]
        (exampleMesh.JtJ, exampleMesh.Jtz)).1 =
      (accumulate [(1, 1 / 3, 1 / 3, 5), (0, 1 / 4, 1 / 2, 3)]
        (exampleMesh.JtJ, exampleMesh.Jtz)).1 ∧
    (accumulate [((0 : Nat), (1 / 4 : ℚ), (1 / 2 : ℚ), (3 : ℚ)), (1, 1 / 3, 1 / 3, 5)]
        (exampleMesh.JtJ, exampleMesh.Jtz)).2 =
      (accumulate [(1, 1 / 3, 1 / 3, 5), (0, 1 / 4, 1 / 2, 3)]
        (exampleMesh.JtJ, exampleMesh.Jtz)).2 :=
  have hp : [((0 : Nat), (1 / 4 : ℚ), (1 / 2 : ℚ), (3 : ℚ)), (1, 1 / 3, 1 / 3, 5)].Perm
      [(1, 1 / 3, 1 / 3, 5), (0, 1 / 4, 1 / 2, 3)] := List.Perm.swap _ _ _
  ⟨hp, accumulate_perm _ _ hp (exampleMesh.JtJ, exampleMesh.Jtz)⟩

/-! ## The triangle table -/

theorem triangle_vertices_lower (R x y : Nat) (hx : x < R - 1) :
    triangle_vertices R ((x + y * (R - 1)) * 2) = faceLower R x y := by
  have h1 : (x + y * (R - 1)) * 2 % 2 = 0 := Nat.mul_mod_left _ _
  have h2 : (x + y * (R - 1)) * 2 / 2 = x + y * (R - 1) :=
    Nat.mul_div_cancel _ (by decide)
  have h3 : (x + y * (R - 1)) % (R - 1) = x := by
    rw [Nat.add_mul_mod_self_right, Nat.mod_eq_of_lt hx]
  have h4 : (x + y * (R - 1)) / (R - 1) = y := by
    rw [Nat.add_mul_div_right _ _ (by omega), Nat.div_eq_of_lt hx, Nat.zero_add]
  unfold triangle_vertices
  rw [if_pos h1, h2, h3, h4]

theorem triangle_vertices_upper (R x y : Nat) (hx : x < R - 1) :
    triangle_vertices R ((x + y * (R - 1)) * 2 + 1) = faceUpper R x y := by
  have h1 : ¬ ((x + y * (R - 1)) * 2 + 1) % 2 = 0 := by omega
  have h2 : ((x + y * (R - 1)) * 2 + 1) / 2 = x + y * (R - 1) := by omega
  have h3 : (x + y * (R - 1)) % (R - 1) = x := by
    rw [Nat.add_mul_mod_self_right, Nat.mod_eq_of_lt hx]
  have h4 : (x + y * (R - 1)) / (R - 1) = y := by
    rw [Nat.add_mul_div_right _ _ (by omega), Nat.div_eq_of_lt hx, Nat.zero_add]
  unfold triangle_vertices
  rw [if_neg h1, h2, h3, h4]

/-- The index of a cell's triangle lies in the triangle range. -/
theorem cell_triangle_lt (R x y : Nat) (hx : x < R - 1) (hy : y < R - 1) :
    (x + y * (R - 1)) * 2 + 1 < (R - 1) * (R - 1) * 2 := by
  have h1 : y * (R - 1) + (R - 1) ≤ (R - 1) * (R - 1) := by
    have h2 : (y + 1) * (R - 1) ≤ (R - 1) * (R - 1) := Nat.mul_le_mul_right _ hy
    rw [Nat.succ_mul] at h2
    exact h2
  omega

/-- Every vertex of the grid is a corner of some triangle. -/
theorem vertex_in_some_triangle (R i : Nat) (hR : 2 ≤ R) (hi : i < R * R) :
    ∃ t, t < (R - 1) * (R - 1) * 2 ∧ i ∈ (triangle_vertices R t).verts := by
  have hRpos : 0 < R := by omega
  have hx : i % R < R := Nat.mod_lt _ hRpos
  have hy : i / R < R := Nat.div_lt_of_lt_mul hi
  have hi2 : i = i % R + i / R * R := by
    rw [Nat.mul_comm]; exact (Nat.mod_add_div i R).symm
  generalize i % R = x at hx hi2
  generalize i / R = y at hy hi2
  by_cases hxn : x < R - 1
  · by_cases hyn : y < R - 1
    · refine ⟨(x + y * (R - 1)) * 2, by have := cell_triangle_lt R x y hxn hyn; omega, ?_⟩
      rw [triangle_vertices_lower R x y hxn]
      simp [Face.verts, faceLower, hi2]
    · have hy1 : y = (y - 1) + 1 := by omega
      refine ⟨(x + (y - 1) * (R - 1)) * 2,
        by have := cell_triangle_lt R x (y - 1) hxn (by omega); omega, ?_⟩
      rw [triangle_vertices_lower R x (y - 1) hxn]
      simp only [Face.verts, faceLower, List.mem_cons]
      right; right; left
      rw [hi2, ← hy1]
  · have hx1 : x = (x - 1) + 1 := by omega
    by_cases hyn : y < R - 1
    · refine ⟨((x - 1) + y * (R - 1)) * 2,
        by have := cell_triangle_lt R (x - 1) y (by omega) hyn; omega, ?_⟩
      rw [triangle_vertices_lower R (x - 1) y (by omega)]
      simp only [Face.verts, faceLower, List.mem_cons]
      right; left
      rw [hi2, ← hx1]
    · have hy1 : y = (y - 1) + 1 := by omega
      refine ⟨((x - 1) + (y - 1) * (R - 1)) * 2 + 1,
        cell_triangle_lt R (x - 1) (y - 1) (by omega) (by omega), ?_⟩
      rw [triangle_vertices_upper R (x - 1) (y - 1) (by omega)]
      simp only [Face.verts, faceUpper, List.mem_cons]
      left
      rw [hi2, ← hx1, ← hy1]

/-! ## The diagonal of the grid -/

/-- The block added by one `update_triangle` is the outer product of the weight
vector, spread over the vertices, with itself. -/
theorem block_entry_eq_mul (ws : List (Nat × ℚ)) (r c : Nat) :
    block_entry ws r c =
      (ws.map (fun a => if r = a.1 then a.2 else 0)).sum *
        (ws.map (fun b => if c = b.1 then b.2 else 0)).sum := by
  have h : ∀ a b : Nat × ℚ, (if r = a.1 ∧ c = b.1 then a.2 * b.2 else 0) =
      (if r = a.1 then a.2 else 0) * (if c = b.1 then b.2 else 0) := by
    intro a b
    by_cases h1 : r = a.1 <;> by_cases h2 : c = b.1 <;> simp [h1, h2]
  unfold block_entry
  simp only [h, List.sum_map_mul_left, List.sum_map_mul_right]

/-- The diagonal entry added by one `update_triangle` is a square. -/
theorem block_entry_diag (R t : Nat) (b1 b2 : ℚ) (i : Nat) :
    block_entry (weighted_vertices R t b1 b2) i i =
      ((if i = (triangle_vertices R t).1 then 1 - b1 - b2 else 0) +
       (if i = (triangle_vertices R t).2.1 then b1 else 0) +
       (if i = (triangle_vertices R t).2.2 then b2 else 0)) ^ 2 := by
  rw [block_entry_eq_mul]
  simp only [weighted_vertices, List.map_cons, List.map_nil, List.sum_cons, List.sum_nil]
  ring

theorem update_triangle_diag_le (g : JtJMatrixGrid) (t : Nat) (b1 b2 : ℚ) (i : Nat) :
    g.coeff i i ≤ (g.update_triangle t b1 b2).coeff i i := by
  show g.coeff i i ≤ g.coeff i i + block_entry (weighted_vertices g.res t b1 b2) i i
  rw [block_entry_diag]
  have := sq_nonneg ((if i = (triangle_vertices g.res t).1 then 1 - b1 - b2 else 0) +
       (if i = (triangle_vertices g.res t).2.1 then b1 else 0) +
       (if i = (triangle_vertices g.res t).2.2 then b2 else 0))
  linarith

/-- The prior update of a triangle makes the diagonal of each of its corners
strictly larger. -/
theorem prior_update_diag_lt (g : JtJMatrixGrid) (t i : Nat)
    (hi : i ∈ (triangle_vertices g.res t).verts) :
    g.coeff i i < (g.update_triangle t (34 / 100) (33 / 100)).coeff i i := by
  show g.coeff i i <
    g.coeff i i + block_entry (weighted_vertices g.res t (34 / 100) (33 / 100)) i i
  rw [block_entry_diag]
  simp only [Face.verts, List.mem_cons, List.mem_singleton, List.not_mem_nil, or_false] at hi
  have h0 : (0 : ℚ) < (if i = (triangle_vertices g.res t).1 then 1 - 34 / 100 - 33 / 100 else 0) +
       (if i = (triangle_vertices g.res t).2.1 then 34 / 100 else 0) +
       (if i = (triangle_vertices g.res t).2.2 then 33 / 100 else 0) := by
    split_ifs <;> first | (exfalso; rcases hi with h | h | h <;> contradiction) | norm_num
  have := pow_pos h0 2
  linarith

theorem foldl_diag_le {β : Type} (f : JtJMatrixGrid → β → JtJMatrixGrid) (i : Nat)
    (hf : ∀ g x, g.coeff i i ≤ (f g x).coeff i i) (l : List β) (g : JtJMatrixGrid) :
    g.coeff i i ≤ (l.foldl f g).coeff i i := by
  induction l generalizing g with
  | nil => exact le_refl _
  | cons x xs ih => exact le_trans (hf g x) (ih (f g x))

/-- After the prior loop over a list of triangles, every corner of one of them has a
larger diagonal than before. -/
theorem prior_loop_diag_lt (l : List Nat) (g : JtJMatrixGrid) (t i : Nat) (ht : t ∈ l)
    (hi : i ∈ (triangle_vertices g.res t).verts) :
    g.coeff i i <
      (l.foldl (fun g k => g.update_triangle k (34 / 100) (33 / 100)) g).coeff i i := by
  induction l generalizing g with
  | nil => simp at ht
  | cons x xs ih =>
    rw [List.foldl_cons]
    by_cases hx : t = x
    · subst hx
      exact lt_of_lt_of_le (prior_update_diag_lt g t i hi)
        (foldl_diag_le _ i (fun g k => update_triangle_diag_le g k _ _ i) xs _)
    · have htx : t ∈ xs := by
        rcases List.mem_cons.mp ht with h | h
        · exact absurd h hx
        · exact h
      exact lt_of_le_of_lt (update_triangle_diag_le g x _ _ i)
        (ih (g.update_triangle x (34 / 100) (33 / 100)) htx hi)

theorem align_diag_pos (R : Nat) (hR : 2 ≤ R) (s : ℚ) (m : Mesh) (P : List Vec3) (i : Nat)
    (hi : i < R * R) : 0 < (align_to_point_cloud R s m P).JtJ.coeff i i := by
  obtain ⟨t, ht, hmem⟩ := vertex_in_some_triangle R i hR hi
  exact prior_loop_diag_lt (List.range ((R - 1) * (R - 1) * 2)) (m.JtJ.resize R) t i
    (List.mem_range.mpr ht) hmem

theorem fitStep_diag_le (P bc : List Vec3) (i : Nat) (st : JtJMatrixGrid × JtzVector)
    (k : Nat) : st.1.coeff i i ≤ (fitStep P bc st k).1.coeff i i := by
  unfold fitStep
  split_ifs
  · exact le_refl _
  · exact update_triangle_diag_le st.1 _ _ _ i

theorem fitLoop_diag_le (P bc : List Vec3) (i : Nat) (st : JtJMatrixGrid × JtzVector) :
    st.1.coeff i i ≤ (fitLoop P bc st).1.coeff i i := by
  unfold fitLoop
  generalize List.range bc.length = l
  induction l generalizing st with
  | nil => exact le_refl _
  | cons x xs ih => exact le_trans (fitStep_diag_le P bc i st x) (ih (fitStep P bc st x))

theorem iterate_JtJ (m : Mesh) : (iterate m).JtJ = m.JtJ := rfl

theorem runOps_diag_le (lmi : RayCaster) (i : Nat) (ops : List MeshOp) (m : Mesh) :
    m.JtJ.coeff i i ≤ (runOps lmi m ops).JtJ.coeff i i := by
  induction ops generalizing m with
  | nil => exact le_refl _
  | cons op ops ih =>
    cases op with
    | fit P =>
      rw [runOps]
      exact le_trans (fitLoop_diag_le P _ i (m.JtJ, m.Jtz)) (ih (set_target_point_cloud lmi m P))
    | relax =>
      rw [runOps]
      exact ih (iterate m)

/-- C3: after `align_to_point_cloud` (one prior `update_triangle` with weights 0.34
and 0.33 for every triangle) and after any further sequence of `fit` (and `relax`)
calls, the diagonal coefficient handed to the Gauss-Seidel sweep by
`get_matrix_values_for_vertex` is strictly positive for every vertex `0..R*R-1`, so
the sweep never divides by zero. -/
theorem diagonal_positive (R : Nat) (hR : 2 ≤ R) (s : ℚ) (m : Mesh) (P : List Vec3)
    (_hP : P ≠ []) (lmi : RayCaster) (ops : List MeshOp) (i : Nat) (hi : i < R * R) :
    0 < ((runOps lmi (align_to_point_cloud R s m P) ops).JtJ.get_matrix_values_for_vertex
      i).2.2 ∧
    ((runOps lmi (align_to_point_cloud R s m P) ops).JtJ.get_matrix_values_for_vertex
      i).2.2 ≠ 0 := by
  have h : 0 < (runOps lmi (align_to_point_cloud R s m P) ops).JtJ.coeff i i :=
    lt_of_lt_of_le (align_diag_pos R hR s m P i hi) (runOps_diag_le lmi i ops _)
  exact ⟨h, ne_of_gt h⟩

theorem diagonal_positive_witness :
    2 ≤ MESH_RESOLUTION ∧ exampleCloud ≠ [] ∧ 899 < MESH_RESOLUTION * MESH_RESOLUTION ∧
    0 < ((runOps missCaster
      (align_to_point_cloud MESH_RESOLUTION MESH_SCALING_FACTOR Mesh.new exampleCloud)
      [MeshOp.fit exampleCloud, MeshOp.relax]).JtJ.get_matrix_values_for_vertex 899).2.2 :=
  have h1 : 2 ≤ MESH_RESOLUTION := by decide
  have h2 : exampleCloud ≠ [] := by simp [exampleCloud]
  have h3 : 899 < MESH_RESOLUTION * MESH_RESOLUTION := by decide
  ⟨h1, h2, h3,
    (diagonal_positive MESH_RESOLUTION h1 MESH_SCALING_FACTOR Mesh.new exampleCloud h2
      missCaster [MeshOp.fit exampleCloud, MeshOp.relax] 899 h3).1⟩

/-! ## The vertex and face tables written by the loops of `align_to_point_cloud` -/

/-- A loop that writes `f x` to row `x + base` for `x = 0 .. n-1`. -/
theorem rowLoop_get {α : Type} (f : Nat → α) (base : Nat) (V : List α) (n k : Nat)
    (hk : k < V.length) :
    ((List.range n).foldl (fun V x => V.set (x + base) (f x)) V)[k]? =
      if base ≤ k ∧ k < base + n then some (f (k - base)) else V[k]? := by
  induction n with
  | zero =>
    have hno : ¬ (base ≤ k ∧ k < base + 0) := by omega
    rw [if_neg hno]
    rfl
  | succ n ih =>
    rw [List.range_succ, List.foldl_append, List.foldl_cons, List.foldl_nil,
      List.getElem?_set, ih]
    have hlen : ((List.range n).foldl (fun V x => V.set (x + base) (f x)) V).length =
        V.length := foldl_length_eq _ (fun a x => List.length_set _ _ _) _ _
    by_cases h1 : n + base = k
    · have h2 : base ≤ k ∧ k < base + (n + 1) := by omega
      have h3 : k - base = n := by omega
      rw [if_pos h1, if_pos (by omega), if_pos h2, h3]
    · rw [if_neg h1]
      by_cases h2 : base ≤ k ∧ k < base + n
      · rw [if_pos h2, if_pos (by omega)]
      · rw [if_neg h2, if_neg (by omega)]

/-- The vertex loops after `m` passes of the outer loop. -/
theorem vertexLoop_prefix_get (R : Nat) (S T : Matrix (Fin 4) (Fin 4) ℚ) (V : List Vec3)
    (m k : Nat) (hk : k < V.length) :
    ((List.range m).foldl
      (fun V z_step => (List.range R).foldl
        (fun V x_step => V.set (x_step + z_step * R) (vertexRow R S T x_step z_step)) V)
      V)[k]? =
      if k < m * R then some (vertexRow R S T (k % R) (k / R)) else V[k]? := by
  induction m with
  | zero => simp
  | succ m ih =>
    rw [List.range_succ, List.foldl_append, List.foldl_cons, List.foldl_nil]
    have hlen : ((List.range m).foldl
      (fun V z_step => (List.range R).foldl
        (fun V x_step => V.set (x_step + z_step * R) (vertexRow R S T x_step z_step)) V)
      V).length = V.length :=
      foldl_length_eq _ (fun a z => foldl_length_eq _ (fun b x => List.length_set _ _ _) _ _) _ _
    rw [rowLoop_get (fun x => vertexRow R S T x m) (m * R) _ R k (by rw [hlen]; exact hk), ih]
    have hsucc : (m + 1) * R = m * R + R := Nat.succ_mul m R
    by_cases h1 : m * R ≤ k ∧ k < m * R + R
    · have hR : 0 < R := by omega
      have hdiv : k / R = m := by
        apply Nat.div_eq_of_lt_le
        · exact h1.1
        · rw [hsucc]; exact h1.2
      have hmod : k % R = k - m * R := by
        have := Nat.mod_add_div k R
        rw [hdiv, Nat.mul_comm] at this
        omega
      rw [if_pos h1, if_pos (by omega), hdiv, hmod]
    · rw [if_neg h1]
      by_cases h2 : k < m * R
      · rw [if_pos h2, if_pos (by omega)]
      · rw [if_neg h2, if_neg (by omega)]

/-- Row `x_step + z_step*R` of the vertex table holds what the loop body computes
for `(x_step, z_step)`. -/
theorem vertexLoop_get (R : Nat) (S T : Matrix (Fin 4) (Fin 4) ℚ) (V : List Vec3)
    (hV : V.length = R * R) (x z : Nat) (hx : x < R) (hz : z < R) :
    (vertexLoop R S T V)[x + z * R]? = some (vertexRow R S T x z) := by
  have hlt : x + z * R < R * R := by
    have h1 : (z + 1) * R ≤ R * R := Nat.mul_le_mul_right _ hz
    rw [Nat.succ_mul] at h1
    omega
  unfold vertexLoop
  rw [vertexLoop_prefix_get R S T V R (x + z * R) (by rw [hV]; exact hlt), if_pos hlt,
    Nat.add_mul_mod_self_right, Nat.mod_eq_of_lt hx, Nat.add_mul_div_right _ _ (by omega),
    Nat.div_eq_of_lt hx, Nat.zero_add]

/-- Every row of the vertex table is written by the loops. -/
theorem vertexLoop_get_index (R : Nat) (S T : Matrix (Fin 4) (Fin 4) ℚ) (V : List Vec3)
    (hV : V.length = R * R) (k : Nat) (hk : k < R * R) :
    (vertexLoop R S T V)[k]? = some (vertexRow R S T (k % R) (k / R)) := by
  unfold vertexLoop
  rw [vertexLoop_prefix_get R S T V R k (by rw [hV]; exact hk), if_pos hk]

/-- The row computed by the loop body in closed form. -/
theorem vertexRow_eq (R : Nat) (sx sy sz : ℚ) (t : Vec3) (x z : Nat) :
    vertexRow R (scalingMatrix sx sy sz) (translationMatrix t) x z =
      (t.1 + ((x : ℚ) - ((R : ℚ) - 1) / 2) * sx, t.2.1 + sy,
       t.2.2 + ((z : ℚ) - ((R : ℚ) - 1) / 2) * sz) := by
  simp only [vertexRow, scalingMatrix, translationMatrix, Matrix.vecMul, Matrix.dotProduct,
    Fin.sum_univ_four, Matrix.transpose_apply, Matrix.of_apply, Matrix.cons_val_zero,
    Matrix.cons_val_one, Matrix.head_cons, Matrix.cons_val_two, Matrix.tail_cons,
    Matrix.cons_val_three]
  refine Prod.ext ?_ (Prod.ext ?_ ?_) <;> simp <;> ring

/-! ## The aligned vertex table -/

/-- Row `k` of the vertex table after `align_to_point_cloud`, in closed form. -/
theorem align_V_get_index (R : Nat) (s : ℚ) (m : Mesh) (P : List Vec3) (k : Nat)
    (hk : k < R * R) :
    (align_to_point_cloud R s m P).V[k]? = some
      (colMin cx P + 1 / 2 * (colMax cx P - colMin cx P) - 0 +
        (((k % R : Nat) : ℚ) - ((R : ℚ) - 1) / 2) *
          (s * |colMax cx P - colMin cx P| / ((R : ℚ) - 1)),
       colMean cy P - 0 + 0,
       colMin cz P + 1 / 2 * (colMax cz P - colMin cz P) - 0 +
        (((k / R : Nat) : ℚ) - ((R : ℚ) - 1) / 2) *
          (s * |colMax cz P - colMin cz P| / ((R : ℚ) - 1))) := by
  simp only [align_to_point_cloud]
  rw [vertexLoop_get_index R _ _ _ (by simp) k hk, vertexRow_eq]

theorem align_V_getD (R : Nat) (s : ℚ) (m : Mesh) (P : List Vec3) (x z : Nat)
    (hx : x < R) (hz : z < R) :
    (align_to_point_cloud R s m P).V.getD (x + z * R) (0, 0, 0) =
      ((colMin cx P + colMax cx P) / 2 +
        ((x : ℚ) - ((R : ℚ) - 1) / 2) * (s * |colMax cx P - colMin cx P| / ((R : ℚ) - 1)),
       colMean cy P,
       (colMin cz P + colMax cz P) / 2 +
        ((z : ℚ) - ((R : ℚ) - 1) / 2) * (s * |colMax cz P - colMin cz P| / ((R : ℚ) - 1))) := by
  have hlt : x + z * R < R * R := by
    have h1 : (z + 1) * R ≤ R * R := Nat.mul_le_mul_right _ hz
    rw [Nat.succ_mul] at h1
    omega
  rw [List.getD_eq_getElem?_getD, align_V_get_index R s m P _ hlt, Option.getD_some,
    Nat.add_mul_mod_self_right, Nat.mod_eq_of_lt hx, Nat.add_mul_div_right _ _ (by omega),
    Nat.div_eq_of_lt hx, Nat.zero_add]
  refine Prod.ext ?_ (Prod.ext ?_ ?_) <;> simp <;> ring

/-- Every row of the aligned vertex table carries the mean height of the cloud. -/
theorem align_V_height (R : Nat) (s : ℚ) (m : Mesh) (P : List Vec3) (k : Nat)
    (hk : k < R * R) :
    cy ((align_to_point_cloud R s m P).V.getD k (0, 0, 0)) = colMean cy P := by
  rw [List.getD_eq_getElem?_getD, align_V_get_index R s m P k hk, Option.getD_some]
  simp [cy]

theorem align_h (R : Nat) (s : ℚ) (m : Mesh) (P : List Vec3) :
    (align_to_point_cloud R s m P).h = List.replicate (R * R) 0 := rfl

theorem align_transform_height (R : Nat) (s : ℚ) (m : Mesh) (P : List Vec3) :
    (align_to_point_cloud R s m P).transform 1 3 = colMean cy P := by
  simp [align_to_point_cloud, translationMatrix]

/-! ## The bounding box -/

theorem foldl_min_le_init (c : Vec3 → ℚ) (l : List Vec3) (a : ℚ) :
    l.foldl (fun m q => min m (c q)) a ≤ a := by
  induction l generalizing a with
  | nil => exact le_refl _
  | cons x xs ih => exact le_trans (ih _) (min_le_left _ _)

theorem foldl_min_le_mem (c : Vec3 → ℚ) (l : List Vec3) (a : ℚ) (p : Vec3) (hp : p ∈ l) :
    l.foldl (fun m q => min m (c q)) a ≤ c p := by
  induction l generalizing a with
  | nil => simp at hp
  | cons x xs ih =>
    rcases List.mem_cons.mp hp with h | h
    · subst h
      exact le_trans (foldl_min_le_init c xs _) (min_le_right _ _)
    · exact ih _ h

theorem le_foldl_max_init (c : Vec3 → ℚ) (l : List Vec3) (a : ℚ) :
    a ≤ l.foldl (fun m q => max m (c q)) a := by
  induction l generalizing a with
  | nil => exact le_refl _
  | cons x xs ih => exact le_trans (le_max_left _ _) (ih _)

theorem le_foldl_max_mem (c : Vec3 → ℚ) (l : List Vec3) (a : ℚ) (p : Vec3) (hp : p ∈ l) :
    c p ≤ l.foldl (fun m q => max m (c q)) a := by
  induction l generalizing a with
  | nil => simp at hp
  | cons x xs ih =>
    rcases List.mem_cons.mp hp with h | h
    · subst h
      exact le_trans (le_max_right _ _) (le_foldl_max_init c xs _)
    · exact ih _ h

/-- The column minimum bounds every point of the cloud from below. -/
theorem colMin_le (c : Vec3 → ℚ) (P : List Vec3) (p : Vec3) (hp : p ∈ P) :
    colMin c P ≤ c p := by
  cases P with
  | nil => simp at hp
  | cons q qs =>
    rcases List.mem_cons.mp hp with h | h
    · subst h; exact foldl_min_le_init c qs _
    · exact foldl_min_le_mem c qs _ p h

/-- The column maximum bounds every point of the cloud from above. -/
theorem le_colMax (c : Vec3 → ℚ) (P : List Vec3) (p : Vec3) (hp : p ∈ P) :
    c p ≤ colMax c P := by
  cases P with
  | nil => simp at hp
  | cons q qs =>
    rcases List.mem_cons.mp hp with h | h
    · subst h; exact le_foldl_max_init c qs _
    · exact le_foldl_max_mem c qs _ p h

theorem colMin_le_colMax (c : Vec3 → ℚ) (P : List Vec3) : colMin c P ≤ colMax c P := by
  cases P with
  | nil => exact le_refl _
  | cons q qs =>
    exact le_trans (colMin_le c (q :: qs) q (List.mem_cons_self _ _))
      (le_colMax c (q :: qs) q (List.mem_cons_self _ _))

/-! ## Alignment: plan position and vertical placement -/

/-- C7: for a non-empty point cloud with bounding-box minimum `bmin`, maximum `bmax`
and extent `d = |bmax - bmin|`, `align_to_point_cloud` places the vertex of index
`x_step + z_step*R` at plan position
`x = (bmin.x + bmax.x)/2 + (x_step - (R-1)/2) * s*d.x/(R-1)` and
`z = (bmin.z + bmax.z)/2 + (z_step - (R-1)/2) * s*d.z/(R-1)`; hence the footprint is
centred on the bounding-box midpoint, its extent along x and z is `s` times the
bounding-box extent, and for `s = 1` it is the bounding box. -/
theorem align_plan_position (R : Nat) (hR : 2 ≤ R) (s : ℚ) (m : Mesh) (P : List Vec3)
    (_hP : P ≠ []) (x z : Nat) (hx : x < R) (hz : z < R) :
    cx ((align_to_point_cloud R s m P).vertices.getD (x + z * R) (0, 0, 0)) =
      bbCentre cx P + ((x : ℚ) - ((R : ℚ) - 1) / 2) * (s * bbExtent cx P / ((R : ℚ) - 1)) ∧
    cz ((align_to_point_cloud R s m P).vertices.getD (x + z * R) (0, 0, 0)) =
      bbCentre cz P + ((z : ℚ) - ((R : ℚ) - 1) / 2) * (s * bbExtent cz P / ((R : ℚ) - 1)) ∧
    (cx ((align_to_point_cloud R s m P).vertices.getD (0 + z * R) (0, 0, 0)) +
      cx ((align_to_point_cloud R s m P).vertices.getD (R - 1 + z * R) (0, 0, 0))) / 2 =
      bbCentre cx P ∧
    (cz ((align_to_point_cloud R s m P).vertices.getD (x + 0 * R) (0, 0, 0)) +
      cz ((align_to_point_cloud R s m P).vertices.getD (x + (R - 1) * R) (0, 0, 0))) / 2 =
      bbCentre cz P ∧
    cx ((align_to_point_cloud R s m P).vertices.getD (R - 1 + z * R) (0, 0, 0)) -
      cx ((align_to_point_cloud R s m P).vertices.getD (0 + z * R) (0, 0, 0)) =
      s * bbExtent cx P ∧
    cz ((align_to_point_cloud R s m P).vertices.getD (x + (R - 1) * R) (0, 0, 0)) -
      cz ((align_to_point_cloud R s m P).vertices.getD (x + 0 * R) (0, 0, 0)) =
      s * bbExtent cz P ∧
    (s = 1 →
      cx ((align_to_point_cloud R s m P).vertices.getD (0 + z * R) (0, 0, 0)) = colMin cx P ∧
      cx ((align_to_point_cloud R s m P).vertices.getD (R - 1 + z * R) (0, 0, 0)) =
        colMax cx P ∧
      cz ((align_to_point_cloud R s m P).vertices.getD (x + 0 * R) (0, 0, 0)) = colMin cz P ∧
      cz ((align_to_point_cloud R s m P).vertices.getD (x + (R - 1) * R) (0, 0, 0)) =
        colMax cz P) := by
  have h0 : 0 < R := by omega
  have h1 : R - 1 < R := by omega
  have hc : (((R - 1 : Nat)) : ℚ) = (R : ℚ) - 1 := by
    rw [Nat.cast_sub (by omega)]; simp
  have hne : (R : ℚ) - 1 ≠ 0 := by
    have h2 : (2 : ℚ) ≤ (R : ℚ) := by exact_mod_cast hR
    intro h; linarith
  have hdx : |colMax cx P - colMin cx P| = colMax cx P - colMin cx P :=
    abs_of_nonneg (sub_nonneg.mpr (colMin_le_colMax cx P))
  have hdz : |colMax cz P - colMin cz P| = colMax cz P - colMin cz P :=
    abs_of_nonneg (sub_nonneg.mpr (colMin_le_colMax cz P))
  simp only [Mesh.vertices, align_V_getD R s m P x z hx hz, align_V_getD R s m P 0 z h0 hz,
    align_V_getD R s m P (R - 1) z h1 hz, align_V_getD R s m P x 0 hx h0,
    align_V_getD R s m P x (R - 1) hx h1, cx, cz, bbCentre, bbExtent, hc, Nat.cast_zero]
  refine ⟨trivial, trivial, ?_, ?_, ?_, ?_, ?_⟩
  · field_simp; ring
  · field_simp; ring
  · field_simp; ring
  · field_simp; ring
  · intro hs
    rw [hs, hdx, hdz]
    refine ⟨?_, ?_, ?_, ?_⟩ <;> field_simp <;> ring

theorem align_plan_position_witness :
    2 ≤ MESH_RESOLUTION ∧ exampleCloud ≠ [] ∧ 7 < MESH_RESOLUTION ∧ 29 < MESH_RESOLUTION ∧
    cx ((align_to_point_cloud MESH_RESOLUTION MESH_SCALING_FACTOR Mesh.new
        exampleCloud).vertices.getD (7 + 29 * MESH_RESOLUTION) (0, 0, 0)) =
      bbCentre cx exampleCloud + (((7 : Nat) : ℚ) - ((MESH_RESOLUTION : ℚ) - 1) / 2) *
        (MESH_SCALING_FACTOR * bbExtent cx exampleCloud / ((MESH_RESOLUTION : ℚ) - 1)) ∧
    cz ((align_to_point_cloud MESH_RESOLUTION MESH_SCALING_FACTOR Mesh.new
        exampleCloud).vertices.getD (7 + 29 * MESH_RESOLUTION) (0, 0, 0)) =
      bbCentre cz exampleCloud + (((29 : Nat) : ℚ) - ((MESH_RESOLUTION : ℚ) - 1) / 2) *
        (MESH_SCALING_FACTOR * bbExtent cz exampleCloud / ((MESH_RESOLUTION : ℚ) - 1)) :=
  have h1 : 2 ≤ MESH_RESOLUTION := by decide
  have h2 : exampleCloud ≠ [] := by simp [exampleCloud]
  have h3 : 7 < MESH_RESOLUTION := by decide
  have h4 : 29 < MESH_RESOLUTION := by decide
  ⟨h1, h2, h3, h4,
    (align_plan_position MESH_RESOLUTION h1 MESH_SCALING_FACTOR Mesh.new exampleCloud h2
      7 29 h3 h4).1,
    (align_plan_position MESH_RESOLUTION h1 MESH_SCALING_FACTOR Mesh.new exampleCloud h2
      7 29 h3 h4).2.1⟩

/-- C8: for a non-empty point cloud, `align_to_point_cloud` places the mesh
vertically at the mean of the points' height coordinates: the vertical component of
the translation, the target of every prior `Jtz.update_triangle` call, and the height
coordinate of every row of `vertices()` right after the call are all `mean_y(P)`. -/
theorem align_mean_height (R : Nat) (s : ℚ) (m : Mesh) (P : List Vec3) (_hP : P ≠ [])
    (k : Nat) (hk : k < R * R) :
    (align_to_point_cloud R s m P).transform 1 3 = (P.map cy).sum / (P.length : ℚ) ∧
    (align_to_point_cloud R s m P).Jtz =
      (List.range ((R - 1) * (R - 1) * 2)).foldl
        (fun g i => g.update_triangle i (34 / 100) (33 / 100)
          ((P.map cy).sum / (P.length : ℚ)))
        (m.Jtz.resize R) ∧
    cy ((align_to_point_cloud R s m P).vertices.getD k (0, 0, 0)) =
      (P.map cy).sum / (P.length : ℚ) :=
  ⟨align_transform_height R s m P, rfl, align_V_height R s m P k hk⟩

theorem align_mean_height_witness :
    skewCloud ≠ [] ∧ 3 < 2 * 2 ∧
    (align_to_point_cloud 2 MESH_SCALING_FACTOR Mesh.new skewCloud).transform 1 3 = 1 ∧
    cy ((align_to_point_cloud 2 MESH_SCALING_FACTOR Mesh.new skewCloud).vertices.getD 3
      (0, 0, 0)) = 1 ∧
    bbCentre cy skewCloud = 3 / 2 :=
  have h1 : skewCloud ≠ [] := by simp [skewCloud]
  have h2 : 3 < 2 * 2 := by decide
  have hmean : ((skewCloud.map cy).sum / (skewCloud.length : ℚ)) = 1 := by
    norm_num [skewCloud, cy]
  ⟨h1, h2,
    ((align_mean_height 2 MESH_SCALING_FACTOR Mesh.new skewCloud h1 3 h2).1).trans hmean,
    ((align_mean_height 2 MESH_SCALING_FACTOR Mesh.new skewCloud h1 3 h2).2.2).trans hmean,
    by norm_num [bbCentre, colMin, colMax, skewCloud, cy]⟩

/-- C9, as stated, fails: after `align_to_point_cloud` on a cloud of mean height `2`
the height column of `vertices()` holds `2`, not `0`, while `h` holds `0`. -/
theorem align_vertex_heights_not_zero :
    exampleCloud ≠ [] ∧
    exampleMesh.h.getD 0 0 = 0 ∧
    cy (exampleMesh.vertices.getD 0 (0, 0, 0)) = 2 ∧
    ¬ (∀ k, k < 2 * 2 →
      exampleMesh.h.getD k 0 = 0 ∧ cy (exampleMesh.vertices.getD k (0, 0, 0)) = 0) := by
  have h2 : cy (exampleMesh.vertices.getD 0 (0, 0, 0)) = 2 := by
    have h := align_V_height 2 1 Mesh.new exampleCloud 0 (by decide)
    have hmean : colMean cy exampleCloud = 2 := by norm_num [colMean, exampleCloud, cy]
    rw [hmean] at h
    exact h
  refine ⟨by simp [exampleCloud], rfl, h2, ?_⟩
  intro hall
  have h0 := (hall 0 (by decide)).2
  rw [h2] at h0
  norm_num at h0

/-- C9, amended: right after `align_to_point_cloud` on a non-empty point cloud the
solver's height vector `h` has `R*R` entries, all `0`, while the height column of
`vertices()` holds the mean height of the cloud in every row; it is `0` exactly when
that mean is `0`. -/
theorem align_resets_solver_heights (R : Nat) (s : ℚ) (m : Mesh) (P : List Vec3)
    (_hP : P ≠ []) (k : Nat) (hk : k < R * R) :
    (align_to_point_cloud R s m P).h.length = R * R ∧
    (align_to_point_cloud R s m P).h.getD k 0 = 0 ∧
    cy ((align_to_point_cloud R s m P).vertices.getD k (0, 0, 0)) =
      (P.map cy).sum / (P.length : ℚ) ∧
    (cy ((align_to_point_cloud R s m P).vertices.getD k (0, 0, 0)) = 0 ↔
      (P.map cy).sum / (P.length : ℚ) = 0) := by
  have hV : cy ((align_to_point_cloud R s m P).vertices.getD k (0, 0, 0)) =
      (P.map cy).sum / (P.length : ℚ) := align_V_height R s m P k hk
  refine ⟨align_h_length R s m P, ?_, hV, by rw [hV]⟩
  rw [align_h, List.getD_eq_getElem?_getD, List.getElem?_replicate, if_pos hk]
  rfl

theorem align_resets_solver_heights_witness :
    exampleCloud ≠ [] ∧ 899 < MESH_RESOLUTION * MESH_RESOLUTION ∧
    (align_to_point_cloud MESH_RESOLUTION MESH_SCALING_FACTOR Mesh.new
      exampleCloud).h.getD 899 0 = 0 ∧
    cy ((align_to_point_cloud MESH_RESOLUTION MESH_SCALING_FACTOR Mesh.new
      exampleCloud).vertices.getD 899 (0, 0, 0)) = 2 :=
  have h1 : exampleCloud ≠ [] := by simp [exampleCloud]
  have h2 : 899 < MESH_RESOLUTION * MESH_RESOLUTION := by decide
  ⟨h1, h2,
    (align_resets_solver_heights MESH_RESOLUTION MESH_SCALING_FACTOR Mesh.new exampleCloud
      h1 899 h2).2.1,
    ((align_resets_solver_heights MESH_RESOLUTION MESH_SCALING_FACTOR Mesh.new exampleCloud
      h1 899 h2).2.2.1).trans (by norm_num [exampleCloud, cy])⟩

/-! ## The face table written by the loops -/

theorem faceStep_length (R y : Nat) (F : List Face) (x : Nat) :
    (faceStep R y F x).length = F.length := by
  rw [faceStep, List.length_set, List.length_set]

/-- The inner face loop of row `y` after `n` cells. -/
theorem faceRow_get (R y : Nat) (F : List Face) (n k : Nat) (hk : k < F.length) :
    ((List.range n).foldl (faceStep R y) F)[k]? =
      if y * (R - 1) * 2 ≤ k ∧ k < y * (R - 1) * 2 + n * 2 then
        some (if (k - y * (R - 1) * 2) % 2 = 0
          then faceLower R ((k - y * (R - 1) * 2) / 2) y
          else faceUpper R ((k - y * (R - 1) * 2) / 2) y)
      else F[k]? := by
  induction n with
  | zero =>
    have hno : ¬ (y * (R - 1) * 2 ≤ k ∧ k < y * (R - 1) * 2 + 0 * 2) := by omega
    rw [if_neg hno]
    rfl
  | succ n ih =>
    have hlen : ((List.range n).foldl (faceStep R y) F).length = F.length :=
      foldl_length_eq _ (faceStep_length R y) _ _
    rw [List.range_succ, List.foldl_append, List.foldl_cons, List.foldl_nil, faceStep,
      List.getElem?_set, List.getElem?_set, ih]
    generalize y * (R - 1) * 2 = base at *
    by_cases h1 : n * 2 + base + 1 = k
    · have h2 : base ≤ k ∧ k < base + (n + 1) * 2 := by omega
      have h3 : (k - base) / 2 = n := by omega
      have h4 : ¬ (k - base) % 2 = 0 := by omega
      rw [if_pos h1, if_pos (by rw [List.length_set, hlen]; omega), if_pos h2, if_neg h4, h3]
    · rw [if_neg h1]
      by_cases h5 : n * 2 + base = k
      · have h2 : base ≤ k ∧ k < base + (n + 1) * 2 := by omega
        have h3 : (k - base) / 2 = n := by omega
        have h4 : (k - base) % 2 = 0 := by omega
        rw [if_pos h5, if_pos (by rw [hlen]; omega), if_pos h2, if_pos h4, h3]
      · rw [if_neg h5]
        by_cases h2 : base ≤ k ∧ k < base + n * 2
        · have h6 : base ≤ k ∧ k < base + (n + 1) * 2 := by omega
          rw [if_pos h2, if_pos h6]
        · have h6 : ¬ (base ≤ k ∧ k < base + (n + 1) * 2) := by omega
          rw [if_neg h2, if_neg h6]

/-- The face loops after `m` passes of the outer loop: the rows written so far are the
rows of the triangle table. -/
theorem faceLoop_prefix_get (R : Nat) (F : List Face) (m k : Nat) (hk : k < F.length) :
    ((List.range m).foldl
      (fun F y_step => (List.range (R - 1)).foldl (faceStep R y_step) F) F)[k]? =
      if k < m * (R - 1) * 2 then some (triangle_vertices R k) else F[k]? := by
  induction m with
  | zero => simp
  | succ m ih =>
    have hlen : ((List.range m).foldl
        (fun F y_step => (List.range (R - 1)).foldl (faceStep R y_step) F) F).length =
        F.length :=
      foldl_length_eq _ (fun a y => foldl_length_eq _ (faceStep_length R y) _ _) _ _
    rw [List.range_succ, List.foldl_append, List.foldl_cons, List.foldl_nil,
      faceRow_get R m _ (R - 1) k (by rw [hlen]; exact hk), ih]
    have hsucc : (m + 1) * (R - 1) * 2 = m * (R - 1) * 2 + (R - 1) * 2 := by ring
    by_cases h1 : m * (R - 1) * 2 ≤ k ∧ k < m * (R - 1) * 2 + (R - 1) * 2
    · have h3 : k < (m + 1) * (R - 1) * 2 := by omega
      rw [if_pos h1, if_pos h3]
      have hN : 0 < R - 1 := by omega
      have hq : (k - m * (R - 1) * 2) / 2 < R - 1 := by omega
      have hk2 : k / 2 = (k - m * (R - 1) * 2) / 2 + m * (R - 1) := by omega
      have hmod : (k / 2) % (R - 1) = (k - m * (R - 1) * 2) / 2 := by
        rw [hk2, Nat.add_mul_mod_self_right, Nat.mod_eq_of_lt hq]
      have hdiv : (k / 2) / (R - 1) = m := by
        rw [hk2, Nat.add_mul_div_right _ _ hN, Nat.div_eq_of_lt hq, Nat.zero_add]
      have hpar : (k - m * (R - 1) * 2) % 2 = k % 2 := by omega
      unfold triangle_vertices
      rw [hmod, hdiv, hpar]
    · rw [if_neg h1]
      by_cases h2 : k < m * (R - 1) * 2
      · have h3 : k < (m + 1) * (R - 1) * 2 := by omega
        rw [if_pos h2, if_pos h3]
      · have h3 : ¬ k < (m + 1) * (R - 1) * 2 := by omega
        rw [if_neg h2, if_neg h3]

/-- The face table after `align_to_point_cloud` is the triangle table. -/
theorem align_F_eq (R : Nat) (s : ℚ) (m : Mesh) (P : List Vec3) :
    (align_to_point_cloud R s m P).F =
      (List.range ((R - 1) * (R - 1) * 2)).map (triangle_vertices R) := by
  apply List.ext_getElem?
  intro k
  simp only [align_to_point_cloud, faceLoop]
  by_cases hk : k < (R - 1) * (R - 1) * 2
  · rw [faceLoop_prefix_get R _ (R - 1) k (by simp [hk]), if_pos hk]
    simp [hk]
  · have h1 : ((List.range ((R - 1) * (R - 1) * 2)).map (triangle_vertices R))[k]? = none := by
      rw [List.getElem?_eq_none_iff]; simp; omega
    rw [h1, List.getElem?_eq_none_iff]
    have h2 := faceLoop_length R (List.replicate ((R - 1) * (R - 1) * 2) ((0, 0, 0) : Face))
    unfold faceLoop at h2
    rw [h2]
    simp; omega

/-! ## Neighbours under the fixed triangulation -/

/-- The index `x + y*R` determines the grid coordinates. -/
theorem grid_index_inj (R x y a b : Nat) (hx : x < R) (ha : a < R)
    (h : x + y * R = a + b * R) : x = a ∧ y = b := by
  have hR : 0 < R := by omega
  have h1 : (x + y * R) % R = (a + b * R) % R := by rw [h]
  have h2 : (x + y * R) / R = (a + b * R) / R := by rw [h]
  rw [Nat.add_mul_mod_self_right, Nat.add_mul_mod_self_right, Nat.mod_eq_of_lt hx,
    Nat.mod_eq_of_lt ha] at h1
  rw [Nat.add_mul_div_right _ _ hR, Nat.add_mul_div_right _ _ hR, Nat.div_eq_of_lt hx,
    Nat.div_eq_of_lt ha, Nat.zero_add, Nat.zero_add] at h2
  exact ⟨h1, h2⟩

theorem grid_index_lt (R x y : Nat) (hx : x < R) (hy : y < R) : x + y * R < R * R := by
  have h1 : (y + 1) * R ≤ R * R := Nat.mul_le_mul_right _ hy
  rw [Nat.succ_mul] at h1
  omega

theorem mem_faceLower (R x y c d : Nat) (hx : x < R) (hc : c < R - 1) :
    x + y * R ∈ (faceLower R c d).verts ↔
      (x = c ∧ y = d) ∨ (x = c + 1 ∧ y = d) ∨ (x = c ∧ y = d + 1) := by
  simp only [Face.verts, faceLower, List.mem_cons, List.mem_singleton, List.not_mem_nil,
    or_false]
  constructor
  · rintro (h | h | h)
    · exact Or.inl (grid_index_inj R x y c d hx (by omega) h)
    · exact Or.inr (Or.inl (grid_index_inj R x y (c + 1) d hx (by omega) h))
    · exact Or.inr (Or.inr (grid_index_inj R x y c (d + 1) hx (by omega) h))
  · rintro (⟨h1, h2⟩ | ⟨h1, h2⟩ | ⟨h1, h2⟩) <;> subst h1 <;> subst h2 <;> simp

theorem mem_faceUpper (R x y c d : Nat) (hx : x < R) (hc : c < R - 1) :
    x + y * R ∈ (faceUpper R c d).verts ↔
      (x = c + 1 ∧ y = d + 1) ∨ (x = c ∧ y = d + 1) ∨ (x = c + 1 ∧ y = d) := by
  simp only [Face.verts, faceUpper, List.mem_cons, List.mem_singleton, List.not_mem_nil,
    or_false]
  constructor
  · rintro (h | h | h)
    · exact Or.inl (grid_index_inj R x y (c + 1) (d + 1) hx (by omega) h)
    · exact Or.inr (Or.inl (grid_index_inj R x y c (d + 1) hx (by omega) h))
    · exact Or.inr (Or.inr (grid_index_inj R x y (c + 1) d hx (by omega) h))
  · rintro (⟨h1, h2⟩ | ⟨h1, h2⟩ | ⟨h1, h2⟩) <;> subst h1 <;> subst h2 <;> simp

/-- Sharing a triangle, in terms of the cells of the grid. -/
theorem shares_triangle_iff (R v u : Nat) :
    shares_triangle R v u = true ↔
      ∃ c d, c < R - 1 ∧ d < R - 1 ∧
        ((v ∈ (faceLower R c d).verts ∧ u ∈ (faceLower R c d).verts) ∨
         (v ∈ (faceUpper R c d).verts ∧ u ∈ (faceUpper R c d).verts)) := by
  unfold shares_triangle
  rw [List.any_eq_true]
  constructor
  · rintro ⟨t, ht, hvu⟩
    rw [List.mem_range] at ht
    rw [Bool.and_eq_true, decide_eq_true_eq, decide_eq_true_eq] at hvu
    have hN : 0 < R - 1 := by
      rcases Nat.eq_zero_or_pos (R - 1) with h | h
      · rw [h] at ht; simp at ht
      · exact h
    have hc : (t / 2) % (R - 1) < R - 1 := Nat.mod_lt _ hN
    have hd : (t / 2) / (R - 1) < R - 1 := by
      apply Nat.div_lt_of_lt_mul
      omega
    refine ⟨(t / 2) % (R - 1), (t / 2) / (R - 1), hc, hd, ?_⟩
    unfold triangle_vertices at hvu
    by_cases hpar : t % 2 = 0
    · rw [if_pos hpar] at hvu; exact Or.inl hvu
    · rw [if_neg hpar] at hvu; exact Or.inr hvu
  · rintro ⟨c, d, hc, hd, h | h⟩
    · refine ⟨(c + d * (R - 1)) * 2,
        List.mem_range.mpr (by have := cell_triangle_lt R c d hc hd; omega), ?_⟩
      rw [triangle_vertices_lower R c d hc, Bool.and_eq_true, decide_eq_true_eq,
        decide_eq_true_eq]
      exact h
    · refine ⟨(c + d * (R - 1)) * 2 + 1,
        List.mem_range.mpr (cell_triangle_lt R c d hc hd), ?_⟩
      rw [triangle_vertices_upper R c d hc, Bool.and_eq_true, decide_eq_true_eq,
        decide_eq_true_eq]
      exact h

/-- Two distinct grid points share a triangle exactly when they are adjacent. -/
theorem shares_triangle_iff_adjacent (R x y a b : Nat) (hx : x < R) (hy : y < R)
    (ha : a < R) (hb : b < R) (hne : ¬ (x = a ∧ y = b)) :
    shares_triangle R (x + y * R) (a + b * R) = true ↔ gridAdjacent x y a b := by
  rw [shares_triangle_iff]
  unfold gridAdjacent
  constructor
  · rintro ⟨c, d, hc, hd, h | h⟩
    · rw [mem_faceLower R x y c d hx hc, mem_faceLower R a b c d ha hc] at h
      omega
    · rw [mem_faceUpper R x y c d hx hc, mem_faceUpper R a b c d ha hc] at h
      omega
  · intro h
    have key : ∃ c d, c < R - 1 ∧ d < R - 1 ∧
        ((((x = c ∧ y = d) ∨ (x = c + 1 ∧ y = d) ∨ (x = c ∧ y = d + 1)) ∧
          ((a = c ∧ b = d) ∨ (a = c + 1 ∧ b = d) ∨ (a = c ∧ b = d + 1))) ∨
         (((x = c + 1 ∧ y = d + 1) ∨ (x = c ∧ y = d + 1) ∨ (x = c + 1 ∧ y = d)) ∧
          ((a = c + 1 ∧ b = d + 1) ∨ (a = c ∧ b = d + 1) ∨ (a = c + 1 ∧ b = d)))) := by
      rcases h with h | h | h | h | h | h
      · by_cases hyn : y < R - 1
        · exact ⟨x, y, by omega, by omega, by omega⟩
        · exact ⟨x, y - 1, by omega, by omega, by omega⟩
      · by_cases hyn : y < R - 1
        · exact ⟨a, y, by omega, by omega, by omega⟩
        · exact ⟨a, y - 1, by omega, by omega, by omega⟩
      · by_cases hxn : x < R - 1
        · exact ⟨x, y, by omega, by omega, by omega⟩
        · exact ⟨x - 1, y, by omega, by omega, by omega⟩
      · by_cases hxn : x < R - 1
        · exact ⟨x, b, by omega, by omega, by omega⟩
        · exact ⟨x - 1, b, by omega, by omega, by omega⟩
      · exact ⟨x, b, by omega, by omega, by omega⟩
      · exact ⟨a, y, by omega, by omega, by omega⟩
    obtain ⟨c, d, hc, hd, hk⟩ := key
    refine ⟨c, d, hc, hd, ?_⟩
    rw [mem_faceLower R x y c d hx hc, mem_faceLower R a b c d ha hc,
      mem_faceUpper R x y c d hx hc, mem_faceUpper R a b c d ha hc]
    exact hk

theorem gridAdjacent_ne (x y a b : Nat) (h : gridAdjacent x y a b) : ¬ (x = a ∧ y = b) := by
  unfold gridAdjacent at h
  omega

/-- The neighbours of a grid point are the grid points adjacent to it. -/
theorem mem_neighbours (R x y u : Nat) (hx : x < R) (hy : y < R) :
    u ∈ neighbours R (x + y * R) ↔
      ∃ a b, a < R ∧ b < R ∧ u = a + b * R ∧ gridAdjacent x y a b := by
  have hR : 0 < R := by omega
  unfold neighbours
  rw [List.mem_filter, List.mem_range, Bool.and_eq_true, decide_eq_true_eq]
  constructor
  · rintro ⟨hu, hne, hsh⟩
    have ha : u % R < R := Nat.mod_lt _ hR
    have hb : u / R < R := Nat.div_lt_of_lt_mul hu
    have hu2 : u = u % R + u / R * R := by
      rw [Nat.mul_comm]; exact (Nat.mod_add_div u R).symm
    refine ⟨u % R, u / R, ha, hb, hu2, ?_⟩
    have hne2 : ¬ (x = u % R ∧ y = u / R) := by
      rintro ⟨h1, h2⟩
      apply hne
      rw [hu2, ← h1, ← h2]
    rw [hu2] at hsh
    exact (shares_triangle_iff_adjacent R x y _ _ hx hy ha hb hne2).mp hsh
  · rintro ⟨a, b, ha, hb, hu, hadj⟩
    have hne := gridAdjacent_ne x y a b hadj
    subst hu
    refine ⟨grid_index_lt R a b ha hb, ?_, ?_⟩
    · intro h
      have := grid_index_inj R a b x y ha hx h
      exact hne ⟨this.1.symm, this.2.symm⟩
    · exact (shares_triangle_iff_adjacent R x y a b hx hy ha hb hne).mpr hadj

theorem neighbours_nodup (R i : Nat) : (neighbours R i).Nodup :=
  List.Nodup.filter _ (List.nodup_range _)

/-- A vertex has at most six neighbours. -/
theorem neighbours_length_le (R x y : Nat) (hx : x < R) (hy : y < R) :
    (neighbours R (x + y * R)).length ≤ 6 := by
  have hsub : neighbours R (x + y * R) ⊆
      [x + 1 + y * R, x - 1 + y * R, x + (y + 1) * R, x + (y - 1) * R,
        x + 1 + (y - 1) * R, x - 1 + (y + 1) * R] := by
    intro u hu
    obtain ⟨a, b, _, _, hab, hadj⟩ := (mem_neighbours R x y u hx hy).mp hu
    subst hab
    unfold gridAdjacent at hadj
    simp only [List.mem_cons, List.mem_singleton, List.not_mem_nil, or_false]
    rcases hadj with ⟨h1, h2⟩ | ⟨h1, h2⟩ | ⟨h1, h2⟩ | ⟨h1, h2⟩ | ⟨h1, h2⟩ | ⟨h1, h2⟩
    · subst h1 h2; simp
    · subst h1 h2; simp
    · subst h1 h2; simp
    · subst h1 h2; simp
    · subst h1 h2; simp
    · subst h1 h2; simp
  exact (List.subperm_of_subset (neighbours_nodup R _) hsub).length_le

/-- A vertex on the boundary of the grid has at most four neighbours. -/
theorem neighbours_length_boundary (R x y : Nat) (hx : x < R) (hy : y < R)
    (hb : x = 0 ∨ x = R - 1 ∨ y = 0 ∨ y = R - 1) :
    (neighbours R (x + y * R)).length ≤ 4 := by
  have hex : ∃ L : List Nat, L.length = 4 ∧ neighbours R (x + y * R) ⊆ L := by
    rcases hb with hb | hb | hb | hb
    · refine ⟨[x + 1 + y * R, x + (y + 1) * R, x + (y - 1) * R, x + 1 + (y - 1) * R],
        rfl, ?_⟩
      intro u hu
      obtain ⟨a, b, _, _, hab, hadj⟩ := (mem_neighbours R x y u hx hy).mp hu
      subst hab
      unfold gridAdjacent at hadj
      simp only [List.mem_cons, List.mem_singleton, List.not_mem_nil, or_false]
      rcases hadj with ⟨h1, h2⟩ | ⟨h1, h2⟩ | ⟨h1, h2⟩ | ⟨h1, h2⟩ | ⟨h1, h2⟩ | ⟨h1, h2⟩
      · subst h1 h2; simp
      · omega
      · subst h1 h2; simp
      · subst h1 h2; simp
      · subst h1 h2; simp
      · omega
    · refine ⟨[x - 1 + y * R, x + (y + 1) * R, x + (y - 1) * R, x - 1 + (y + 1) * R],
        rfl, ?_⟩
      intro u hu
      obtain ⟨a, b, ha, _, hab, hadj⟩ := (mem_neighbours R x y u hx hy).mp hu
      subst hab
      unfold gridAdjacent at hadj
      simp only [List.mem_cons, List.mem_singleton, List.not_mem_nil, or_false]
      rcases hadj with ⟨h1, h2⟩ | ⟨h1, h2⟩ | ⟨h1, h2⟩ | ⟨h1, h2⟩ | ⟨h1, h2⟩ | ⟨h1, h2⟩
      · omega
      · subst h1 h2; simp
      · subst h1 h2; simp
      · subst h1 h2; simp
      · omega
      · subst h1 h2; simp
    · refine ⟨[x + 1 + y * R, x - 1 + y * R, x + (y + 1) * R, x - 1 + (y + 1) * R],
        rfl, ?_⟩
      intro u hu
      obtain ⟨a, b, _, _, hab, hadj⟩ := (mem_neighbours R x y u hx hy).mp hu
      subst hab
      unfold gridAdjacent at hadj
      simp only [List.mem_cons, List.mem_singleton, List.not_mem_nil, or_false]
      rcases hadj with ⟨h1, h2⟩ | ⟨h1, h2⟩ | ⟨h1, h2⟩ | ⟨h1, h2⟩ | ⟨h1, h2⟩ | ⟨h1, h2⟩
      · subst h1 h2; simp
      · subst h1 h2; simp
      · subst h1 h2; simp
      · omega
      · omega
      · subst h1 h2; simp
    · refine ⟨[x + 1 + y * R, x - 1 + y * R, x + (y - 1) * R, x + 1 + (y - 1) * R],
        rfl, ?_⟩
      intro u hu
      obtain ⟨a, b, _, hb2, hab, hadj⟩ := (mem_neighbours R x y u hx hy).mp hu
      subst hab
      unfold gridAdjacent at hadj
      simp only [List.mem_cons, List.mem_singleton, List.not_mem_nil, or_false]
      rcases hadj with ⟨h1, h2⟩ | ⟨h1, h2⟩ | ⟨h1, h2⟩ | ⟨h1, h2⟩ | ⟨h1, h2⟩ | ⟨h1, h2⟩
      · subst h1 h2; simp
      · subst h1 h2; simp
      · omega
      · subst h1 h2; simp
      · subst h1 h2; simp
      · omega
  obtain ⟨L, hL, hsub⟩ := hex
  rw [← hL]
  exact (List.subperm_of_subset (neighbours_nodup R _) hsub).length_le

/-- An interior vertex has exactly six neighbours. -/
theorem neighbours_length_interior (R x y : Nat) (hx0 : 0 < x) (hx : x < R - 1)
    (hy0 : 0 < y) (hy : y < R - 1) : (neighbours R (x + y * R)).length = 6 := by
  obtain ⟨x, rfl⟩ : ∃ x', x = x' + 1 := ⟨x - 1, by omega⟩
  obtain ⟨y, rfl⟩ : ∃ y', y = y' + 1 := ⟨y - 1, by omega⟩
  have hperm : (neighbours R (x + 1 + (y + 1) * R)).Perm
      [x + 2 + (y + 1) * R, x + (y + 1) * R, x + 1 + (y + 2) * R, x + 1 + y * R,
        x + 2 + y * R, x + (y + 2) * R] := by
    rw [List.perm_ext_iff_of_nodup (neighbours_nodup R _)]
    · intro u
      rw [mem_neighbours R (x + 1) (y + 1) u (by omega) (by omega)]
      simp only [List.mem_cons, List.mem_singleton, List.not_mem_nil, or_false]
      unfold gridAdjacent
      constructor
      · rintro ⟨a, b, _, _, hab, hadj⟩
        subst hab
        rcases hadj with ⟨h1, h2⟩ | ⟨h1, h2⟩ | ⟨h1, h2⟩ | ⟨h1, h2⟩ | ⟨h1, h2⟩ | ⟨h1, h2⟩
        · subst h1 h2; simp
        · have h3 : a = x := by omega
          subst h3 h2; simp
        · subst h1 h2; simp
        · have h3 : b = y := by omega
          subst h1 h3; simp
        · have h3 : b = y := by omega
          subst h1 h3; simp
        · have h3 : a = x := by omega
          subst h3 h2; simp
      · rintro (h | h | h | h | h | h)
        · exact ⟨x + 2, y + 1, by omega, by omega, h, by omega⟩
        · exact ⟨x, y + 1, by omega, by omega, h, by omega⟩
        · exact ⟨x + 1, y + 2, by omega, by omega, h, by omega⟩
        · exact ⟨x + 1, y, by omega, by omega, h, by omega⟩
        · exact ⟨x + 2, y, by omega, by omega, h, by omega⟩
        · exact ⟨x, y + 2, by omega, by omega, h, by omega⟩
    · have e1 : (y + 1) * R = y * R + R := Nat.succ_mul y R
      have e2 : (y + 2) * R = y * R + R + R := by rw [Nat.succ_mul (y + 1) R, e1]
      simp only [List.nodup_cons, List.mem_cons, List.mem_singleton, List.not_mem_nil,
        or_false, not_or, List.nodup_nil, and_true, not_false_eq_true]
      omega
  exact hperm.length_eq

theorem foldl_update_res (l : List Nat) (b1 b2 : ℚ) (g : JtJMatrixGrid) :
    (l.foldl (fun g i => g.update_triangle i b1 b2) g).res = g.res := by
  induction l generalizing g with
  | nil => rfl
  | cons x xs ih => rw [List.foldl_cons, ih]; rfl

theorem align_JtJ_res (R : Nat) (s : ℚ) (m : Mesh) (P : List Vec3) :
    (align_to_point_cloud R s m P).JtJ.res = R := by
  simp only [align_to_point_cloud]
  rw [foldl_update_res]
  rfl

/-- Sharing a row of the aligned face table is sharing a triangle of the fixed
triangulation. -/
theorem align_faceNeighbours (R : Nat) (s : ℚ) (m : Mesh) (P : List Vec3) (v : Nat) :
    faceNeighbours (align_to_point_cloud R s m P).F (R * R) v = neighbours R v := by
  unfold faceNeighbours neighbours
  rw [align_F_eq]
  apply List.filter_congr
  intro u _
  congr 1
  unfold shares_triangle
  induction (List.range ((R - 1) * (R - 1) * 2)) with
  | nil => rfl
  | cons t ts ih => simp only [List.map_cons, List.any_cons, ih]

/-- Every entry of the aligned face table is a vertex index below `R*R`. -/
theorem align_F_entries_lt (R : Nat) (s : ℚ) (m : Mesh) (P : List Vec3) (f : Face)
    (hf : f ∈ (align_to_point_cloud R s m P).F) (u : Nat) (hu : u ∈ f.verts) : u < R * R := by
  rw [align_F_eq] at hf
  obtain ⟨t, ht, rfl⟩ := List.mem_map.mp hf
  rw [List.mem_range] at ht
  have hN : 0 < R - 1 := by
    rcases Nat.eq_zero_or_pos (R - 1) with h | h
    · rw [h] at ht; simp at ht
    · exact h
  have hc : (t / 2) % (R - 1) < R - 1 := Nat.mod_lt _ hN
  have hd : (t / 2) / (R - 1) < R - 1 := by
    apply Nat.div_lt_of_lt_mul
    omega
  unfold triangle_vertices at hu
  generalize (t / 2) % (R - 1) = c at hu hc
  generalize (t / 2) / (R - 1) = d at hu hd
  by_cases hpar : t % 2 = 0
  · rw [if_pos hpar] at hu
    simp only [Face.verts, faceLower, List.mem_cons, List.mem_singleton, List.not_mem_nil,
      or_false] at hu
    rcases hu with h | h | h <;> rw [h]
    · exact grid_index_lt R c d (by omega) (by omega)
    · exact grid_index_lt R (c + 1) d (by omega) (by omega)
    · exact grid_index_lt R c (d + 1) (by omega) (by omega)
  · rw [if_neg hpar] at hu
    simp only [Face.verts, faceUpper, List.mem_cons, List.mem_singleton, List.not_mem_nil,
      or_false] at hu
    rcases hu with h | h | h <;> rw [h]
    · exact grid_index_lt R (c + 1) (d + 1) (by omega) (by omega)
    · exact grid_index_lt R c (d + 1) (by omega) (by omega)
    · exact grid_index_lt R (c + 1) d (by omega) (by omega)

/-- The slots of `get_matrix_values_for_vertex` without sentinel are the neighbours. -/
theorem valid_ids_eq (g : JtJMatrixGrid) (i : Nat) (hlen : (neighbours g.res i).length ≤ 6) :
    (g.get_matrix_values_for_vertex i).2.1.filter (fun id => decide (id ≠ -1)) =
      (neighbours g.res i).map Int.ofNat := by
  simp only [JtJMatrixGrid.get_matrix_values_for_vertex]
  rw [List.take_of_length_le hlen, List.filter_append]
  have h1 : ((neighbours g.res i).map Int.ofNat).filter (fun id => decide (id ≠ -1)) =
      (neighbours g.res i).map Int.ofNat := by
    rw [List.filter_eq_self]
    intro a ha
    obtain ⟨u, _, hu⟩ := List.mem_map.mp ha
    have : (0 : ℤ) ≤ a := by rw [← hu]; exact Int.ofNat_nonneg u
    simp only [decide_eq_true_eq]
    omega
  have h2 : (List.replicate (6 - (neighbours g.res i).length) (-1 : ℤ)).filter
      (fun id => decide (id ≠ -1)) = [] := by
    rw [List.filter_eq_nil_iff]
    intro a ha
    rw [List.mem_replicate] at ha
    simp [ha.2]
  rw [h1, h2, List.append_nil]

/-- C6: under the face table built by `align_to_point_cloud`, an interior vertex
(`0 < x < R-1`, `0 < y < R-1`) shares a triangle with exactly 6 distinct other
vertices and a vertex on the grid boundary with strictly fewer than 6; these vertices
are exactly the non-sentinel neighbour ids that `get_matrix_values_for_vertex` returns
for the vertex. (Every index in the face table is below `R*R`, so the vertices
`0..R*R-1` are all the vertices there are.) -/
theorem neighbour_count (R : Nat) (s : ℚ) (m : Mesh) (P : List Vec3) (_hP : P ≠ [])
    (x y : Nat) (hx : x < R) (hy : y < R) :
    ((0 < x ∧ x < R - 1 ∧ 0 < y ∧ y < R - 1) →
      (faceNeighbours (align_to_point_cloud R s m P).faces (R * R) (x + y * R)).length = 6) ∧
    ((x = 0 ∨ x = R - 1 ∨ y = 0 ∨ y = R - 1) →
      (faceNeighbours (align_to_point_cloud R s m P).faces (R * R) (x + y * R)).length < 6) ∧
    (faceNeighbours (align_to_point_cloud R s m P).faces (R * R) (x + y * R)).Nodup ∧
    (∀ f ∈ (align_to_point_cloud R s m P).faces, ∀ u ∈ f.verts, u < R * R) ∧
    ((align_to_point_cloud R s m P).JtJ.get_matrix_values_for_vertex (x + y * R)).2.1.filter
        (fun id => decide (id ≠ -1)) =
      (faceNeighbours (align_to_point_cloud R s m P).faces (R * R) (x + y * R)).map
        Int.ofNat := by
  have hF : faceNeighbours (align_to_point_cloud R s m P).faces (R * R) (x + y * R) =
      neighbours R (x + y * R) := align_faceNeighbours R s m P _
  rw [hF]
  refine ⟨?_, ?_, neighbours_nodup R _, align_F_entries_lt R s m P, ?_⟩
  · rintro ⟨hx0, hx1, hy0, hy1⟩
    exact neighbours_length_interior R x y hx0 hx1 hy0 hy1
  · intro hb
    exact lt_of_le_of_lt (neighbours_length_boundary R x y hx hy hb) (by decide)
  · have hres := align_JtJ_res R s m P
    have h := valid_ids_eq (align_to_point_cloud R s m P).JtJ (x + y * R)
      (by rw [hres]; exact neighbours_length_le R x y hx hy)
    rw [hres] at h
    exact h

theorem neighbour_count_witness :
    exampleCloud ≠ [] ∧ 5 < MESH_RESOLUTION ∧ 7 < MESH_RESOLUTION ∧
    (faceNeighbours (align_to_point_cloud MESH_RESOLUTION MESH_SCALING_FACTOR Mesh.new
      exampleCloud).faces (MESH_RESOLUTION * MESH_RESOLUTION)
        (5 + 7 * MESH_RESOLUTION)).length = 6 ∧
    (faceNeighbours (align_to_point_cloud MESH_RESOLUTION MESH_SCALING_FACTOR Mesh.new
      exampleCloud).faces (MESH_RESOLUTION * MESH_RESOLUTION)
        (0 + 7 * MESH_RESOLUTION)).length < 6 :=
  have h1 : exampleCloud ≠ [] := by simp [exampleCloud]
  have h2 : 5 < MESH_RESOLUTION := by decide
  have h3 : 7 < MESH_RESOLUTION := by decide
  have h4 : 0 < MESH_RESOLUTION := by decide
  ⟨h1, h2, h3,
    (neighbour_count MESH_RESOLUTION MESH_SCALING_FACTOR Mesh.new exampleCloud h1 5 7
      h2 h3).1 (by decide),
    (neighbour_count MESH_RESOLUTION MESH_SCALING_FACTOR Mesh.new exampleCloud h1 0 7
      h4 h3).2.1 (Or.inl rfl)⟩

theorem exampleMesh_res : exampleMesh.JtJ.res = 2 := align_JtJ_res 2 1 Mesh.new exampleCloud

theorem triangle_vertices_two_zero : triangle_vertices 2 0 = (0, 1, 2) := by decide
theorem triangle_vertices_two_one : triangle_vertices 2 1 = (3, 2, 1) := by decide

theorem exampleMesh_coeff (r c : Nat) :
    exampleMesh.JtJ.coeff r c =
      block_entry [(0, 33 / 100), (1, 34 / 100), (2, 33 / 100)] r c +
      block_entry [(3, 33 / 100), (2, 34 / 100), (1, 33 / 100)] r c := by
  have h2 : List.range ((2 - 1) * (2 - 1) * 2) = [0, 1] := by decide
  simp only [exampleMesh, align_to_point_cloud, h2, List.foldl_cons, List.foldl_nil,
    JtJMatrixGrid.update_triangle, JtJMatrixGrid.resize, weighted_vertices,
    triangle_vertices_two_zero, triangle_vertices_two_one]
  norm_num

theorem exampleMesh_vec (r : Nat) :
    exampleMesh.Jtz.vec r =
      rhs_entry [(0, 33 / 100), (1, 34 / 100), (2, 33 / 100)] 2 r +
      rhs_entry [(3, 33 / 100), (2, 34 / 100), (1, 33 / 100)] 2 r := by
  have h2 : List.range ((2 - 1) * (2 - 1) * 2) = [0, 1] := by decide
  have hmean : colMean cy exampleCloud = 2 := by norm_num [colMean, exampleCloud, cy]
  simp only [exampleMesh, align_to_point_cloud, h2, List.foldl_cons, List.foldl_nil,
    JtzVector.update_triangle, JtzVector.resize, weighted_vertices,
    triangle_vertices_two_zero, triangle_vertices_two_one, hmean]
  norm_num

theorem exampleMesh_values_zero :
    exampleMesh.JtJ.get_matrix_values_for_vertex 0 =
      ([561 / 5000, 1089 / 10000, 0, 0, 0, 0], [1, 2, -1, -1, -1, -1], 1089 / 10000) := by
  have hn : neighbours 2 0 = [1, 2] := by decide
  simp only [JtJMatrixGrid.get_matrix_values_for_vertex, exampleMesh_res, hn]
  norm_num [exampleMesh_coeff, block_entry, List.replicate]

theorem exampleMesh_values_one :
    exampleMesh.JtJ.get_matrix_values_for_vertex 1 =
      ([561 / 5000, 561 / 2500, 1089 / 10000, 0, 0, 0], [0, 2, 3, -1, -1, -1],
        449 / 2000) := by
  have hn : neighbours 2 1 = [0, 2, 3] := by decide
  simp only [JtJMatrixGrid.get_matrix_values_for_vertex, exampleMesh_res, hn]
  norm_num [exampleMesh_coeff, block_entry, List.replicate]

theorem exampleMesh_values_two :
    exampleMesh.JtJ.get_matrix_values_for_vertex 2 =
      ([1089 / 10000, 561 / 2500, 561 / 5000, 0, 0, 0], [0, 1, 3, -1, -1, -1],
        449 / 2000) := by
  have hn : neighbours 2 2 = [0, 1, 3] := by decide
  simp only [JtJMatrixGrid.get_matrix_values_for_vertex, exampleMesh_res, hn]
  norm_num [exampleMesh_coeff, block_entry, List.replicate]

/-! ## Prior-only relaxation -/

theorem range_six : List.range 6 = [0, 1, 2, 3, 4, 5] := by decide

theorem exampleMesh_gsValue_zero (h : List ℚ) :
    gsValue exampleMesh.JtJ exampleMesh.Jtz h 0 =
      (33 / 50 - (561 / 5000 * h.getD 1 0 + 1089 / 10000 * h.getD 2 0)) / (1089 / 10000) := by
  simp only [gsValue, exampleMesh_values_zero, gsAcc, range_six, JtzVector.get_vec,
    exampleMesh_vec, rhs_entry]
  norm_num [show Int.toNat 2 = 2 from rfl, show Int.toNat 3 = 3 from rfl]

theorem exampleMesh_gsValue_one (h : List ℚ) :
    gsValue exampleMesh.JtJ exampleMesh.Jtz h 1 =
      (67 / 50 - (561 / 5000 * h.getD 0 0 + 561 / 2500 * h.getD 2 0 +
        1089 / 10000 * h.getD 3 0)) / (449 / 2000) := by
  simp only [gsValue, exampleMesh_values_one, gsAcc, range_six, JtzVector.get_vec,
    exampleMesh_vec, rhs_entry]
  norm_num [show Int.toNat 2 = 2 from rfl, show Int.toNat 3 = 3 from rfl]

theorem exampleMesh_gsValue_two (h : List ℚ) :
    gsValue exampleMesh.JtJ exampleMesh.Jtz h 2 =
      (67 / 50 - (1089 / 10000 * h.getD 0 0 + 561 / 2500 * h.getD 1 0 +
        561 / 5000 * h.getD 3 0)) / (449 / 2000) := by
  simp only [gsValue, exampleMesh_values_two, gsAcc, range_six, JtzVector.get_vec,
    exampleMesh_vec, rhs_entry]
  norm_num [show Int.toNat 2 = 2 from rfl, show Int.toNat 3 = 3 from rfl]

/-- A quantity that no sweep of the example system changes. -/
theorem exampleMesh_sweep_invariant (h : List ℚ) (hl : h.length = 4) :
    2278 * (gsSweep exampleMesh.JtJ exampleMesh.Jtz h).getD 1 0 -
      74085 * (gsSweep exampleMesh.JtJ exampleMesh.Jtz h).getD 2 0 =
    2278 * h.getD 1 0 - 74085 * h.getD 2 0 := by
  have e0 := gsSweep_getD exampleMesh.JtJ exampleMesh.Jtz h 0 (by omega)
  have e1 := gsSweep_getD exampleMesh.JtJ exampleMesh.Jtz h 1 (by omega)
  have e2 := gsSweep_getD exampleMesh.JtJ exampleMesh.Jtz h 2 (by omega)
  rw [exampleMesh_gsValue_zero] at e0
  rw [exampleMesh_gsValue_one] at e1
  rw [exampleMesh_gsValue_two] at e2
  simp only [gsPrefix_getD exampleMesh.JtJ exampleMesh.Jtz h _ _ (show 0 ≤ h.length by omega),
    gsPrefix_getD exampleMesh.JtJ exampleMesh.Jtz h _ _ (show 1 ≤ h.length by omega),
    gsPrefix_getD exampleMesh.JtJ exampleMesh.Jtz h _ _ (show 2 ≤ h.length by omega)]
    at e0 e1 e2
  norm_num at e0 e1 e2
  simp only [List.getD_eq_getElem?_getD]
  linear_combination (-2211 : ℚ) * e0 + 76330 * e1 - 74085 * e2

theorem gauss_seidel_zero (m : Mesh) (h : List ℚ) : gauss_seidel m h ((0 : Nat) : ℤ) = h := rfl

theorem gauss_seidel_succ (m : Mesh) (h : List ℚ) (k : Nat) :
    gauss_seidel m h ((k + 1 : Nat) : ℤ) =
      gsSweep m.JtJ m.Jtz (gauss_seidel m h ((k : Nat) : ℤ)) := by
  simp only [gauss_seidel, Int.toNat_ofNat, List.range_succ, List.foldl_append,
    List.foldl_cons, List.foldl_nil]

theorem gauss_seidel_length (m : Mesh) (h : List ℚ) (k : Nat) :
    (gauss_seidel m h ((k : Nat) : ℤ)).length = h.length := by
  induction k with
  | zero => rfl
  | succ k ih => rw [gauss_seidel_succ, gsSweep_length, ih]

/-- Along the sweeps of the example system, started from the heights after `align`,
`2278 * h(1) = 74085 * h(2)`. -/
theorem exampleMesh_invariant (k : Nat) :
    2278 * (gauss_seidel exampleMesh exampleMesh.h ((k : Nat) : ℤ)).getD 1 0 =
      74085 * (gauss_seidel exampleMesh exampleMesh.h ((k : Nat) : ℤ)).getD 2 0 := by
  induction k with
  | zero =>
    have h0 : exampleMesh.h = [0, 0, 0, 0] := rfl
    rw [gauss_seidel_zero, h0]
    norm_num
  | succ k ih =>
    have hl : (gauss_seidel exampleMesh exampleMesh.h ((k : Nat) : ℤ)).length = 4 := by
      rw [gauss_seidel_length]; rfl
    have hinv := exampleMesh_sweep_invariant _ hl
    rw [gauss_seidel_succ]
    linarith

/-- The smallest instance, which can be followed by hand: for the mesh of resolution 2
aligned to a cloud of mean height 2, with only the prior accumulated, the heights
produced by repeated Gauss-Seidel sweeps from the heights after `align` do not converge
to the mean height at every vertex. -/
theorem exampleMesh_not_converging :
    exampleMesh = align_to_point_cloud 2 1 Mesh.new exampleCloud ∧
    colMean cy exampleCloud = 2 ∧
    ¬ (∀ i, i < 2 * 2 →
      convergesTo
        (fun k => (gauss_seidel exampleMesh exampleMesh.h ((k : Nat) : ℤ)).getD i 0)
        (colMean cy exampleCloud)) := by
  have hmean : colMean cy exampleCloud = 2 := by norm_num [colMean, exampleCloud, cy]
  refine ⟨rfl, hmean, ?_⟩
  intro hconv
  rw [hmean] at hconv
  obtain ⟨N1, h1⟩ := hconv 1 (by decide) (1 / 2) (by norm_num)
  obtain ⟨N2, h2⟩ := hconv 2 (by decide) (1 / 2) (by norm_num)
  have ha := h1 (max N1 N2) (le_max_left _ _)
  have hb := h2 (max N1 N2) (le_max_right _ _)
  have hinv := exampleMesh_invariant (max N1 N2)
  simp only at ha hb
  rw [abs_lt] at ha hb
  linarith [ha.1, ha.2, hb.1, hb.2]

/-! ### A cloud of mean height zero -/

theorem foldl_prior_vec_zero (l : List Nat) (g : JtzVector) (hg : ∀ r, g.vec r = 0) (r : Nat) :
    (l.foldl (fun g i => g.update_triangle i (34 / 100) (33 / 100) 0) g).vec r = 0 := by
  induction l generalizing g with
  | nil => exact hg r
  | cons x xs ih =>
    rw [List.foldl_cons]
    apply ih
    intro r'
    simp [JtzVector.update_triangle, rhs_entry, hg r']

theorem gsAcc_zero (vals : List ℚ) (ids : List Int) (h : List ℚ)
    (hz : ∀ j, h.getD j 0 = 0) : gsAcc vals ids h = 0 := by
  rw [gsAcc_eq_sum]
  apply Finset.sum_eq_zero
  intro j _
  rw [hz, mul_zero]

theorem gsStep_zero (JtJ : JtJMatrixGrid) (Jtz : JtzVector) (hz : ∀ r, Jtz.vec r = 0)
    (h : List ℚ) (hh : ∀ j, h.getD j 0 = 0) (i j : Nat) :
    (gsStep JtJ Jtz h i).getD j 0 = 0 := by
  have hv : gsValue JtJ Jtz h i = 0 := by
    simp [gsValue, JtzVector.get_vec, hz i, gsAcc_zero _ _ h hh]
  rw [gsStep, hv, List.getD_eq_getElem?_getD, List.getElem?_set]
  have hj := hh j
  rw [List.getD_eq_getElem?_getD] at hj
  split_ifs
  · rfl
  · rfl
  · exact hj

theorem gsSweep_zero (JtJ : JtJMatrixGrid) (Jtz : JtzVector) (hz : ∀ r, Jtz.vec r = 0)
    (h : List ℚ) (hh : ∀ j, h.getD j 0 = 0) (j : Nat) :
    (gsSweep JtJ Jtz h).getD j 0 = 0 := by
  unfold gsSweep
  generalize List.range h.length = l
  induction l generalizing h j with
  | nil => exact hh j
  | cons x xs ih =>
    rw [List.foldl_cons]
    exact ih _ (fun j' => gsStep_zero JtJ Jtz hz h hh x j') j

theorem gauss_seidel_zero_heights (m : Mesh) (hz : ∀ r, m.Jtz.vec r = 0) (h : List ℚ)
    (hh : ∀ j, h.getD j 0 = 0) (k j : Nat) :
    (gauss_seidel m h ((k : Nat) : ℤ)).getD j 0 = 0 := by
  induction k generalizing j with
  | zero => exact hh j
  | succ k ih =>
    rw [gauss_seidel_succ]
    exact gsSweep_zero m.JtJ m.Jtz hz _ ih j

/-! ## One relaxation step on an aligned mesh -/

theorem iterate_h_length (m : Mesh) : (iterate m).h.length = m.h.length := by
  show (gauss_seidel m m.h 1).length = m.h.length
  rw [gauss_seidel_one, gsSweep_length]

theorem runOps_h_length (lmi : RayCaster) (ops : List MeshOp) (m : Mesh) :
    (runOps lmi m ops).h.length = m.h.length := by
  induction ops generalizing m with
  | nil => rfl
  | cons op ops ih =>
    cases op with
    | fit P => rw [runOps, ih, set_target_h]
    | relax => rw [runOps, ih, iterate_h_length]

/-- C1: on a mesh built by `align_to_point_cloud` (and any `fit` / `relax` calls
since), one call of `iterate` performs exactly one Gauss-Seidel sweep, that is
`gauss_seidel(h, 1)`: `h` keeps its `R*R` entries and, the vertices being visited in
index order, the new `h(i)` is `(rhs(i) - sum over the slots j whose id is not -1 of
coeff(i,j) * h(id_j)) / diag(i)`, where `h(id_j)` is the value of this sweep when
`id_j < i` and the value from before the sweep otherwise; afterwards the height column
of `vertices()` equals `h`. -/
theorem iterate_one_gauss_seidel_sweep (R : Nat) (s : ℚ) (m0 : Mesh) (P : List Vec3)
    (lmi : RayCaster) (ops : List MeshOp) (m : Mesh)
    (hm : m = runOps lmi (align_to_point_cloud R s m0 P) ops) (i : Nat) (hi : i < R * R) :
    (iterate m).h = gauss_seidel m m.h 1 ∧
    m.h.length = R * R ∧
    (iterate m).h.length = R * R ∧
    (iterate m).h.getD i 0 =
      (m.Jtz.get_vec i -
        ∑ j in (Finset.range 6).filter
            (fun j => (m.JtJ.get_matrix_values_for_vertex i).2.1.getD j (-1) ≠ -1),
          (m.JtJ.get_matrix_values_for_vertex i).1.getD j 0 *
            (if (m.JtJ.get_matrix_values_for_vertex i).2.1.getD j (-1) < (i : ℤ)
              then (iterate m).h.getD
                ((m.JtJ.get_matrix_values_for_vertex i).2.1.getD j (-1)).toNat 0
              else m.h.getD
                ((m.JtJ.get_matrix_values_for_vertex i).2.1.getD j (-1)).toNat 0)) /
        (m.JtJ.get_matrix_values_for_vertex i).2.2 ∧
    (iterate m).vertices.map cy = (iterate m).h := by
  have hh : m.h.length = R * R := by rw [hm, runOps_h_length, align_h_length]
  have hV : m.V.length = m.h.length := by rw [hh, hm, runOps_V_length, align_V_length]
  have key := iterate_sweep_formula m hV i (by rw [hh]; exact hi)
  exact ⟨key.1, hh, by rw [key.2.1, hh], key.2.2.1, key.2.2.2⟩

theorem iterate_one_gauss_seidel_sweep_witness :
    1 < 2 * 2 ∧
    (iterate (runOps missCaster exampleMesh [MeshOp.fit exampleCloud, MeshOp.relax])).h =
      gauss_seidel (runOps missCaster exampleMesh [MeshOp.fit exampleCloud, MeshOp.relax])
        (runOps missCaster exampleMesh [MeshOp.fit exampleCloud, MeshOp.relax]).h 1 ∧
    (iterate (runOps missCaster exampleMesh
      [MeshOp.fit exampleCloud, MeshOp.relax])).h.length = 2 * 2 ∧
    (iterate (runOps missCaster exampleMesh
      [MeshOp.fit exampleCloud, MeshOp.relax])).vertices.map cy =
      (iterate (runOps missCaster exampleMesh [MeshOp.fit exampleCloud, MeshOp.relax])).h :=
  have h1 : 1 < 2 * 2 := by decide
  ⟨h1,
    (iterate_one_gauss_seidel_sweep 2 1 Mesh.new exampleCloud missCaster
      [MeshOp.fit exampleCloud, MeshOp.relax] _ rfl 1 h1).1,
    (iterate_one_gauss_seidel_sweep 2 1 Mesh.new exampleCloud missCaster
      [MeshOp.fit exampleCloud, MeshOp.relax] _ rfl 1 h1).2.2.1,
    (iterate_one_gauss_seidel_sweep 2 1 Mesh.new exampleCloud missCaster
      [MeshOp.fit exampleCloud, MeshOp.relax] _ rfl 1 h1).2.2.2.2⟩

/-! ## Alignment is a total reset -/

/-- C11: `align_to_point_cloud` is a total reset: applied with the same non-empty
point cloud to any two mesh states, it yields the same transform, vertices, faces,
heights, `JtJ` grid and `Jtz` vector; nothing of the state before the call survives. -/
theorem align_total_reset (R : Nat) (s : ℚ) (m m' : Mesh) (P : List Vec3) (_hP : P ≠ []) :
    (align_to_point_cloud R s m P).transform = (align_to_point_cloud R s m' P).transform ∧
    (align_to_point_cloud R s m P).vertices = (align_to_point_cloud R s m' P).vertices ∧
    (align_to_point_cloud R s m P).faces = (align_to_point_cloud R s m' P).faces ∧
    (align_to_point_cloud R s m P).h = (align_to_point_cloud R s m' P).h ∧
    (align_to_point_cloud R s m P).JtJ = (align_to_point_cloud R s m' P).JtJ ∧
    (align_to_point_cloud R s m P).Jtz = (align_to_point_cloud R s m' P).Jtz ∧
    align_to_point_cloud R s m P = align_to_point_cloud R s m' P :=
  ⟨rfl, rfl, rfl, rfl, rfl, rfl, rfl⟩

theorem align_total_reset_witness :
    skewCloud ≠ [] ∧
    align_to_point_cloud MESH_RESOLUTION MESH_SCALING_FACTOR usedMesh skewCloud =
      align_to_point_cloud MESH_RESOLUTION MESH_SCALING_FACTOR Mesh.new skewCloud :=
  have h1 : skewCloud ≠ [] := by simp [skewCloud]
  ⟨h1, (align_total_reset MESH_RESOLUTION MESH_SCALING_FACTOR usedMesh Mesh.new skewCloud
    h1).2.2.2.2.2.2⟩

/-! ## Frame of `fit` and `relax` -/

theorem setCol1_map_cx (V : List Vec3) (h : List ℚ) : (setCol1 V h).map cx = V.map cx := by
  induction V generalizing h with
  | nil => simp [setCol1]
  | cons r rs ih => cases h <;> simp [setCol1, cx, ih]

theorem setCol1_map_cz (V : List Vec3) (h : List ℚ) : (setCol1 V h).map cz = V.map cz := by
  induction V generalizing h with
  | nil => simp [setCol1]
  | cons r rs ih => cases h <;> simp [setCol1, cz, ih]

/-- C12: after construction, height is the only thing that changes:
`set_target_point_cloud` leaves the vertex array, the face array and the height
vector (and the transform) as they are; `iterate` leaves the face array, the row
count and the x and z columns of the vertex array (and the transform, `JtJ` and
`Jtz`) as they are, and writes only the height vector and the height column of the
vertex array. -/
theorem height_is_the_only_change (lmi : RayCaster) (m : Mesh) (P : List Vec3) :
    (set_target_point_cloud lmi m P).vertices = m.vertices ∧
    (set_target_point_cloud lmi m P).faces = m.faces ∧
    (set_target_point_cloud lmi m P).h = m.h ∧
    (set_target_point_cloud lmi m P).transform = m.transform ∧
    (iterate m).faces = m.faces ∧
    (iterate m).vertices.length = m.vertices.length ∧
    (iterate m).vertices.map cx = m.vertices.map cx ∧
    (iterate m).vertices.map cz = m.vertices.map cz ∧
    (iterate m).transform = m.transform ∧
    (iterate m).JtJ = m.JtJ ∧
    (iterate m).Jtz = m.Jtz :=
  ⟨rfl, rfl, rfl, rfl, rfl, iterate_V_length m, setCol1_map_cx m.V _, setCol1_map_cz m.V _,
    rfl, rfl, rfl⟩

/-! ## Relaxing zero times -/

theorem set_target_all_miss (lmi : RayCaster) (m : Mesh) (P : List Vec3)
    (hmiss : ∀ i, i < (lmi P (List.replicate P.length (1 / 10000, 1, 0)) m.V m.F).length →
      static_cast_int
        ((lmi P (List.replicate P.length (1 / 10000, 1, 0)) m.V m.F).getD i (0, 0, 0)).1 = -1) :
    set_target_point_cloud lmi m P = m := by
  have key : set_target_point_cloud lmi m P =
      { m with
        JtJ := (fitLoop P (lmi P (List.replicate P.length (1 / 10000, 1, 0)) m.V m.F)
          (m.JtJ, m.Jtz)).1
        Jtz := (fitLoop P (lmi P (List.replicate P.length (1 / 10000, 1, 0)) m.V m.F)
          (m.JtJ, m.Jtz)).2 } := rfl
  rw [key, fitLoop_all_miss P _ _ hmiss]

theorem missCaster_all_miss (P : List Vec3) (V : List Vec3) (F : List Face) (i : Nat)
    (_hi : i < (missCaster P (List.replicate P.length (1 / 10000, 1, 0)) V F).length) :
    static_cast_int
      ((missCaster P (List.replicate P.length (1 / 10000, 1, 0)) V F).getD i (0, 0, 0)).1 =
        -1 := by
  have hc : static_cast_int (-1 : ℚ) = -1 := by
    simpa using static_cast_int_intCast (-1)
  have hzero : static_cast_int (0 : ℚ) = 0 := by
    simpa using static_cast_int_intCast 0
  simp only [missCaster, List.getD_eq_getElem?_getD, List.getElem?_map]
  cases hq : P[i]? with
  | none =>
    have hlen : (missCaster P (List.replicate P.length (1 / 10000, 1, 0)) V F).length =
        P.length := by simp [missCaster]
    rw [hlen] at _hi
    rw [List.getElem?_eq_none_iff] at hq
    omega
  | some q => simpa using hc

theorem gauss_seidel_nil (m : Mesh) (n : ℤ) : gauss_seidel m [] n = [] := by
  unfold gauss_seidel
  generalize List.range n.toNat = l
  induction l with
  | nil => rfl
  | cons x xs ih => rw [List.foldl_cons]; exact ih

/-- C14, as stated, fails: `set_target_point_cloud` on a mesh that was never aligned,
with a ray caster that finds no triangle to hit, returns normally, and the state it
returns is the unaligned mesh itself; no failure is signalled. -/
theorem fit_before_align_not_signalled :
    fit_call missCaster Mesh.new exampleCloud = some Mesh.new ∧
    ¬ (fit_call missCaster Mesh.new exampleCloud = none) := by
  have h : fit_call missCaster Mesh.new exampleCloud = some Mesh.new := by
    unfold fit_call
    rw [set_target_all_miss missCaster Mesh.new exampleCloud
      (missCaster_all_miss exampleCloud _ _)]
  exact ⟨h, by rw [h]; simp⟩

/-- C14, amended: Mesh.cpp has no alignment check and no error path: on a mesh that
was never aligned `set_target_point_cloud` returns normally, with `V`, `F` and `h`
still empty and, when the ray caster reports no hit, with the whole state unchanged;
`gauss_seidel` on the empty height vector of such a mesh performs no vertex pass and
returns it unchanged for every iteration count. -/
theorem calls_before_align_tolerated (lmi : RayCaster) (P : List Vec3) (n : ℤ)
    (hmiss : ∀ i,
      i < (lmi P (List.replicate P.length (1 / 10000, 1, 0)) Mesh.new.V Mesh.new.F).length →
      static_cast_int
        ((lmi P (List.replicate P.length (1 / 10000, 1, 0)) Mesh.new.V Mesh.new.F).getD i
          (0, 0, 0)).1 = -1) :
    fit_call lmi Mesh.new P = some Mesh.new ∧
    (set_target_point_cloud lmi Mesh.new P).vertices = [] ∧
    (set_target_point_cloud lmi Mesh.new P).faces = [] ∧
    (set_target_point_cloud lmi Mesh.new P).h = [] ∧
    gauss_seidel Mesh.new Mesh.new.h n = Mesh.new.h ∧
    Mesh.new.h = [] := by
  refine ⟨?_, rfl, rfl, rfl, gauss_seidel_nil Mesh.new n, rfl⟩
  unfold fit_call
  rw [set_target_all_miss lmi Mesh.new P hmiss]

theorem calls_before_align_tolerated_witness :
    fit_call missCaster Mesh.new skewCloud = some Mesh.new ∧
    gauss_seidel Mesh.new Mesh.new.h 5 = Mesh.new.h :=
  ⟨(calls_before_align_tolerated missCaster skewCloud 5
      (missCaster_all_miss skewCloud _ _)).1,
    (calls_before_align_tolerated missCaster skewCloud 5
      (missCaster_all_miss skewCloud _ _)).2.2.2.2.1⟩

/-! ## Compaction of the point cloud (DataSet.cpp) -/

theorem take_succ_set {α : Type} (l : List α) (j : Nat) (a : α) (h : j < l.length) :
    (l.set j a).take (j + 1) = l.take j ++ [a] := by
  induction l generalizing j with
  | nil => simp at h
  | cons x xs ih =>
    cases j with
    | zero => simp
    | succ j =>
      simp only [List.length_cons, Nat.add_lt_add_iff_right] at h
      simp [ih j h]

theorem count_row_any (inp : List Vec3) :
    (inp.map row_any).count true = (inp.filter row_any).length := by
  induction inp with
  | nil => rfl
  | cons r rs ih =>
    by_cases hr : row_any r = true
    · simp [List.filter_cons, hr, ih]
    · simp [List.filter_cons, hr, ih]

theorem filter_take_length_le (inp : List Vec3) (k : Nat) :
    ((inp.take k).filter row_any).length ≤ (inp.filter row_any).length := by
  conv_rhs => rw [← List.take_append_drop k inp, List.filter_append, List.length_append]
  exact Nat.le_add_right _ _

/-- The copy loop after its first `k` passes: the rows written so far are the
non-zero rows among the first `k` input rows, in input order. -/
theorem compact_prefix (inp : List Vec3) (k : Nat) (hk : k ≤ inp.length) :
    (((List.range k).foldl (compactStep inp (inp.map row_any))
        (List.replicate ((inp.map row_any).count true) ((0, 0, 0) : Vec3), 0)).1.length =
      (inp.filter row_any).length) ∧
    (((List.range k).foldl (compactStep inp (inp.map row_any))
        (List.replicate ((inp.map row_any).count true) ((0, 0, 0) : Vec3), 0)).2 =
      ((inp.take k).filter row_any).length) ∧
    (((List.range k).foldl (compactStep inp (inp.map row_any))
        (List.replicate ((inp.map row_any).count true) ((0, 0, 0) : Vec3), 0)).1.take
        ((inp.take k).filter row_any).length =
      (inp.take k).filter row_any) := by
  induction k with
  | zero =>
    refine ⟨?_, rfl, rfl⟩
    simp [count_row_any]
  | succ k ih =>
    obtain ⟨ih1, ih2, ih3⟩ := ih (by omega)
    have hlt : k < inp.length := by omega
    have hget : inp[k]? = some inp[k] := List.getElem?_eq_getElem hlt
    have htake : inp.take (k + 1) = inp.take k ++ [inp[k]] := by
      rw [List.take_succ, hget]; rfl
    have hnz : (inp.map row_any).getD k false = row_any inp[k] := by
      simp [List.getD_eq_getElem?_getD, List.getElem?_map, hget]
    have hin : inp.getD k (0, 0, 0) = inp[k] := by
      simp [List.getD_eq_getElem?_getD, hget]
    rw [List.range_succ, List.foldl_append, List.foldl_cons, List.foldl_nil]
    generalize (List.range k).foldl (compactStep inp (inp.map row_any))
      (List.replicate ((inp.map row_any).count true) ((0, 0, 0) : Vec3), 0) = st at ih1 ih2 ih3
    unfold compactStep
    rw [hnz, hin, htake, List.filter_append]
    by_cases hr : row_any inp[k] = true
    · have hle := filter_take_length_le inp (k + 1)
      rw [htake, List.filter_append, List.length_append] at hle
      simp only [hr, if_true, List.filter_cons, List.filter_nil, List.length_append,
        List.length_cons, List.length_nil] at hle ⊢
      refine ⟨by rw [List.length_set, ih1], by rw [ih2], ?_⟩
      rw [ih2] at *
      rw [take_succ_set _ _ _ (by rw [ih1]; omega), ih3]
    · have hf : row_any inp[k] = false := by simpa using hr
      simp only [hf, Bool.false_eq_true, if_false, List.filter_cons, List.filter_nil,
        List.append_nil]
      exact ⟨ih1, ih2, ih3⟩

/-- The output of `remove_empty_rows` is the list of the non-zero input rows. -/
theorem remove_empty_rows_eq_filter (inp : List Vec3) :
    remove_empty_rows inp = inp.filter row_any := by
  obtain ⟨h1, _, h3⟩ := compact_prefix inp inp.length (le_refl _)
  rw [List.take_length] at h3
  unfold remove_empty_rows
  rw [← h3, ← h1, List.take_length]

theorem row_any_iff (r : Vec3) : row_any r = true ↔ r ≠ (0, 0, 0) := by
  obtain ⟨a, b, c⟩ := r
  simp only [row_any, Bool.or_eq_true, decide_eq_true_eq, ne_eq, Prod.mk.injEq]
  tauto

/-- C15: for every `N x 3` input matrix `remove_empty_rows` outputs exactly the input
rows that have at least one non-zero coordinate, in their original relative order;
hence the stored point cloud holds no all-zero row, its row count is the number of
non-zero input rows, and an input without zero rows is returned unchanged. -/
theorem remove_empty_rows_compacts (inp : List Vec3) :
    remove_empty_rows inp =
      inp.filter (fun r => decide (r.1 ≠ 0 ∨ r.2.1 ≠ 0 ∨ r.2.2 ≠ 0)) ∧
    (remove_empty_rows inp).Sublist inp ∧
    (∀ r, r ∈ remove_empty_rows inp ↔ r ∈ inp ∧ (r.1 ≠ 0 ∨ r.2.1 ≠ 0 ∨ r.2.2 ≠ 0)) ∧
    ((0, 0, 0) : Vec3) ∉ remove_empty_rows inp ∧
    (remove_empty_rows inp).length =
      inp.countP (fun r => decide (r.1 ≠ 0 ∨ r.2.1 ≠ 0 ∨ r.2.2 ≠ 0)) ∧
    (((0, 0, 0) : Vec3) ∉ inp → remove_empty_rows inp = inp) := by
  have hp : (fun r : Vec3 => decide (r.1 ≠ 0 ∨ r.2.1 ≠ 0 ∨ r.2.2 ≠ 0)) = row_any := by
    funext r
    simp [row_any, Bool.decide_or, Bool.or_assoc]
  rw [hp, remove_empty_rows_eq_filter]
  refine ⟨rfl, List.filter_sublist inp, ?_, ?_, ?_, ?_⟩
  · intro r
    rw [List.mem_filter]
    simp [row_any, or_assoc]
  · intro h0
    rw [List.mem_filter] at h0
    exact (row_any_iff _).mp h0.2 rfl
  · rw [List.countP_eq_length_filter]
  · intro h0
    rw [List.filter_eq_self]
    intro r hr
    rw [row_any_iff]
    intro hz
    exact h0 (hz ▸ hr)

theorem remove_empty_rows_compacts_witness :
    ((0, 0, 0) : Vec3) ∉ levelCloud ∧
    remove_empty_rows levelCloud = levelCloud ∧
    ((0, 0, 0) : Vec3) ∉ remove_empty_rows skewCloud ∧
    (remove_empty_rows skewCloud).Sublist skewCloud :=
  have h0 : ((0, 0, 0) : Vec3) ∉ levelCloud := by
    simp [levelCloud, Prod.ext_iff]
  ⟨h0, (remove_empty_rows_compacts levelCloud).2.2.2.2.2 h0,
    (remove_empty_rows_compacts skewCloud).2.2.2.1,
    (remove_empty_rows_compacts skewCloud).2.1⟩

/-! ## The tiling of the grid by the face table -/

theorem align_F_get (R : Nat) (s : ℚ) (m : Mesh) (P : List Vec3) (k : Nat)
    (hk : k < (R - 1) * (R - 1) * 2) :
    (align_to_point_cloud R s m P).F[k]? = some (triangle_vertices R k) := by
  rw [align_F_eq, List.getElem?_map, List.getElem?_range hk]
  rfl

/-- Each cell and slot has a row index of its own, and every row index belongs to a
cell and slot. -/
theorem face_index_unique (R k : Nat) (hk : k < (R - 1) * (R - 1) * 2) :
    ∃ x y b, (x < R - 1 ∧ y < R - 1 ∧ b < 2 ∧ k = x * 2 + y * (R - 1) * 2 + b) ∧
      ∀ x' y' b', x' < R - 1 → y' < R - 1 → b' < 2 → k = x' * 2 + y' * (R - 1) * 2 + b' →
        x' = x ∧ y' = y ∧ b' = b := by
  have hN : 0 < R - 1 := by
    rcases Nat.eq_zero_or_pos (R - 1) with h | h
    · rw [h] at hk; simp at hk
    · exact h
  have hx : (k / 2) % (R - 1) < R - 1 := Nat.mod_lt _ hN
  have hy : (k / 2) / (R - 1) < R - 1 := by
    apply Nat.div_lt_of_lt_mul
    omega
  have hdm : (k / 2) % (R - 1) + (k / 2) / (R - 1) * (R - 1) = k / 2 := by
    rw [Nat.mul_comm]; exact Nat.mod_add_div _ _
  refine ⟨(k / 2) % (R - 1), (k / 2) / (R - 1), k % 2, ⟨hx, hy, Nat.mod_lt _ (by decide), ?_⟩, ?_⟩
  · omega
  · intro x' y' b' hx' _ hb' hk'
    have h2 : x' + y' * (R - 1) = (k / 2) % (R - 1) + (k / 2) / (R - 1) * (R - 1) := by
      omega
    have h3 := grid_index_inj (R - 1) x' y' _ _ hx' hx h2
    refine ⟨h3.1, h3.2, ?_⟩
    omega

/-- C16: the face table built by `align_to_point_cloud` tiles every grid cell with
two triangles split along a fixed diagonal: for every cell `(x, y)` with
`x, y < R-1`, row `2*(x + y*(R-1))` is `(x + y*R, x+1 + y*R, x + (y+1)*R)` and the next
row is `(x+1 + (y+1)*R, x + (y+1)*R, x+1 + y*R)`; each row holds three pairwise
distinct vertex indices below `R*R`, the two triangles of the cell share exactly the
two vertices `x+1 + y*R` and `x + (y+1)*R` and together hold the four corners of the
cell, and every row index below `2*(R-1)*(R-1)` is written for exactly one cell and
slot. -/
theorem face_table_tiles (R : Nat) (s : ℚ) (m : Mesh) (P : List Vec3) (_hP : P ≠ [])
    (x y : Nat) (hx : x < R - 1) (hy : y < R - 1) :
    (align_to_point_cloud R s m P).faces[2 * (x + y * (R - 1))]? =
      some (x + y * R, x + 1 + y * R, x + (y + 1) * R) ∧
    (align_to_point_cloud R s m P).faces[2 * (x + y * (R - 1)) + 1]? =
      some (x + 1 + (y + 1) * R, x + (y + 1) * R, x + 1 + y * R) ∧
    [x + y * R, x + 1 + y * R, x + (y + 1) * R].Nodup ∧
    [x + 1 + (y + 1) * R, x + (y + 1) * R, x + 1 + y * R].Nodup ∧
    (∀ u ∈ [x + y * R, x + 1 + y * R, x + (y + 1) * R, x + 1 + (y + 1) * R], u < R * R) ∧
    (∀ u, (u ∈ [x + y * R, x + 1 + y * R, x + (y + 1) * R] ∧
        u ∈ [x + 1 + (y + 1) * R, x + (y + 1) * R, x + 1 + y * R]) ↔
      (u = x + 1 + y * R ∨ u = x + (y + 1) * R)) ∧
    (∀ u, (u ∈ [x + y * R, x + 1 + y * R, x + (y + 1) * R] ∨
        u ∈ [x + 1 + (y + 1) * R, x + (y + 1) * R, x + 1 + y * R]) ↔
      u ∈ [x + y * R, x + 1 + y * R, x + (y + 1) * R, x + 1 + (y + 1) * R]) ∧
    (∀ k, k < 2 * (R - 1) * (R - 1) →
      ∃ a b c, (a < R - 1 ∧ b < R - 1 ∧ c < 2 ∧ k = a * 2 + b * (R - 1) * 2 + c) ∧
        ∀ a' b' c', a' < R - 1 → b' < R - 1 → c' < 2 →
          k = a' * 2 + b' * (R - 1) * 2 + c' → a' = a ∧ b' = b ∧ c' = c) := by
  have e1 : (y + 1) * R = y * R + R := Nat.succ_mul y R
  have hR : 2 ≤ R := by omega
  have hi : 2 * (x + y * (R - 1)) = (x + y * (R - 1)) * 2 := Nat.mul_comm _ _
  have hlt := cell_triangle_lt R x y hx hy
  refine ⟨?_, ?_, ?_, ?_, ?_, ?_, ?_, ?_⟩
  · show (align_to_point_cloud R s m P).F[2 * (x + y * (R - 1))]? = _
    rw [hi, align_F_get R s m P _ (by omega), triangle_vertices_lower R x y hx]
    rfl
  · show (align_to_point_cloud R s m P).F[2 * (x + y * (R - 1)) + 1]? = _
    rw [hi, align_F_get R s m P _ hlt, triangle_vertices_upper R x y hx]
    rfl
  · simp only [List.nodup_cons, List.mem_cons, List.mem_singleton, List.not_mem_nil,
      or_false, not_or, List.nodup_nil, and_true, not_false_eq_true]
    omega
  · simp only [List.nodup_cons, List.mem_cons, List.mem_singleton, List.not_mem_nil,
      or_false, not_or, List.nodup_nil, and_true, not_false_eq_true]
    omega
  · intro u hu
    simp only [List.mem_cons, List.mem_singleton, List.not_mem_nil, or_false] at hu
    rcases hu with h | h | h | h <;> rw [h]
    · exact grid_index_lt R x y (by omega) (by omega)
    · exact grid_index_lt R (x + 1) y (by omega) (by omega)
    · exact grid_index_lt R x (y + 1) (by omega) (by omega)
    · exact grid_index_lt R (x + 1) (y + 1) (by omega) (by omega)
  · intro u
    simp only [List.mem_cons, List.mem_singleton, List.not_mem_nil, or_false]
    omega
  · intro u
    simp only [List.mem_cons, List.mem_singleton, List.not_mem_nil, or_false]
    omega
  · intro k hk
    exact face_index_unique R k (by
      have : 2 * (R - 1) * (R - 1) = (R - 1) * (R - 1) * 2 := by ring
      omega)

theorem face_table_tiles_witness :
    skewCloud ≠ [] ∧ 28 < MESH_RESOLUTION - 1 ∧ 3 < MESH_RESOLUTION - 1 ∧
    (align_to_point_cloud MESH_RESOLUTION MESH_SCALING_FACTOR Mesh.new
      skewCloud).faces[2 * (28 + 3 * (MESH_RESOLUTION - 1))]? =
      some (28 + 3 * MESH_RESOLUTION, 28 + 1 + 3 * MESH_RESOLUTION,
        28 + (3 + 1) * MESH_RESOLUTION) ∧
    (align_to_point_cloud MESH_RESOLUTION MESH_SCALING_FACTOR Mesh.new
      skewCloud).faces[2 * (28 + 3 * (MESH_RESOLUTION - 1)) + 1]? =
      some (28 + 1 + (3 + 1) * MESH_RESOLUTION, 28 + (3 + 1) * MESH_RESOLUTION,
        28 + 1 + 3 * MESH_RESOLUTION) :=
  have h1 : skewCloud ≠ [] := by simp [skewCloud]
  have h2 : 28 < MESH_RESOLUTION - 1 := by decide
  have h3 : 3 < MESH_RESOLUTION - 1 := by decide
  ⟨h1, h2, h3,
    (face_table_tiles MESH_RESOLUTION MESH_SCALING_FACTOR Mesh.new skewCloud h1 28 3
      h2 h3).1,
    (face_table_tiles MESH_RESOLUTION MESH_SCALING_FACTOR Mesh.new skewCloud h1 28 3
      h2 h3).2.1⟩

/-! ## The footprint covers the cloud -/

theorem getD_mem {α : Type} (l : List α) (k : Nat) (d : α) (hk : k < l.length) :
    l.getD k d ∈ l := by
  rw [List.getD_eq_getElem?_getD, List.getElem?_eq_getElem hk, Option.getD_some]
  exact List.getElem_mem hk

/-- The aligned vertex table holds the row of every grid point. -/
theorem align_V_mem (R : Nat) (s : ℚ) (m : Mesh) (P : List Vec3) (x z : Nat)
    (hx : x < R) (hz : z < R) :
    ((colMin cx P + colMax cx P) / 2 +
        ((x : ℚ) - ((R : ℚ) - 1) / 2) * (s * |colMax cx P - colMin cx P| / ((R : ℚ) - 1)),
       colMean cy P,
       (colMin cz P + colMax cz P) / 2 +
        ((z : ℚ) - ((R : ℚ) - 1) / 2) * (s * |colMax cz P - colMin cz P| / ((R : ℚ) - 1))) ∈
      (align_to_point_cloud R s m P).V := by
  rw [← align_V_getD R s m P x z hx hz]
  exact getD_mem _ _ _ (by rw [align_V_length]; exact grid_index_lt R x z hx hz)

/-- C18: when the scaling factor is at least 1 (`MESH_SCALING_FACTOR` is 1.4), the
mesh built by `align_to_point_cloud` covers the whole cloud in plan view: for every
point `p` of a non-empty cloud, `p.x` lies between the smallest and the largest vertex
x coordinate and `p.z` between the smallest and the largest vertex z coordinate. -/
theorem mesh_covers_cloud (R : Nat) (hR : 2 ≤ R) (s : ℚ) (hs : 1 ≤ s) (m : Mesh)
    (P : List Vec3) (_hP : P ≠ []) (p : Vec3) (hp : p ∈ P) :
    colMin cx (align_to_point_cloud R s m P).vertices ≤ cx p ∧
    cx p ≤ colMax cx (align_to_point_cloud R s m P).vertices ∧
    colMin cz (align_to_point_cloud R s m P).vertices ≤ cz p ∧
    cz p ≤ colMax cz (align_to_point_cloud R s m P).vertices := by
  have h0 : 0 < R := by omega
  have h1 : R - 1 < R := by omega
  have hc : (((R - 1 : Nat)) : ℚ) = (R : ℚ) - 1 := by
    rw [Nat.cast_sub (by omega)]; simp
  have hne : (R : ℚ) - 1 ≠ 0 := by
    have h2 : (2 : ℚ) ≤ (R : ℚ) := by exact_mod_cast hR
    intro h; linarith
  have hlo := align_V_mem R s m P 0 0 h0 h0
  have hhi := align_V_mem R s m P (R - 1) (R - 1) h1 h1
  have hdx : |colMax cx P - colMin cx P| = colMax cx P - colMin cx P :=
    abs_of_nonneg (sub_nonneg.mpr (colMin_le_colMax cx P))
  have hdz : |colMax cz P - colMin cz P| = colMax cz P - colMin cz P :=
    abs_of_nonneg (sub_nonneg.mpr (colMin_le_colMax cz P))
  have hxlo := colMin_le cx _ _ hlo
  have hxhi := le_colMax cx _ _ hhi
  have hzlo := colMin_le cz _ _ hlo
  have hzhi := le_colMax cz _ _ hhi
  have hpx1 := colMin_le cx P p hp
  have hpx2 := le_colMax cx P p hp
  have hpz1 := colMin_le cz P p hp
  have hpz2 := le_colMax cz P p hp
  have ex0 : ((0 : Nat) : ℚ) - ((R : ℚ) - 1) / 2 = -(((R : ℚ) - 1) / 2) := by simp
  have ex1 : (((R - 1 : Nat)) : ℚ) - ((R : ℚ) - 1) / 2 = ((R : ℚ) - 1) / 2 := by
    rw [hc]; ring
  simp only [cx, cz, hdx, hdz, ex0, ex1] at hxlo hxhi hzlo hzhi
  have ea : ∀ d : ℚ, -(((R : ℚ) - 1) / 2) * (s * d / ((R : ℚ) - 1)) = -(s * d / 2) := by
    intro d; field_simp; ring
  have eb : ∀ d : ℚ, ((R : ℚ) - 1) / 2 * (s * d / ((R : ℚ) - 1)) = s * d / 2 := by
    intro d; field_simp; ring
  rw [ea] at hxlo hzlo
  rw [eb] at hxhi hzhi
  have hdx0 : 0 ≤ colMax cx P - colMin cx P := sub_nonneg.mpr (colMin_le_colMax cx P)
  have hdz0 : 0 ≤ colMax cz P - colMin cz P := sub_nonneg.mpr (colMin_le_colMax cz P)
  have hsx : colMax cx P - colMin cx P ≤ s * (colMax cx P - colMin cx P) :=
    le_mul_of_one_le_left hdx0 hs
  have hsz : colMax cz P - colMin cz P ≤ s * (colMax cz P - colMin cz P) :=
    le_mul_of_one_le_left hdz0 hs
  simp only [Mesh.vertices, cx, cz] at *
  refine ⟨?_, ?_, ?_, ?_⟩ <;> linarith

theorem mesh_covers_cloud_witness :
    2 ≤ MESH_RESOLUTION ∧ 1 ≤ MESH_SCALING_FACTOR ∧ skewCloud ≠ [] ∧
    ((4, 0, 2) : Vec3) ∈ skewCloud ∧
    colMin cx (align_to_point_cloud MESH_RESOLUTION MESH_SCALING_FACTOR Mesh.new
      skewCloud).vertices ≤ cx ((4, 0, 2) : Vec3) ∧
    cx ((4, 0, 2) : Vec3) ≤
      colMax cx (align_to_point_cloud MESH_RESOLUTION MESH_SCALING_FACTOR Mesh.new
        skewCloud).vertices :=
  have h1 : 2 ≤ MESH_RESOLUTION := by decide
  have h2 : 1 ≤ MESH_SCALING_FACTOR := by norm_num [MESH_SCALING_FACTOR]
  have h3 : skewCloud ≠ [] := by simp [skewCloud]
  have h4 : ((4, 0, 2) : Vec3) ∈ skewCloud := by simp [skewCloud]
  ⟨h1, h2, h3, h4,
    (mesh_covers_cloud MESH_RESOLUTION h1 MESH_SCALING_FACTOR h2 Mesh.new skewCloud h3
      (4, 0, 2) h4).1,
    (mesh_covers_cloud MESH_RESOLUTION h1 MESH_SCALING_FACTOR h2 Mesh.new skewCloud h3
      (4, 0, 2) h4).2.1⟩

/-! ## The uniform height is a fixed point -/

/-- The slot loop over the slots of a neighbour list. -/
theorem gsAcc_neighbours (f : Nat → ℚ) (nb : List Nat) (hlen : nb.length ≤ 6) (h : List ℚ) :
    gsAcc (nb.map f ++ List.replicate (6 - nb.length) 0)
        (nb.map Int.ofNat ++ List.replicate (6 - nb.length) (-1)) h =
      (nb.map (fun u => f u * h.getD u 0)).sum := by
  have hne : ∀ a : Nat, ¬ ((a : ℤ) = -1) := by intro a; omega
  rcases nb with _ | ⟨a1, _ | ⟨a2, _ | ⟨a3, _ | ⟨a4, _ | ⟨a5, _ | ⟨a6, _ | ⟨a7, rest⟩⟩⟩⟩⟩⟩⟩
  · simp [gsAcc, range_six, List.replicate]
  · simp [gsAcc, range_six, List.replicate, hne]
  · simp [gsAcc, range_six, List.replicate, hne]
  · simp [gsAcc, range_six, List.replicate, hne, add_assoc]
  · simp [gsAcc, range_six, List.replicate, hne, add_assoc]
  · simp [gsAcc, range_six, List.replicate, hne, add_assoc]
  · simp [gsAcc, range_six, List.replicate, hne, add_assoc]
  · simp at hlen

theorem rhs_entry_eq_mul (ws : List (Nat × ℚ)) (z : ℚ) (r : Nat) :
    rhs_entry ws z r = vertex_weight ws r * z := by
  unfold rhs_entry vertex_weight
  rw [← List.sum_map_mul_right]
  congr 1
  apply List.map_congr_left
  intro a _
  split_ifs <;> simp

theorem block_entry_eq_weights (ws : List (Nat × ℚ)) (r c : Nat) :
    block_entry ws r c = vertex_weight ws r * vertex_weight ws c :=
  block_entry_eq_mul ws r c

/-- Summing an indicator over a list without duplicates. -/
theorem sum_indicator (l : List Nat) (hl : l.Nodup) (v : Nat) (w : ℚ) :
    (l.map (fun u => if u = v then w else 0)).sum = if v ∈ l then w else 0 := by
  induction l with
  | nil => simp
  | cons x xs ih =>
    rw [List.nodup_cons] at hl
    rw [List.map_cons, List.sum_cons, ih hl.2]
    by_cases hx : x = v
    · subst hx
      simp [hl.1]
    · have hx2 : ¬ v = x := fun h => hx h.symm
      simp [hx, hx2]

theorem triangle_vertices_lt (R t : Nat) (ht : t < (R - 1) * (R - 1) * 2) (u : Nat)
    (hu : u ∈ (triangle_vertices R t).verts) : u < R * R := by
  apply align_F_entries_lt R 1 Mesh.new [] (triangle_vertices R t) _ u hu
  rw [align_F_eq]
  exact List.mem_map.mpr ⟨t, List.mem_range.mpr ht, rfl⟩

/-- Two distinct corners of a triangle are neighbours. -/
theorem mem_neighbours_of_triangle (R t i v : Nat) (ht : t < (R - 1) * (R - 1) * 2)
    (hi : i ∈ (triangle_vertices R t).verts) (hv : v ∈ (triangle_vertices R t).verts)
    (hne : v ≠ i) : v ∈ neighbours R i := by
  unfold neighbours
  rw [List.mem_filter, List.mem_range, Bool.and_eq_true, decide_eq_true_eq]
  refine ⟨triangle_vertices_lt R t ht v hv, hne, ?_⟩
  unfold shares_triangle
  rw [List.any_eq_true]
  exact ⟨t, List.mem_range.mpr ht, by simp [hi, hv]⟩

theorem not_mem_neighbours_self (R i : Nat) : i ∉ neighbours R i := by
  unfold neighbours
  rw [List.mem_filter]
  simp

/-- The weight of a corner, plus its weight over the neighbours of a corner `i` of the
same triangle, is the weight itself: the corner is `i` or a neighbour of `i`. -/
theorem corner_weight_split (R t i v : Nat) (w : ℚ) (ht : t < (R - 1) * (R - 1) * 2)
    (hi : i ∈ (triangle_vertices R t).verts) (hv : v ∈ (triangle_vertices R t).verts) :
    (if i = v then w else 0) +
      ((neighbours R i).map (fun u => if u = v then w else 0)).sum = w := by
  rw [sum_indicator _ (neighbours_nodup R i)]
  by_cases hiv : i = v
  · subst hiv
    rw [if_pos rfl, if_neg (not_mem_neighbours_self R i), add_zero]
  · have hmem : v ∈ neighbours R i :=
      mem_neighbours_of_triangle R t i v ht hi hv (fun h => hiv h.symm)
    rw [if_neg hiv, if_pos hmem, zero_add]

/-- The weights of a triangle, summed over a corner and its neighbours, add up to 1. -/
theorem weight_row_sum (R t : Nat) (b1 b2 : ℚ) (i : Nat) (ht : t < (R - 1) * (R - 1) * 2)
    (hi : i ∈ (triangle_vertices R t).verts) :
    vertex_weight (weighted_vertices R t b1 b2) i +
      ((neighbours R i).map (vertex_weight (weighted_vertices R t b1 b2))).sum = 1 := by
  have h0 := corner_weight_split R t i (triangle_vertices R t).1 (1 - b1 - b2) ht hi
    (by simp [Face.verts])
  have h1 := corner_weight_split R t i (triangle_vertices R t).2.1 b1 ht hi
    (by simp [Face.verts])
  have h2 := corner_weight_split R t i (triangle_vertices R t).2.2 b2 ht hi
    (by simp [Face.verts])
  have hsum : ((neighbours R i).map (vertex_weight (weighted_vertices R t b1 b2))).sum =
      ((neighbours R i).map
        (fun u => if u = (triangle_vertices R t).1 then 1 - b1 - b2 else 0)).sum +
      ((neighbours R i).map
        (fun u => if u = (triangle_vertices R t).2.1 then b1 else 0)).sum +
      ((neighbours R i).map
        (fun u => if u = (triangle_vertices R t).2.2 then b2 else 0)).sum := by
    rw [← List.sum_map_add, ← List.sum_map_add]
    congr 1
    apply List.map_congr_left
    intro u _
    simp only [vertex_weight, weighted_vertices, List.map_cons, List.map_nil, List.sum_cons,
      List.sum_nil]
    ring
  have hself : vertex_weight (weighted_vertices R t b1 b2) i =
      (if i = (triangle_vertices R t).1 then 1 - b1 - b2 else 0) +
      (if i = (triangle_vertices R t).2.1 then b1 else 0) +
      (if i = (triangle_vertices R t).2.2 then b2 else 0) := by
    simp only [vertex_weight, weighted_vertices, List.map_cons, List.map_nil, List.sum_cons,
      List.sum_nil]
    ring
  rw [hsum, hself]
  linarith

theorem vertex_weight_eq_zero (R t : Nat) (b1 b2 : ℚ) (i : Nat)
    (hi : i ∉ (triangle_vertices R t).verts) :
    vertex_weight (weighted_vertices R t b1 b2) i = 0 := by
  simp only [Face.verts, List.mem_cons, List.mem_singleton, List.not_mem_nil, or_false,
    not_or] at hi
  simp [vertex_weight, weighted_vertices, hi.1, hi.2.1, hi.2.2]

/-- One update with target `c` keeps the system balanced at `c`. -/
theorem balancedAt_accumulateHit (R : Nat) (c : ℚ) (st : JtJMatrixGrid × JtzVector)
    (hst : balancedAt R c st) (t : Nat) (b1 b2 : ℚ) (ht : t < (R - 1) * (R - 1) * 2) :
    balancedAt R c (accumulateHit st (t, b1, b2, c)) := by
  obtain ⟨hr1, hr2, hbal⟩ := hst
  refine ⟨hr1, hr2, ?_⟩
  intro i
  show st.2.vec i + rhs_entry (weighted_vertices st.2.res t b1 b2) c i =
    c * (st.1.coeff i i + block_entry (weighted_vertices st.1.res t b1 b2) i i +
      ((neighbours R i).map (fun u => st.1.coeff i u +
        block_entry (weighted_vertices st.1.res t b1 b2) i u)).sum)
  have hblk : ((neighbours R i).map (fun u =>
      block_entry (weighted_vertices R t b1 b2) i u)).sum =
      vertex_weight (weighted_vertices R t b1 b2) i *
        ((neighbours R i).map (vertex_weight (weighted_vertices R t b1 b2))).sum := by
    rw [← List.sum_map_mul_left]
    congr 1
    apply List.map_congr_left
    intro u _
    exact block_entry_eq_weights _ i u
  rw [hr1, hr2, hbal i, rhs_entry_eq_mul, List.sum_map_add, hblk, block_entry_eq_weights]
  by_cases hi : i ∈ (triangle_vertices R t).verts
  · have hrow := weight_row_sum R t b1 b2 i ht hi
    have hmul : vertex_weight (weighted_vertices R t b1 b2) i *
        (vertex_weight (weighted_vertices R t b1 b2) i +
          ((neighbours R i).map (vertex_weight (weighted_vertices R t b1 b2))).sum) =
        vertex_weight (weighted_vertices R t b1 b2) i := by
      rw [hrow, mul_one]
    linear_combination (-c) * hmul
  · rw [vertex_weight_eq_zero R t b1 b2 i hi]
    ring

theorem balancedAt_accumulate (R : Nat) (c : ℚ) (cs : List (Nat × ℚ × ℚ × ℚ))
    (hcs : ∀ q ∈ cs, q.1 < (R - 1) * (R - 1) * 2 ∧ q.2.2.2 = c)
    (st : JtJMatrixGrid × JtzVector) (hst : balancedAt R c st) :
    balancedAt R c (accumulate cs st) := by
  induction cs generalizing st with
  | nil => exact hst
  | cons q qs ih =>
    have hq := hcs q (List.mem_cons_self _ _)
    obtain ⟨t, b1, b2, z⟩ := q
    simp only at hq
    have hstep : balancedAt R c (accumulateHit st (t, b1, b2, z)) := by
      rw [hq.2]
      exact balancedAt_accumulateHit R c st hst t b1 b2 hq.1
    exact ih (fun q' hq' => hcs q' (List.mem_cons_of_mem _ hq')) _ hstep

/-- The two prior loops of `align_to_point_cloud`, run side by side, are one
accumulation of the prior contributions. -/
theorem prior_loops_eq_accumulate (l : List Nat) (c : ℚ) (J : JtJMatrixGrid) (z : JtzVector) :
    (l.foldl (fun g i => g.update_triangle i (34 / 100) (33 / 100)) J,
     l.foldl (fun g i => g.update_triangle i (34 / 100) (33 / 100) c) z) =
      accumulate (l.map (fun t => (t, 34 / 100, 33 / 100, c))) (J, z) := by
  induction l generalizing J z with
  | nil => rfl
  | cons x xs ih =>
    rw [List.foldl_cons, List.foldl_cons, ih]
    rfl

theorem align_eq_accumulate (R : Nat) (s : ℚ) (m : Mesh) (P : List Vec3) :
    ((align_to_point_cloud R s m P).JtJ, (align_to_point_cloud R s m P).Jtz) =
      accumulate
        ((List.range ((R - 1) * (R - 1) * 2)).map
          (fun t => (t, 34 / 100, 33 / 100, colMean cy P)))
        (m.JtJ.resize R, m.Jtz.resize R) :=
  prior_loops_eq_accumulate _ _ _ _

/-- After `align_to_point_cloud` the system is balanced at the mean height. -/
theorem align_balanced (R : Nat) (s : ℚ) (m : Mesh) (P : List Vec3) :
    balancedAt R (colMean cy P)
      ((align_to_point_cloud R s m P).JtJ, (align_to_point_cloud R s m P).Jtz) := by
  rw [align_eq_accumulate]
  apply balancedAt_accumulate
  · intro q hq
    obtain ⟨t, ht, rfl⟩ := List.mem_map.mp hq
    exact ⟨List.mem_range.mp ht, rfl⟩
  · refine ⟨rfl, rfl, ?_⟩
    intro i
    simp [JtJMatrixGrid.resize, JtzVector.resize]

theorem accumulate_diag_le (cs : List (Nat × ℚ × ℚ × ℚ)) (st : JtJMatrixGrid × JtzVector)
    (i : Nat) : st.1.coeff i i ≤ (accumulate cs st).1.coeff i i := by
  induction cs generalizing st with
  | nil => exact le_refl _
  | cons q qs ih =>
    exact le_trans (update_triangle_diag_le st.1 q.1 q.2.1 q.2.2.1 i)
      (ih (accumulateHit st q))

theorem neighbours_length_le_six (R i : Nat) (hi : i < R * R) :
    (neighbours R i).length ≤ 6 := by
  have hR : 0 < R := by
    rcases Nat.eq_zero_or_pos R with h | h
    · rw [h] at hi; simp at hi
    · exact h
  have hx : i % R < R := Nat.mod_lt _ hR
  have hy : i / R < R := Nat.div_lt_of_lt_mul hi
  have hi2 : i = i % R + i / R * R := by
    rw [Nat.mul_comm]; exact (Nat.mod_add_div i R).symm
  rw [hi2]
  exact neighbours_length_le R _ _ hx hy

theorem mem_neighbours_lt (R i u : Nat) (hu : u ∈ neighbours R i) : u < R * R := by
  unfold neighbours at hu
  rw [List.mem_filter, List.mem_range] at hu
  exact hu.1

/-- On a balanced system with positive diagonal, the value computed for vertex `i`
from the uniform heights `c` is `c`. -/
theorem gsValue_uniform (R : Nat) (c : ℚ) (J : JtJMatrixGrid) (z : JtzVector)
    (hbal : balancedAt R c (J, z)) (i : Nat) (hi : i < R * R) (hpos : 0 < J.coeff i i) :
    gsValue J z (List.replicate (R * R) c) i = c := by
  obtain ⟨hr1, _, hb⟩ := hbal
  have hlen := neighbours_length_le_six R i hi
  have hsum : ((neighbours R i).map
      (fun u => J.coeff i u * (List.replicate (R * R) c).getD u 0)).sum =
      c * ((neighbours R i).map (J.coeff i)).sum := by
    rw [← List.sum_map_mul_left]
    congr 1
    apply List.map_congr_left
    intro u hu
    have hu2 := mem_neighbours_lt R i u hu
    rw [List.getD_eq_getElem?_getD, List.getElem?_replicate, if_pos hu2, Option.getD_some]
    ring
  simp only [gsValue, JtJMatrixGrid.get_matrix_values_for_vertex, JtzVector.get_vec]
  rw [hr1, List.take_of_length_le hlen, gsAcc_neighbours _ _ hlen, hsum]
  have hbi := hb i
  simp only at hbi
  rw [hbi]
  field_simp
  ring

theorem set_replicate_self (n i : Nat) (c : ℚ) :
    (List.replicate n c).set i c = List.replicate n c := by
  apply List.ext_getElem?
  intro k
  rw [List.getElem?_set, List.length_replicate, List.getElem?_replicate]
  by_cases h1 : i = k
  · subst h1
    rw [if_pos rfl]
  · rw [if_neg h1]

/-- One sweep over a balanced system with positive diagonal leaves the uniform
heights `c` as they are. -/
theorem gsSweep_uniform (R : Nat) (c : ℚ) (J : JtJMatrixGrid) (z : JtzVector)
    (hbal : balancedAt R c (J, z)) (hpos : ∀ i, i < R * R → 0 < J.coeff i i) :
    gsSweep J z (List.replicate (R * R) c) = List.replicate (R * R) c := by
  have hstep : ∀ l : List Nat, (∀ i ∈ l, i < R * R) →
      l.foldl (gsStep J z) (List.replicate (R * R) c) = List.replicate (R * R) c := by
    intro l
    induction l with
    | nil => intro _; rfl
    | cons x xs ih =>
      intro hl
      rw [List.foldl_cons, gsStep,
        gsValue_uniform R c J z hbal x (hl x (List.mem_cons_self _ _))
          (hpos x (hl x (List.mem_cons_self _ _))),
        set_replicate_self]
      exact ih (fun i hi => hl i (List.mem_cons_of_mem _ hi))
  unfold gsSweep
  rw [List.length_replicate]
  exact hstep _ (fun i hi => List.mem_range.mp hi)

theorem gauss_seidel_uniform (R : Nat) (c : ℚ) (m : Mesh)
    (hbal : balancedAt R c (m.JtJ, m.Jtz)) (hpos : ∀ i, i < R * R → 0 < m.JtJ.coeff i i)
    (n : ℤ) :
    gauss_seidel m (List.replicate (R * R) c) n = List.replicate (R * R) c := by
  unfold gauss_seidel
  generalize List.range n.toNat = l
  induction l with
  | nil => rfl
  | cons x xs ih =>
    rw [List.foldl_cons, gsSweep_uniform R c m.JtJ m.Jtz hbal hpos]
    exact ih

/-- One `fit` with a well-formed ray caster and points at height `c` keeps the system
balanced at `c`. -/
theorem fitLoop_balanced (R : Nat) (c : ℚ) (P bc : List Vec3)
    (hlen : bc.length = P.length) (hP : ∀ p ∈ P, cy p = c)
    (hbc : ∀ row ∈ bc, static_cast_int row.1 = -1 ∨
      (0 ≤ static_cast_int row.1 ∧
        static_cast_int row.1 < (((R - 1) * (R - 1) * 2 : Nat) : ℤ)))
    (st : JtJMatrixGrid × JtzVector) (hst : balancedAt R c st) :
    balancedAt R c (fitLoop P bc st) := by
  rw [fitLoop_eq_accumulate]
  apply balancedAt_accumulate _ _ _ _ _ hst
  intro q hq
  obtain ⟨i, hi, rfl⟩ := List.mem_map.mp hq
  rw [List.mem_filter, List.mem_range, decide_eq_true_eq] at hi
  obtain ⟨hib, hne⟩ := hi
  have hrow : bc.getD i (0, 0, 0) ∈ bc := getD_mem bc i _ hib
  have hpt : P.getD i (0, 0, 0) ∈ P := getD_mem P i _ (by rw [← hlen]; exact hib)
  constructor
  · show (static_cast_int (bc.getD i (0, 0, 0)).1).toNat < (R - 1) * (R - 1) * 2
    rcases hbc _ hrow with h | h
    · exact absurd h hne
    · omega
  · exact hP _ hpt

theorem runOps_balanced (R : Nat) (c : ℚ) (lmi : RayCaster) (hlmi : wellFormedCaster R lmi)
    (ops : List MeshOp) (hops : fittedAtHeight c ops) (m : Mesh)
    (hm : balancedAt R c (m.JtJ, m.Jtz)) :
    balancedAt R c ((runOps lmi m ops).JtJ, (runOps lmi m ops).Jtz) := by
  induction ops generalizing m with
  | nil => exact hm
  | cons op ops ih =>
    cases op with
    | fit P' =>
      rw [runOps]
      apply ih hops.2
      exact fitLoop_balanced R c P' _ (hlmi P' _ m.V m.F).1 hops.1 (hlmi P' _ m.V m.F).2 _ hm
    | relax =>
      rw [runOps]
      exact ih hops (iterate m) hm

/-- C17: if every accumulated contribution has the same target height `c` (the prior
of `align_to_point_cloud` on a cloud of mean height `c`, and any number of `fit` calls
with points of height `c`, the ray caster reporting triangles of the mesh or no hit),
then the uniform height vector `h(i) = c` is a fixed point of the Gauss-Seidel sweep:
`gauss_seidel` applied to it with any number of iterations returns it unchanged. -/
theorem uniform_height_fixed_point (R : Nat) (hR : 2 ≤ R) (s : ℚ) (m0 : Mesh) (P : List Vec3)
    (_hP : P ≠ []) (c : ℚ) (hc : colMean cy P = c) (lmi : RayCaster)
    (hlmi : wellFormedCaster R lmi) (ops : List MeshOp) (hops : fittedAtHeight c ops)
    (n : ℤ) :
    gauss_seidel (runOps lmi (align_to_point_cloud R s m0 P) ops) (List.replicate (R * R) c) n =
      List.replicate (R * R) c := by
  apply gauss_seidel_uniform
  · apply runOps_balanced R c lmi hlmi ops hops
    rw [← hc]
    exact align_balanced R s m0 P
  · intro i hi
    exact lt_of_lt_of_le (align_diag_pos R hR s m0 P i hi) (runOps_diag_le lmi i ops _)

theorem hitCaster_wellFormed : wellFormedCaster 2 hitCaster := by
  intro P N V F
  refine ⟨by simp [hitCaster], ?_⟩
  intro row hrow
  have hzero : static_cast_int (0 : ℚ) = 0 := by
    simpa using static_cast_int_intCast 0
  simp only [hitCaster, List.mem_map] at hrow
  obtain ⟨_, _, rfl⟩ := hrow
  right
  rw [hzero]
  decide

theorem uniform_height_fixed_point_witness :
    2 ≤ 2 ∧ exampleCloud ≠ [] ∧ colMean cy exampleCloud = 2 ∧ wellFormedCaster 2 hitCaster ∧
    fittedAtHeight 2 [MeshOp.fit flatCloud, MeshOp.relax, MeshOp.fit flatCloud] ∧
    gauss_seidel
      (runOps hitCaster (align_to_point_cloud 2 MESH_SCALING_FACTOR Mesh.new exampleCloud)
        [MeshOp.fit flatCloud, MeshOp.relax, MeshOp.fit flatCloud])
      (List.replicate (2 * 2) 2) 3 = List.replicate (2 * 2) 2 :=
  have h1 : (2 : Nat) ≤ 2 := le_refl 2
  have h2 : exampleCloud ≠ [] := by simp [exampleCloud]
  have h3 : colMean cy exampleCloud = 2 := by norm_num [colMean, exampleCloud, cy]
  have h4 : fittedAtHeight 2 [MeshOp.fit flatCloud, MeshOp.relax, MeshOp.fit flatCloud] := by
    simp [fittedAtHeight, flatCloud, cy]
  ⟨h1, h2, h3, hitCaster_wellFormed, h4,
    uniform_height_fixed_point 2 h1 MESH_SCALING_FACTOR Mesh.new exampleCloud h2 2 h3
      hitCaster hitCaster_wellFormed _ h4 3⟩

/-! ## Prior-only relaxation: the preserved linear form -/

theorem kernelInt_succ_succ (k : Nat) :
    kernelInt (k + 2) = -(34 * kernelInt (k + 1) + 1089 * kernelInt k) := by
  simp [kernelInt, kernelPair]

theorem kernelSeq_rec (k : Nat) :
    33 / 100 * kernelSeq k + 34 / 100 * kernelSeq (k + 1) + 33 / 100 * kernelSeq (k + 2) = 0 := by
  unfold kernelSeq
  rw [kernelInt_succ_succ]
  have h33 : (33 : ℚ) ^ k ≠ 0 := pow_ne_zero _ (by norm_num)
  push_cast
  field_simp
  ring

theorem kernelWeight_grid (R x y : Nat) (hx : x < R) :
    kernelWeight R (x + y * R) = kernelSeq (x + 2 * y) := by
  unfold kernelWeight
  rw [Nat.add_mul_mod_self_right, Nat.mod_eq_of_lt hx,
    Nat.add_mul_div_right _ _ (by omega), Nat.div_eq_of_lt hx, Nat.zero_add]

/-- Summing an indicator times a function over a list without duplicates. -/
theorem sum_indicator_mul (l : List Nat) (hl : l.Nodup) (v : Nat) (w : ℚ) (f : Nat → ℚ) :
    (l.map (fun u => (if u = v then w else 0) * f u)).sum = if v ∈ l then w * f v else 0 := by
  induction l with
  | nil => simp
  | cons x xs ih =>
    rw [List.nodup_cons] at hl
    rw [List.map_cons, List.sum_cons, ih hl.2]
    by_cases hx : x = v
    · subst hx
      simp [hl.1]
    · have hx2 : ¬ v = x := fun h => hx h.symm
      simp [hx, hx2]

/-- For a corner `i` of a triangle, the weight `w` of a corner `v`, read at `i` and over
the neighbours of `i`, meets the new height of `v` when `v ≤ i` and the old one
otherwise. -/
theorem corner_mix_split (R t i v : Nat) (w : ℚ) (hn ho : Nat → ℚ)
    (ht : t < (R - 1) * (R - 1) * 2) (hi : i ∈ (triangle_vertices R t).verts)
    (hv : v ∈ (triangle_vertices R t).verts) :
    (if i = v then w else 0) * hn i +
      ((neighbours R i).map
        (fun u => (if u = v then w else 0) * (if u < i then hn u else ho u))).sum =
      w * (if v ≤ i then hn v else ho v) := by
  rw [sum_indicator_mul _ (neighbours_nodup R i)]
  by_cases hiv : i = v
  · subst hiv
    rw [if_pos rfl, if_neg (not_mem_neighbours_self R i), add_zero, if_pos (le_refl _)]
  · have hmem : v ∈ neighbours R i :=
      mem_neighbours_of_triangle R t i v ht hi hv (fun h => hiv h.symm)
    rw [if_neg hiv, if_pos hmem, zero_mul, zero_add]
    by_cases hlt : v < i
    · rw [if_pos hlt, if_pos (le_of_lt hlt)]
    · have hle : ¬ v ≤ i := by omega
      rw [if_neg hlt, if_neg hle]

/-- The weights of the prior update of a triangle. -/
theorem prior_weight (R t i : Nat) :
    vertex_weight (weighted_vertices R t (34 / 100) (33 / 100)) i =
      (if i = (triangle_vertices R t).1 then 33 / 100 else 0) +
      (if i = (triangle_vertices R t).2.1 then 34 / 100 else 0) +
      (if i = (triangle_vertices R t).2.2 then 33 / 100 else 0) := by
  simp only [vertex_weight, weighted_vertices, List.map_cons, List.map_nil, List.sum_cons,
    List.sum_nil]
  have hw : (1 : ℚ) - 34 / 100 - 33 / 100 = 33 / 100 := by norm_num
  rw [hw]
  ring

/-- Row `i` of the prior block of a triangle, for a corner `i`, applied to the heights
that pass `i` of a sweep reads. -/
theorem prior_row (R t i : Nat) (hn ho : Nat → ℚ) (ht : t < (R - 1) * (R - 1) * 2)
    (hi : i ∈ (triangle_vertices R t).verts) :
    vertex_weight (weighted_vertices R t (34 / 100) (33 / 100)) i * hn i +
      ((neighbours R i).map
        (fun u => vertex_weight (weighted_vertices R t (34 / 100) (33 / 100)) u *
          (if u < i then hn u else ho u))).sum =
      33 / 100 * (if (triangle_vertices R t).1 ≤ i then hn (triangle_vertices R t).1
        else ho (triangle_vertices R t).1) +
      34 / 100 * (if (triangle_vertices R t).2.1 ≤ i then hn (triangle_vertices R t).2.1
        else ho (triangle_vertices R t).2.1) +
      33 / 100 * (if (triangle_vertices R t).2.2 ≤ i then hn (triangle_vertices R t).2.2
        else ho (triangle_vertices R t).2.2) := by
  have h0 := corner_mix_split R t i (triangle_vertices R t).1 (33 / 100) hn ho ht hi
    (by simp [Face.verts])
  have h1 := corner_mix_split R t i (triangle_vertices R t).2.1 (34 / 100) hn ho ht hi
    (by simp [Face.verts])
  have h2 := corner_mix_split R t i (triangle_vertices R t).2.2 (33 / 100) hn ho ht hi
    (by simp [Face.verts])
  have hsum : ((neighbours R i).map
      (fun u => vertex_weight (weighted_vertices R t (34 / 100) (33 / 100)) u *
        (if u < i then hn u else ho u))).sum =
      ((neighbours R i).map (fun u => (if u = (triangle_vertices R t).1 then 33 / 100 else 0) *
        (if u < i then hn u else ho u))).sum +
      ((neighbours R i).map (fun u => (if u = (triangle_vertices R t).2.1 then 34 / 100 else 0) *
        (if u < i then hn u else ho u))).sum +
      ((neighbours R i).map (fun u => (if u = (triangle_vertices R t).2.2 then 33 / 100 else 0) *
        (if u < i then hn u else ho u))).sum := by
    rw [← List.sum_map_add, ← List.sum_map_add]
    congr 1
    apply List.map_congr_left
    intro u _
    rw [prior_weight]
    ring
  rw [hsum, prior_weight]
  linear_combination h0 + h1 + h2

/-- What one `update_triangle` pair adds to the residual of equation `i`. -/
theorem sweepResidual_accumulateHit (R : Nat) (st : JtJMatrixGrid × JtzVector)
    (hr1 : st.1.res = R) (hr2 : st.2.res = R) (t : Nat) (b1 b2 c : ℚ) (hn ho : Nat → ℚ)
    (i : Nat) :
    sweepResidual R (accumulateHit st (t, b1, b2, c)) hn ho i =
      sweepResidual R st hn ho i +
        vertex_weight (weighted_vertices R t b1 b2) i *
          (vertex_weight (weighted_vertices R t b1 b2) i * hn i +
            ((neighbours R i).map
              (fun u => vertex_weight (weighted_vertices R t b1 b2) u *
                (if u < i then hn u else ho u))).sum - c) := by
  show (st.1.coeff i i + block_entry (weighted_vertices st.1.res t b1 b2) i i) * hn i +
      ((neighbours R i).map (fun u => (st.1.coeff i u +
        block_entry (weighted_vertices st.1.res t b1 b2) i u) *
          (if u < i then hn u else ho u))).sum -
      (st.2.vec i + rhs_entry (weighted_vertices st.2.res t b1 b2) c i) = _
  have hsum : ((neighbours R i).map (fun u => (st.1.coeff i u +
      block_entry (weighted_vertices R t b1 b2) i u) *
        (if u < i then hn u else ho u))).sum =
      ((neighbours R i).map (fun u => st.1.coeff i u *
        (if u < i then hn u else ho u))).sum +
      vertex_weight (weighted_vertices R t b1 b2) i *
        ((neighbours R i).map (fun u => vertex_weight (weighted_vertices R t b1 b2) u *
          (if u < i then hn u else ho u))).sum := by
    rw [← List.sum_map_mul_left, ← List.sum_map_add]
    congr 1
    apply List.map_congr_left
    intro u _
    rw [block_entry_eq_weights]
    ring
  rw [hr1, hr2, hsum, block_entry_eq_weights, rhs_entry_eq_mul]
  unfold sweepResidual
  ring

/-- The algebra of one triangle with corners `p < q < r`, weights `wp, wq, wr` and a
vector `(np, nq, nr)` that the weights annihilate. -/
theorem triangle_algebra (p q r : Nat) (hpq : p < q) (hqr : q < r)
    (wp wq wr np nq nr c : ℚ) (hn ho : Nat → ℚ) (hk : wp * np + wq * nq + wr * nr = 0) :
    wp * (np * (wp * (if p ≤ p then hn p else ho p) + wq * (if q ≤ p then hn q else ho q) +
        wr * (if r ≤ p then hn r else ho r) - c)) +
      wq * (nq * (wp * (if p ≤ q then hn p else ho p) + wq * (if q ≤ q then hn q else ho q) +
        wr * (if r ≤ q then hn r else ho r) - c)) +
      wr * (nr * (wp * (if p ≤ r then hn p else ho p) + wq * (if q ≤ r then hn q else ho q) +
        wr * (if r ≤ r then hn r else ho r) - c)) =
      (wr * wr * nr * hn r - wp * wq * np * hn q) -
        (wr * wr * nr * ho r - wp * wq * np * ho q) := by
  have e1 : ¬ q ≤ p := by omega
  have e2 : ¬ r ≤ p := by omega
  have e3 : p ≤ q := by omega
  have e4 : ¬ r ≤ q := by omega
  have e5 : p ≤ r := by omega
  have e6 : q ≤ r := by omega
  simp only [le_refl, if_true, if_neg e1, if_neg e2, if_pos e3, if_neg e4, if_pos e5, if_pos e6]
  linear_combination (wp * hn p - c + wq * hn q + wr * ho r) * hk

/-- The cell of a triangle of the range lies in the grid of cells. -/
theorem triangle_cell_lt (R t : Nat) (ht : t < (R - 1) * (R - 1) * 2) :
    (t / 2) % (R - 1) < R - 1 ∧ (t / 2) / (R - 1) < R - 1 := by
  have hpos : 0 < R - 1 := by
    rcases Nat.eq_zero_or_pos (R - 1) with h | h
    · rw [h] at ht; simp at ht
    · exact h
  refine ⟨Nat.mod_lt _ hpos, ?_⟩
  apply Nat.div_lt_of_lt_mul
  omega

/-- The prior update of one triangle, weighted by the kernel vector and summed over
the sweep equations, changes the sum by the difference of the triangle's share of the
linear form at the new and at the old heights. -/
theorem triangle_residual_sum (R t : Nat) (hR : 2 ≤ R) (ht : t < (R - 1) * (R - 1) * 2)
    (c : ℚ) (hn ho : Nat → ℚ) :
    ((List.range (R * R)).map (fun i => kernelWeight R i *
      (vertex_weight (weighted_vertices R t (34 / 100) (33 / 100)) i *
        (vertex_weight (weighted_vertices R t (34 / 100) (33 / 100)) i * hn i +
          ((neighbours R i).map
            (fun u => vertex_weight (weighted_vertices R t (34 / 100) (33 / 100)) u *
              (if u < i then hn u else ho u))).sum - c)))).sum =
      triangleForm R hn t - triangleForm R ho t := by
  have hpt : ∀ i ∈ List.range (R * R), kernelWeight R i *
      (vertex_weight (weighted_vertices R t (34 / 100) (33 / 100)) i *
        (vertex_weight (weighted_vertices R t (34 / 100) (33 / 100)) i * hn i +
          ((neighbours R i).map
            (fun u => vertex_weight (weighted_vertices R t (34 / 100) (33 / 100)) u *
              (if u < i then hn u else ho u))).sum - c)) =
      (if i = (triangle_vertices R t).1 then 33 / 100 else 0) *
        (kernelWeight R i *
          (33 / 100 * (if (triangle_vertices R t).1 ≤ i then hn (triangle_vertices R t).1
            else ho (triangle_vertices R t).1) +
          34 / 100 * (if (triangle_vertices R t).2.1 ≤ i then hn (triangle_vertices R t).2.1
            else ho (triangle_vertices R t).2.1) +
          33 / 100 * (if (triangle_vertices R t).2.2 ≤ i then hn (triangle_vertices R t).2.2
            else ho (triangle_vertices R t).2.2) - c)) +
      (if i = (triangle_vertices R t).2.1 then 34 / 100 else 0) *
        (kernelWeight R i *
          (33 / 100 * (if (triangle_vertices R t).1 ≤ i then hn (triangle_vertices R t).1
            else ho (triangle_vertices R t).1) +
          34 / 100 * (if (triangle_vertices R t).2.1 ≤ i then hn (triangle_vertices R t).2.1
            else ho (triangle_vertices R t).2.1) +
          33 / 100 * (if (triangle_vertices R t).2.2 ≤ i then hn (triangle_vertices R t).2.2
            else ho (triangle_vertices R t).2.2) - c)) +
      (if i = (triangle_vertices R t).2.2 then 33 / 100 else 0) *
        (kernelWeight R i *
          (33 / 100 * (if (triangle_vertices R t).1 ≤ i then hn (triangle_vertices R t).1
            else ho (triangle_vertices R t).1) +
          34 / 100 * (if (triangle_vertices R t).2.1 ≤ i then hn (triangle_vertices R t).2.1
            else ho (triangle_vertices R t).2.1) +
          33 / 100 * (if (triangle_vertices R t).2.2 ≤ i then hn (triangle_vertices R t).2.2
            else ho (triangle_vertices R t).2.2) - c)) := by
    intro i _
    by_cases hi : i ∈ (triangle_vertices R t).verts
    · rw [prior_row R t i hn ho ht hi, prior_weight]
      ring
    · rw [vertex_weight_eq_zero R t _ _ i hi]
      simp only [Face.verts, List.mem_cons, List.mem_singleton, List.not_mem_nil, or_false,
        not_or] at hi
      rw [if_neg hi.1, if_neg hi.2.1, if_neg hi.2.2]
      ring
  have hm0 : (triangle_vertices R t).1 ∈ List.range (R * R) :=
    List.mem_range.mpr (triangle_vertices_lt R t ht _ (by simp [Face.verts]))
  have hm1 : (triangle_vertices R t).2.1 ∈ List.range (R * R) :=
    List.mem_range.mpr (triangle_vertices_lt R t ht _ (by simp [Face.verts]))
  have hm2 : (triangle_vertices R t).2.2 ∈ List.range (R * R) :=
    List.mem_range.mpr (triangle_vertices_lt R t ht _ (by simp [Face.verts]))
  rw [List.map_congr_left hpt, List.sum_map_add, List.sum_map_add,
    sum_indicator_mul _ (List.nodup_range _), sum_indicator_mul _ (List.nodup_range _),
    sum_indicator_mul _ (List.nodup_range _), if_pos hm0, if_pos hm1, if_pos hm2]
  obtain ⟨hx, hy⟩ := triangle_cell_lt R t ht
  unfold triangleForm
  generalize hxe : (t / 2) % (R - 1) = x at hx
  generalize hye : (t / 2) / (R - 1) = y at hy
  have hx0 : x < R := by omega
  have hx1 : x + 1 < R := by omega
  by_cases h2 : t % 2 = 0
  · have hv : triangle_vertices R t = faceLower R x y := by
      unfold triangle_vertices
      rw [if_pos h2, hxe, hye]
    have e0 : (triangle_vertices R t).1 = x + y * R := by rw [hv]; rfl
    have e1 : (triangle_vertices R t).2.1 = x + 1 + y * R := by rw [hv]; rfl
    have e2 : (triangle_vertices R t).2.2 = x + (y + 1) * R := by rw [hv]; rfl
    have i1 : x + 1 + 2 * y = x + 2 * y + 1 := by omega
    have i2 : x + 2 * (y + 1) = x + 2 * y + 2 := by omega
    have hk : 33 / 100 * kernelSeq (x + 2 * y) + 34 / 100 * kernelSeq (x + 1 + 2 * y) +
        33 / 100 * kernelSeq (x + 2 * (y + 1)) = 0 := by
      rw [i1, i2]
      exact kernelSeq_rec _
    have hord : x + 1 + y * R < x + (y + 1) * R := by
      rw [Nat.succ_mul]
      omega
    have key := triangle_algebra (x + y * R) (x + 1 + y * R) (x + (y + 1) * R) (by omega) hord
      (33 / 100) (34 / 100) (33 / 100) _ _ _ c hn ho hk
    rw [if_pos h2, if_pos h2, e0, e1, e2, kernelWeight_grid R x y hx0,
      kernelWeight_grid R (x + 1) y hx1, kernelWeight_grid R x (y + 1) hx0]
    linear_combination key
  · have hv : triangle_vertices R t = faceUpper R x y := by
      unfold triangle_vertices
      rw [if_neg h2, hxe, hye]
    have e0 : (triangle_vertices R t).1 = x + 1 + (y + 1) * R := by rw [hv]; rfl
    have e1 : (triangle_vertices R t).2.1 = x + (y + 1) * R := by rw [hv]; rfl
    have e2 : (triangle_vertices R t).2.2 = x + 1 + y * R := by rw [hv]; rfl
    have i1 : x + 2 * (y + 1) = x + 1 + 2 * y + 1 := by omega
    have i2 : x + 1 + 2 * (y + 1) = x + 1 + 2 * y + 2 := by omega
    have hk : 33 / 100 * kernelSeq (x + 1 + 2 * y) + 34 / 100 * kernelSeq (x + 2 * (y + 1)) +
        33 / 100 * kernelSeq (x + 1 + 2 * (y + 1)) = 0 := by
      rw [i1, i2]
      exact kernelSeq_rec _
    have hord : x + 1 + y * R < x + (y + 1) * R := by
      rw [Nat.succ_mul]
      omega
    have key := triangle_algebra (x + 1 + y * R) (x + (y + 1) * R) (x + 1 + (y + 1) * R) hord
      (by omega) (33 / 100) (34 / 100) (33 / 100) _ _ _ c hn ho hk
    rw [if_neg h2, if_neg h2, e0, e1, e2, kernelWeight_grid R (x + 1) (y + 1) hx1,
      kernelWeight_grid R x (y + 1) hx0, kernelWeight_grid R (x + 1) y hx1]
    linear_combination key

theorem list_sum_map_sub (l : List Nat) (f g : Nat → ℚ) :
    (l.map (fun t => f t - g t)).sum = (l.map f).sum - (l.map g).sum := by
  induction l with
  | nil => simp
  | cons x xs ih =>
    simp only [List.map_cons, List.sum_cons, ih]
    ring

/-- Summed against the kernel vector, the residuals of the system after a run of prior
updates are those of the system before it plus the change of the linear form. -/
theorem kernel_residual_accumulate (R : Nat) (hR : 2 ≤ R) (c : ℚ) (hn ho : Nat → ℚ)
    (l : List Nat) (hl : ∀ t ∈ l, t < (R - 1) * (R - 1) * 2)
    (st : JtJMatrixGrid × JtzVector) (hr1 : st.1.res = R) (hr2 : st.2.res = R) :
    ((List.range (R * R)).map (fun i => kernelWeight R i *
      sweepResidual R (accumulate (l.map (fun t => (t, 34 / 100, 33 / 100, c))) st)
        hn ho i)).sum =
    ((List.range (R * R)).map (fun i => kernelWeight R i * sweepResidual R st hn ho i)).sum +
      (l.map (fun t => triangleForm R hn t - triangleForm R ho t)).sum := by
  induction l generalizing st with
  | nil => simp [accumulate]
  | cons t ts ih =>
    have hacc : accumulate ((t :: ts).map (fun t => (t, (34 / 100 : ℚ), (33 / 100 : ℚ), c))) st =
        accumulate (ts.map (fun t => (t, (34 / 100 : ℚ), (33 / 100 : ℚ), c)))
          (accumulateHit st (t, 34 / 100, 33 / 100, c)) := rfl
    have hstep : ((List.range (R * R)).map (fun i => kernelWeight R i *
        sweepResidual R (accumulateHit st (t, 34 / 100, 33 / 100, c)) hn ho i)).sum =
        ((List.range (R * R)).map
          (fun i => kernelWeight R i * sweepResidual R st hn ho i)).sum +
        (triangleForm R hn t - triangleForm R ho t) := by
      rw [← triangle_residual_sum R t hR (hl t (List.mem_cons_self _ _)) c hn ho,
        ← List.sum_map_add]
      congr 1
      apply List.map_congr_left
      intro i _
      rw [sweepResidual_accumulateHit R st hr1 hr2]
      ring
    rw [hacc, ih (fun t' ht' => hl t' (List.mem_cons_of_mem _ ht'))
        (accumulateHit st (t, 34 / 100, 33 / 100, c))
        (show (accumulateHit st (t, 34 / 100, 33 / 100, c)).1.res = R from hr1)
        (show (accumulateHit st (t, 34 / 100, 33 / 100, c)).2.res = R from hr2), hstep,
      List.map_cons, List.sum_cons]
    ring

/-- Pass `i` of a sweep solves equation `i` for the new height of vertex `i`. -/
theorem sweep_equation (R : Nat) (J : JtJMatrixGrid) (z : JtzVector) (hr : J.res = R)
    (h : List ℚ) (hlen : h.length = R * R) (i : Nat) (hi : i < R * R)
    (hpos : J.coeff i i ≠ 0) :
    sweepResidual R (J, z) (fun j => (gsSweep J z h).getD j 0) (fun j => h.getD j 0) i = 0 := by
  have hnb := neighbours_length_le_six R i hi
  have hsum : ((neighbours R i).map (fun u => J.coeff i u * (gsPrefix J z h i).getD u 0)).sum =
      ((neighbours R i).map (fun u => J.coeff i u *
        (if u < i then (gsSweep J z h).getD u 0 else h.getD u 0))).sum := by
    congr 1
    apply List.map_congr_left
    intro u _
    rw [gsPrefix_getD J z h i u (by omega)]
  have hval : (gsSweep J z h).getD i 0 =
      (z.vec i - ((neighbours R i).map (fun u => J.coeff i u *
        (if u < i then (gsSweep J z h).getD u 0 else h.getD u 0))).sum) / J.coeff i i := by
    rw [gsSweep_getD J z h i (by omega), ← hsum]
    simp only [gsValue, JtJMatrixGrid.get_matrix_values_for_vertex, JtzVector.get_vec]
    rw [hr, List.take_of_length_le hnb, gsAcc_neighbours _ _ hnb]
  show J.coeff i i * (gsSweep J z h).getD i 0 +
    ((neighbours R i).map (fun u => J.coeff i u *
      (if u < i then (gsSweep J z h).getD u 0 else h.getD u 0))).sum - z.vec i = 0
  rw [hval]
  field_simp

/-- One sweep of the prior system leaves the linear form as it is. -/
theorem sweepForm_gsSweep (R : Nat) (hR : 2 ≤ R) (s : ℚ) (m : Mesh) (P : List Vec3)
    (h : List ℚ) (hlen : h.length = R * R) :
    sweepForm R (fun j => (gsSweep (align_to_point_cloud R s m P).JtJ
        (align_to_point_cloud R s m P).Jtz h).getD j 0) =
      sweepForm R (fun j => h.getD j 0) := by
  have hacc := kernel_residual_accumulate R hR (colMean cy P)
    (fun j => (gsSweep (align_to_point_cloud R s m P).JtJ
        (align_to_point_cloud R s m P).Jtz h).getD j 0) (fun j => h.getD j 0)
    (List.range ((R - 1) * (R - 1) * 2)) (fun t ht => List.mem_range.mp ht)
    (m.JtJ.resize R, m.Jtz.resize R) rfl rfl
  rw [← align_eq_accumulate R s m P] at hacc
  have hleft : ((List.range (R * R)).map (fun i => kernelWeight R i *
      sweepResidual R ((align_to_point_cloud R s m P).JtJ, (align_to_point_cloud R s m P).Jtz)
        (fun j => (gsSweep (align_to_point_cloud R s m P).JtJ
          (align_to_point_cloud R s m P).Jtz h).getD j 0) (fun j => h.getD j 0) i)).sum = 0 := by
    apply List.sum_eq_zero
    intro q hq
    obtain ⟨i, hi, rfl⟩ := List.mem_map.mp hq
    rw [sweep_equation R _ _ (align_JtJ_res R s m P) h hlen i (List.mem_range.mp hi)
      (ne_of_gt (align_diag_pos R hR s m P i (List.mem_range.mp hi))), mul_zero]
  have hzero : ((List.range (R * R)).map (fun i => kernelWeight R i *
      sweepResidual R (m.JtJ.resize R, m.Jtz.resize R)
        (fun j => (gsSweep (align_to_point_cloud R s m P).JtJ
          (align_to_point_cloud R s m P).Jtz h).getD j 0) (fun j => h.getD j 0) i)).sum = 0 := by
    apply List.sum_eq_zero
    intro q hq
    obtain ⟨i, _, rfl⟩ := List.mem_map.mp hq
    simp [sweepResidual, JtJMatrixGrid.resize, JtzVector.resize]
  rw [hleft, hzero, list_sum_map_sub, zero_add] at hacc
  unfold sweepForm
  linarith

theorem triangleForm_const (R t : Nat) (c : ℚ) :
    triangleForm R (fun _ => c) t = c * triangleForm R (fun _ => 1) t := by
  unfold triangleForm
  split_ifs <;> ring

theorem sweepForm_const (R : Nat) (c : ℚ) :
    sweepForm R (fun _ => c) = c * sweepForm R (fun _ => 1) := by
  unfold sweepForm
  rw [← List.sum_map_mul_left]
  congr 1
  apply List.map_congr_left
  intro t _
  exact triangleForm_const R t c

theorem align_h_getD (R : Nat) (s : ℚ) (m : Mesh) (P : List Vec3) (j : Nat) :
    (align_to_point_cloud R s m P).h.getD j 0 = 0 := by
  rw [align_h, List.getD_eq_getElem?_getD, List.getElem?_replicate]
  split_ifs <;> rfl

/-- Along the sweeps of the prior system from the heights after `align`, the linear form
stays at zero. -/
theorem sweepForm_gauss_seidel (R : Nat) (hR : 2 ≤ R) (s : ℚ) (m : Mesh) (P : List Vec3)
    (k : Nat) :
    sweepForm R (fun j => (gauss_seidel (align_to_point_cloud R s m P)
      (align_to_point_cloud R s m P).h ((k : Nat) : ℤ)).getD j 0) = 0 := by
  induction k with
  | zero =>
    rw [gauss_seidel_zero]
    simp only [align_h_getD]
    rw [sweepForm_const, zero_mul]
  | succ k ih =>
    rw [gauss_seidel_succ, sweepForm_gsSweep R hR s m P _
      (by rw [gauss_seidel_length, align_h_length]), ih]

theorem abs_pair_bound (a b x y ε : ℚ) (hx : |x| ≤ ε) (hy : |y| ≤ ε) :
    |a * x - b * y| ≤ (|a| + |b|) * ε := by
  have h1 : |a * x - b * y| ≤ |a * x| + |b * y| := abs_sub _ _
  have h2 : |a * x| = |a| * |x| := abs_mul a x
  have h3 : |b * y| = |b| * |y| := abs_mul b y
  have h4 : |a| * |x| ≤ |a| * ε := mul_le_mul_of_nonneg_left hx (abs_nonneg _)
  have h5 : |b| * |y| ≤ |b| * ε := mul_le_mul_of_nonneg_left hy (abs_nonneg _)
  linarith

/-- The share of a triangle in the linear form depends continuously on the heights. -/
theorem triangleForm_bound (R t : Nat) (ht : t < (R - 1) * (R - 1) * 2) :
    ∃ B : ℚ, 0 ≤ B ∧ ∀ (h : Nat → ℚ) (c ε : ℚ), (∀ i, i < R * R → |h i - c| ≤ ε) →
      |triangleForm R h t - triangleForm R (fun _ => c) t| ≤ B * ε := by
  have hm0 : (triangle_vertices R t).1 < R * R :=
    triangle_vertices_lt R t ht _ (by simp [Face.verts])
  have hm1 : (triangle_vertices R t).2.1 < R * R :=
    triangle_vertices_lt R t ht _ (by simp [Face.verts])
  have hm2 : (triangle_vertices R t).2.2 < R * R :=
    triangle_vertices_lt R t ht _ (by simp [Face.verts])
  by_cases h2 : t % 2 = 0
  · refine ⟨|33 / 100 * (33 / 100) * kernelWeight R (triangle_vertices R t).2.2| +
      |33 / 100 * (34 / 100) * kernelWeight R (triangle_vertices R t).1|,
      add_nonneg (abs_nonneg _) (abs_nonneg _), ?_⟩
    intro h c ε hε
    unfold triangleForm
    rw [if_pos h2, if_pos h2]
    have e : 33 / 100 * (33 / 100) * kernelWeight R (triangle_vertices R t).2.2 *
          h (triangle_vertices R t).2.2 -
        33 / 100 * (34 / 100) * kernelWeight R (triangle_vertices R t).1 *
          h (triangle_vertices R t).2.1 -
        (33 / 100 * (33 / 100) * kernelWeight R (triangle_vertices R t).2.2 * c -
          33 / 100 * (34 / 100) * kernelWeight R (triangle_vertices R t).1 * c) =
        33 / 100 * (33 / 100) * kernelWeight R (triangle_vertices R t).2.2 *
          (h (triangle_vertices R t).2.2 - c) -
        33 / 100 * (34 / 100) * kernelWeight R (triangle_vertices R t).1 *
          (h (triangle_vertices R t).2.1 - c) := by ring
    rw [e]
    exact abs_pair_bound _ _ _ _ ε (hε _ hm2) (hε _ hm1)
  · refine ⟨|33 / 100 * (33 / 100) * kernelWeight R (triangle_vertices R t).1| +
      |33 / 100 * (34 / 100) * kernelWeight R (triangle_vertices R t).2.2|,
      add_nonneg (abs_nonneg _) (abs_nonneg _), ?_⟩
    intro h c ε hε
    unfold triangleForm
    rw [if_neg h2, if_neg h2]
    have e : 33 / 100 * (33 / 100) * kernelWeight R (triangle_vertices R t).1 *
          h (triangle_vertices R t).1 -
        33 / 100 * (34 / 100) * kernelWeight R (triangle_vertices R t).2.2 *
          h (triangle_vertices R t).2.1 -
        (33 / 100 * (33 / 100) * kernelWeight R (triangle_vertices R t).1 * c -
          33 / 100 * (34 / 100) * kernelWeight R (triangle_vertices R t).2.2 * c) =
        33 / 100 * (33 / 100) * kernelWeight R (triangle_vertices R t).1 *
          (h (triangle_vertices R t).1 - c) -
        33 / 100 * (34 / 100) * kernelWeight R (triangle_vertices R t).2.2 *
          (h (triangle_vertices R t).2.1 - c) := by ring
    rw [e]
    exact abs_pair_bound _ _ _ _ ε (hε _ hm0) (hε _ hm1)

/-- The sum of the shares of a list of triangles depends continuously on the heights. -/
theorem triangleForm_sum_bound (R : Nat) (l : List Nat)
    (hl : ∀ t ∈ l, t < (R - 1) * (R - 1) * 2) :
    ∃ B : ℚ, 0 ≤ B ∧ ∀ (h : Nat → ℚ) (c ε : ℚ), (∀ i, i < R * R → |h i - c| ≤ ε) →
      |(l.map (triangleForm R h)).sum - (l.map (triangleForm R (fun _ => c))).sum| ≤ B * ε := by
  induction l with
  | nil => exact ⟨0, le_refl _, fun h c ε _ => by simp⟩
  | cons t ts ih =>
    obtain ⟨B1, hB1, hb1⟩ := triangleForm_bound R t (hl t (List.mem_cons_self _ _))
    obtain ⟨B2, hB2, hb2⟩ := ih (fun t' ht' => hl t' (List.mem_cons_of_mem _ ht'))
    refine ⟨B1 + B2, add_nonneg hB1 hB2, ?_⟩
    intro h c ε hε
    have h1 := hb1 h c ε hε
    have h2 := hb2 h c ε hε
    simp only [List.map_cons, List.sum_cons]
    have e : triangleForm R h t + (ts.map (triangleForm R h)).sum -
        (triangleForm R (fun _ => c) t + (ts.map (triangleForm R (fun _ => c))).sum) =
        (triangleForm R h t - triangleForm R (fun _ => c) t) +
        ((ts.map (triangleForm R h)).sum - (ts.map (triangleForm R (fun _ => c))).sum) := by
      ring
    rw [e]
    calc |(triangleForm R h t - triangleForm R (fun _ => c) t) +
        ((ts.map (triangleForm R h)).sum - (ts.map (triangleForm R (fun _ => c))).sum)|
        ≤ |triangleForm R h t - triangleForm R (fun _ => c) t| +
          |(ts.map (triangleForm R h)).sum - (ts.map (triangleForm R (fun _ => c))).sum| :=
          abs_add _ _
      _ ≤ B1 * ε + B2 * ε := add_le_add h1 h2
      _ = (B1 + B2) * ε := by ring

/-- Finitely many convergent sequences are close to their limit from a common index on. -/
theorem convergesTo_uniform (n : Nat) (u : Nat → Nat → ℚ) (c : ℚ)
    (hu : ∀ i, i < n → convergesTo (fun k => u k i) c) (ε : ℚ) (hε : 0 < ε) :
    ∃ N : Nat, ∀ k : Nat, N ≤ k → ∀ i, i < n → |u k i - c| < ε := by
  induction n with
  | zero => exact ⟨0, fun k _ i hi => absurd hi (Nat.not_lt_zero i)⟩
  | succ n ih =>
    obtain ⟨N1, h1⟩ := ih (fun i hi => hu i (Nat.lt_succ_of_lt hi))
    obtain ⟨N2, h2⟩ := hu n (Nat.lt_succ_self n) ε hε
    refine ⟨max N1 N2, ?_⟩
    intro k hk i hi
    rcases Nat.lt_succ_iff_lt_or_eq.mp hi with h | h
    · exact h1 k (le_trans (le_max_left _ _) hk) i h
    · rw [h]
      exact h2 k (le_trans (le_max_right _ _) hk)

/-- With only the prior accumulated and a mean height other than zero, the heights of
the sweeps do not tend to the mean height at every vertex, as soon as the linear form
does not vanish on the constant heights. -/
theorem prior_sweeps_miss_mean (R : Nat) (hR : 2 ≤ R) (s : ℚ) (m : Mesh) (P : List Vec3)
    (hK : sweepForm R (fun _ => 1) ≠ 0) (hc : colMean cy P ≠ 0) :
    ¬ ∀ i, i < R * R →
      convergesTo
        (fun k => (gauss_seidel (align_to_point_cloud R s m P)
          (align_to_point_cloud R s m P).h ((k : Nat) : ℤ)).getD i 0)
        (colMean cy P) := by
  intro hconv
  obtain ⟨B, hB, hb⟩ := triangleForm_sum_bound R (List.range ((R - 1) * (R - 1) * 2))
    (fun t ht => List.mem_range.mp ht)
  have hpos : 0 < |colMean cy P * sweepForm R (fun _ => 1)| :=
    abs_pos.mpr (mul_ne_zero hc hK)
  have hB1 : 0 < 2 * (B + 1) := by linarith
  have hε : 0 < |colMean cy P * sweepForm R (fun _ => 1)| / (2 * (B + 1)) := div_pos hpos hB1
  obtain ⟨N, hN⟩ := convergesTo_uniform (R * R)
    (fun k i => (gauss_seidel (align_to_point_cloud R s m P)
      (align_to_point_cloud R s m P).h ((k : Nat) : ℤ)).getD i 0) (colMean cy P) hconv _ hε
  have hclose : |sweepForm R (fun j => (gauss_seidel (align_to_point_cloud R s m P)
      (align_to_point_cloud R s m P).h ((N : Nat) : ℤ)).getD j 0) -
      sweepForm R (fun _ => colMean cy P)| ≤
      B * (|colMean cy P * sweepForm R (fun _ => 1)| / (2 * (B + 1))) :=
    hb (fun j => (gauss_seidel (align_to_point_cloud R s m P)
      (align_to_point_cloud R s m P).h ((N : Nat) : ℤ)).getD j 0) (colMean cy P) _
      (fun i hi => le_of_lt (hN N (le_refl N) i hi))
  rw [sweepForm_gauss_seidel R hR s m P N, sweepForm_const R (colMean cy P), zero_sub,
    abs_neg] at hclose
  generalize |colMean cy P * sweepForm R (fun _ => 1)| = X at hclose hpos
  have hlt : B * (X / (2 * (B + 1))) < X := by
    rw [← mul_div_assoc, div_lt_iff₀ hB1]
    nlinarith [mul_nonneg hB (le_of_lt hpos)]
  linarith

/-! ### The linear form does not vanish on the constant heights -/

theorem kernelInt_one : kernelInt 1 = 1 := rfl

/-- No entry of the integer sequence after the first is a multiple of 3. -/
theorem kernelInt_not_dvd (k : Nat) : ¬ (3 : ℤ) ∣ kernelInt (k + 1) := by
  induction k with
  | zero =>
    rw [kernelInt_one]
    omega
  | succ k ih =>
    have h : kernelInt (k + 1 + 1) = -(34 * kernelInt (k + 1) + 1089 * kernelInt k) :=
      kernelInt_succ_succ k
    omega

theorem kernelSeq_scaled (M k : Nat) (hk : k ≤ M) :
    kernelSeq k * 33 ^ M = (kernelInt k : ℚ) * 33 ^ (M - k) := by
  unfold kernelSeq
  have h33 : (33 : ℚ) ^ k ≠ 0 := pow_ne_zero _ (by norm_num)
  have hM : (33 : ℚ) ^ M = 33 ^ k * 33 ^ (M - k) := by
    rw [← pow_add]
    congr 1
    omega
  rw [hM]
  field_simp
  ring

/-- The share of a triangle on the constant heights, cleared of denominators, when
its highest kernel index `kr` is below `M`: a multiple of 27. -/
theorem scaled_term_low (M kr kp : Nat) (hr : kr + 1 ≤ M) (hp : kp + 2 ≤ M) :
    ∃ z : ℤ, (33 / 100 * (33 / 100) * kernelSeq kr * 1 -
        33 / 100 * (34 / 100) * kernelSeq kp * 1) * (10 ^ 4 * 33 ^ M) = (z : ℚ) ∧
      (27 : ℤ) ∣ z := by
  obtain ⟨er, her⟩ : ∃ e, M - kr = e + 1 := ⟨M - kr - 1, by omega⟩
  obtain ⟨ep, hep⟩ : ∃ e, M - kp = e + 2 := ⟨M - kp - 2, by omega⟩
  refine ⟨1089 * kernelInt kr * 33 ^ (M - kr) - 1122 * kernelInt kp * 33 ^ (M - kp), ?_, ?_⟩
  · have h1 := kernelSeq_scaled M kr (by omega)
    have h2 := kernelSeq_scaled M kp (by omega)
    push_cast
    linear_combination (1089 : ℚ) * h1 - 1122 * h2
  · rw [her, hep]
    refine ⟨1331 * kernelInt kr * 33 ^ er - 45254 * kernelInt kp * 33 ^ ep, ?_⟩
    ring

/-- The share of a triangle on the constant heights, cleared of denominators, when
its highest kernel index is `M`: congruent to `1089 * b M` modulo 27. -/
theorem scaled_term_top (M kp : Nat) (hp : kp + 2 ≤ M) :
    ∃ z : ℤ, (33 / 100 * (33 / 100) * kernelSeq M * 1 -
        33 / 100 * (34 / 100) * kernelSeq kp * 1) * (10 ^ 4 * 33 ^ M) = (z : ℚ) ∧
      (27 : ℤ) ∣ z - 1089 * kernelInt M := by
  obtain ⟨ep, hep⟩ : ∃ e, M - kp = e + 2 := ⟨M - kp - 2, by omega⟩
  refine ⟨1089 * kernelInt M * 33 ^ (M - M) - 1122 * kernelInt kp * 33 ^ (M - kp), ?_, ?_⟩
  · have h1 := kernelSeq_scaled M M (le_refl M)
    have h2 := kernelSeq_scaled M kp (by omega)
    push_cast
    linear_combination (1089 : ℚ) * h1 - 1122 * h2
  · rw [Nat.sub_self, hep]
    refine ⟨- 45254 * kernelInt kp * 33 ^ ep, ?_⟩
    ring

/-- Every triangle but the last contributes a multiple of 27 to the linear form on the
constant heights, once the denominators are cleared. -/
theorem triangleForm_scaled_low (R t : Nat) (hR : 2 ≤ R)
    (ht : t + 1 < (R - 1) * (R - 1) * 2) :
    ∃ z : ℤ, triangleForm R (fun _ => 1) t * (10 ^ 4 * 33 ^ (3 * R - 3)) = (z : ℚ) ∧
      (27 : ℤ) ∣ z := by
  obtain ⟨hx, hy⟩ := triangle_cell_lt R t (by omega)
  have hc : (t / 2) % (R - 1) + (R - 1) * ((t / 2) / (R - 1)) = t / 2 := Nat.mod_add_div _ _
  generalize hxe : (t / 2) % (R - 1) = x at hx hc
  generalize hye : (t / 2) / (R - 1) = y at hy hc
  have hx0 : x < R := by omega
  have hx1 : x + 1 < R := by omega
  by_cases h2 : t % 2 = 0
  · have hv : triangle_vertices R t = faceLower R x y := by
      unfold triangle_vertices
      rw [if_pos h2, hxe, hye]
    have e0 : (triangle_vertices R t).1 = x + y * R := by rw [hv]; rfl
    have e2 : (triangle_vertices R t).2.2 = x + (y + 1) * R := by rw [hv]; rfl
    unfold triangleForm
    rw [if_pos h2, e0, e2, kernelWeight_grid R x y hx0, kernelWeight_grid R x (y + 1) hx0]
    exact scaled_term_low (3 * R - 3) (x + 2 * (y + 1)) (x + 2 * y) (by omega) (by omega)
  · have hv : triangle_vertices R t = faceUpper R x y := by
      unfold triangle_vertices
      rw [if_neg h2, hxe, hye]
    have e0 : (triangle_vertices R t).1 = x + 1 + (y + 1) * R := by rw [hv]; rfl
    have e2 : (triangle_vertices R t).2.2 = x + 1 + y * R := by rw [hv]; rfl
    have hcell : x + (R - 1) * y + 1 < (R - 1) * (R - 1) := by omega
    have hxy : x + 2 * y + 7 ≤ 3 * R := by
      by_contra hcon
      have hxa : x = R - 2 := by omega
      have hya : y = R - 2 := by omega
      obtain ⟨j, rfl⟩ : ∃ j, R = j + 2 := ⟨R - 2, by omega⟩
      have hj1 : j + 2 - 1 = j + 1 := rfl
      have hj2 : j + 2 - 2 = j := rfl
      rw [hxa, hya, hj1, hj2] at hcell
      have hexp : j + (j + 1) * j + 1 = (j + 1) * (j + 1) := by ring
      omega
    unfold triangleForm
    rw [if_neg h2, e0, e2, kernelWeight_grid R (x + 1) (y + 1) hx1,
      kernelWeight_grid R (x + 1) y hx1]
    exact scaled_term_low (3 * R - 3) (x + 1 + 2 * (y + 1)) (x + 1 + 2 * y) (by omega)
      (by omega)

theorem triangleForm_sum_scaled_low (R : Nat) (hR : 2 ≤ R) (l : List Nat)
    (hl : ∀ t ∈ l, t + 1 < (R - 1) * (R - 1) * 2) :
    ∃ z : ℤ, (l.map (triangleForm R (fun _ => 1))).sum * (10 ^ 4 * 33 ^ (3 * R - 3)) =
        (z : ℚ) ∧ (27 : ℤ) ∣ z := by
  induction l with
  | nil => exact ⟨0, by simp, dvd_zero _⟩
  | cons t ts ih =>
    obtain ⟨z1, hz1, hd1⟩ := triangleForm_scaled_low R t hR (hl t (List.mem_cons_self _ _))
    obtain ⟨z2, hz2, hd2⟩ := ih (fun t' ht' => hl t' (List.mem_cons_of_mem _ ht'))
    refine ⟨z1 + z2, ?_, dvd_add hd1 hd2⟩
    rw [List.map_cons, List.sum_cons, add_mul, hz1, hz2]
    push_cast
    rfl

/-- The last triangle of the table contributes `1089 * b (3 R - 3)` modulo 27. -/
theorem triangleForm_scaled_top (j : Nat) :
    ∃ z : ℤ, triangleForm (j + 2) (fun _ => 1) ((j + j * (j + 1)) * 2 + 1) *
        (10 ^ 4 * 33 ^ (3 * j + 3)) = (z : ℚ) ∧
      (27 : ℤ) ∣ z - 1089 * kernelInt (3 * j + 3) := by
  have hv : triangle_vertices (j + 2) ((j + j * (j + 1)) * 2 + 1) = faceUpper (j + 2) j j :=
    triangle_vertices_upper (j + 2) j j (by omega)
  have h2 : ¬ ((j + j * (j + 1)) * 2 + 1) % 2 = 0 := by omega
  have e0 : (triangle_vertices (j + 2) ((j + j * (j + 1)) * 2 + 1)).1 =
      j + 1 + (j + 1) * (j + 2) := by rw [hv]; rfl
  have e2 : (triangle_vertices (j + 2) ((j + j * (j + 1)) * 2 + 1)).2.2 =
      j + 1 + j * (j + 2) := by rw [hv]; rfl
  have i1 : j + 1 + 2 * (j + 1) = 3 * j + 3 := by omega
  unfold triangleForm
  rw [if_neg h2, e0, e2, kernelWeight_grid (j + 2) (j + 1) (j + 1) (by omega),
    kernelWeight_grid (j + 2) (j + 1) j (by omega), i1]
  exact scaled_term_top (3 * j + 3) (j + 1 + 2 * j) (by omega)

/-- The linear form does not vanish on the constant heights. -/
theorem sweepForm_one_ne_zero (R : Nat) (hR : 2 ≤ R) : sweepForm R (fun _ => 1) ≠ 0 := by
  obtain ⟨j, rfl⟩ : ∃ j, R = j + 2 := ⟨R - 2, by omega⟩
  have hT : (j + 2 - 1) * (j + 2 - 1) * 2 = (j + j * (j + 1)) * 2 + 1 + 1 := by
    have hj1 : j + 2 - 1 = j + 1 := rfl
    rw [hj1]
    ring
  have hM : 3 * (j + 2) - 3 = 3 * j + 3 := by omega
  obtain ⟨z1, hz1, hd1⟩ := triangleForm_sum_scaled_low (j + 2) hR
    (List.range ((j + j * (j + 1)) * 2 + 1))
    (fun t ht => by rw [hT]; have := List.mem_range.mp ht; omega)
  obtain ⟨z2, hz2, hd2⟩ := triangleForm_scaled_top j
  rw [hM] at hz1
  intro h0
  unfold sweepForm at h0
  rw [hT, List.range_succ, List.map_append, List.sum_append, List.map_singleton,
    List.sum_singleton] at h0
  have hq : ((z1 + z2 : ℤ) : ℚ) = 0 := by
    push_cast
    rw [← hz1, ← hz2, ← add_mul, h0, zero_mul]
  have hz : z1 + z2 = 0 := by exact_mod_cast hq
  have hb : ¬ (3 : ℤ) ∣ kernelInt (3 * j + 2 + 1) := kernelInt_not_dvd (3 * j + 2)
  have hidx : 3 * j + 2 + 1 = 3 * j + 3 := rfl
  rw [hidx] at hb
  omega

/-! ### Convergence of the prior-only relaxation -/

/-- On a cloud of mean height zero the prior system has a zero right-hand side, and
the sweeps from the heights after `align` stay at zero. -/
theorem prior_zero_mean_sweeps (R : Nat) (s : ℚ) (m : Mesh) (P : List Vec3)
    (hmean : colMean cy P = 0) (k i : Nat) :
    (gauss_seidel (align_to_point_cloud R s m P) (align_to_point_cloud R s m P).h
      ((k : Nat) : ℤ)).getD i 0 = 0 := by
  have hz : ∀ r, (align_to_point_cloud R s m P).Jtz.vec r = 0 := by
    intro r
    simp only [align_to_point_cloud]
    rw [show colMean cy P = 0 from hmean]
    exact foldl_prior_vec_zero _ _ (fun _ => rfl) r
  exact gauss_seidel_zero_heights _ hz _ (align_h_getD R s m P) k i

/-- C10, as stated, fails: for the mesh of resolution `MESH_RESOLUTION` (30) and scaling
factor `MESH_SCALING_FACTOR` (1.4), aligned to a non-empty cloud of mean height 2, with
only the prior accumulated, the heights produced by repeated Gauss-Seidel sweeps from
the heights after `align` do not converge to the mean height at every vertex. -/
theorem prior_only_not_converging :
    exampleCloud ≠ [] ∧ colMean cy exampleCloud = 2 ∧
    ¬ (∀ i, i < MESH_RESOLUTION * MESH_RESOLUTION →
      convergesTo
        (fun k => (gauss_seidel
          (align_to_point_cloud MESH_RESOLUTION MESH_SCALING_FACTOR Mesh.new exampleCloud)
          (align_to_point_cloud MESH_RESOLUTION MESH_SCALING_FACTOR Mesh.new exampleCloud).h
          ((k : Nat) : ℤ)).getD i 0)
        (colMean cy exampleCloud)) := by
  have hmean : colMean cy exampleCloud = 2 := by norm_num [colMean, exampleCloud, cy]
  have hR : 2 ≤ MESH_RESOLUTION := by decide
  refine ⟨by simp [exampleCloud], hmean, ?_⟩
  apply prior_sweeps_miss_mean MESH_RESOLUTION hR MESH_SCALING_FACTOR Mesh.new exampleCloud
    (sweepForm_one_ne_zero MESH_RESOLUTION hR)
  rw [hmean]
  norm_num

/-- C10, amended: with only the prior accumulated (`align_to_point_cloud` on a non-empty
point cloud, no fit afterwards) on a mesh of resolution at least 2, the sequence of
height vectors produced by repeated Gauss-Seidel sweeps from the heights after `align`
converges, at every vertex, to the uniform reference height (the mean height of the
cloud) if and only if that mean height is `0`. -/
theorem prior_only_converges_iff_zero_mean (R : Nat) (hR : 2 ≤ R) (s : ℚ) (m : Mesh)
    (P : List Vec3) (_hP : P ≠ []) :
    (∀ i, i < R * R →
      convergesTo
        (fun k => (gauss_seidel (align_to_point_cloud R s m P) (align_to_point_cloud R s m P).h
          ((k : Nat) : ℤ)).getD i 0)
        (colMean cy P)) ↔ colMean cy P = 0 := by
  constructor
  · intro hconv
    by_contra hc
    exact prior_sweeps_miss_mean R hR s m P (sweepForm_one_ne_zero R hR) hc hconv
  · intro hmean i _ ε hε
    refine ⟨0, fun k _ => ?_⟩
    show |(gauss_seidel (align_to_point_cloud R s m P) (align_to_point_cloud R s m P).h
      ((k : Nat) : ℤ)).getD i 0 - colMean cy P| < ε
    rw [prior_zero_mean_sweeps R s m P hmean k i, hmean, sub_self, abs_zero]
    exact hε

theorem prior_only_converges_iff_zero_mean_witness :
    2 ≤ MESH_RESOLUTION ∧ levelCloud ≠ [] ∧ colMean cy levelCloud = 0 ∧
    450 < MESH_RESOLUTION * MESH_RESOLUTION ∧
    convergesTo
      (fun k => (gauss_seidel
        (align_to_point_cloud MESH_RESOLUTION MESH_SCALING_FACTOR Mesh.new levelCloud)
        (align_to_point_cloud MESH_RESOLUTION MESH_SCALING_FACTOR Mesh.new levelCloud).h
        ((k : Nat) : ℤ)).getD 450 0)
      (colMean cy levelCloud) :=
  have h1 : 2 ≤ MESH_RESOLUTION := by decide
  have h2 : levelCloud ≠ [] := by simp [levelCloud]
  have h3 : colMean cy levelCloud = 0 := by norm_num [colMean, levelCloud, cy]
  have h4 : 450 < MESH_RESOLUTION * MESH_RESOLUTION := by decide
  ⟨h1, h2, h3, h4,
    (prior_only_converges_iff_zero_mean MESH_RESOLUTION h1 MESH_SCALING_FACTOR Mesh.new
      levelCloud h2).mpr h3 450 h4⟩

end Rtsr
